import Mathlib

/-!
# Micro86: a verification development

A shallow embedding of the Micro86 emulator (`micro86.c`, `micro86_cpu.c`,
`micro86_common.c`, `micro86_dataset.c`, `memory.c`) and theorems about it.

C integers are embedded as unbounded `Int` (`int`) and `Nat` (`unsigned int`)
values; every operation that can leave the 32-bit range goes through
`to_int` / `to_unsigned`, which reduce modulo `2^32`.
-/

namespace Micro86

/-! ## Machine integers -/

/-- The predicate "x is a value of the C type `int`" (32-bit two's complement). -/
def is_int (x : Int) : Prop := -2147483648 ≤ x ∧ x ≤ 2147483647

instance (x : Int) : Decidable (is_int x) := by unfold is_int; infer_instance

/-- The predicate "n is a value of the C type `unsigned int`" (32 bits). -/
def is_unsigned (n : Nat) : Prop := n < 4294967296

instance (n : Nat) : Decidable (is_unsigned n) := by unfold is_unsigned; infer_instance

/-- Conversion to `unsigned int`: the 32-bit pattern of `x` read as a natural number. -/
def to_unsigned (x : Int) : Nat := (x % 4294967296).toNat

/-- Conversion to `int`: the 32-bit pattern `n` read in two's complement. -/
def to_int (n : Nat) : Int :=
  if n % 4294967296 < 2147483648 then ((n % 4294967296 : Nat) : Int)
  else ((n % 4294967296 : Nat) : Int) - 4294967296

/-- Result of an `int` computation whose mathematical value is `x`: overflow wraps modulo `2^32`. -/
def wrap_int (x : Int) : Int := to_int (to_unsigned x)

/-- The C expression `a + b` on `int`. -/
def int_add (a b : Int) : Int := wrap_int (a + b)

/-- The C expression `a - b` on `int`. -/
def int_sub (a b : Int) : Int := wrap_int (a - b)

/-- The C expression `a * b` on `int`. -/
def int_mul (a b : Int) : Int := wrap_int (a * b)

/-- The C expression `a / b` on `int` (truncation toward zero), for `b` non-zero. The one
quotient outside the range, `-2^31 / -1`, is undefined in C and wraps here. -/
def int_div (a b : Int) : Int := wrap_int (Int.tdiv a b)

/-- The C expression `a % b` on `int` (sign of the dividend), for `b` non-zero. -/
def int_mod (a b : Int) : Int := wrap_int (Int.tmod a b)

/-- The C expression `a << n` on `int`: the pattern shifted left, high bits dropped. -/
def int_shl (a : Int) (n : Nat) : Int := to_int (to_unsigned a <<< n)

/-- The C expression `a >> n` on `int`: the sign-preserving (arithmetic) right shift. -/
def int_shr (a : Int) (n : Nat) : Int := a >>> n

/-- The C expression `a & b` on `int`: bitwise and of the two 32-bit patterns. -/
def int_and (a b : Int) : Int := to_int (to_unsigned a &&& to_unsigned b)

/-! ## Instruction codec (`micro86_common.h`, `micro86_common.c`) -/

/-- The struct `m86_decoded_instruct`: two `int` fields. -/
structure m86_decoded_instruct where
  opcode : Int
  operand : Int
deriving DecidableEq, Repr

/-- The type `m86_encoded_instruct` is `int`. -/
abbrev m86_encoded_instruct := Int

/-- The function `m86_di_encoded`: `ei = (di.operand + (di.opcode << 16))`. -/
def m86_di_encoded (di : m86_decoded_instruct) : m86_encoded_instruct :=
  int_add di.operand (int_shl di.opcode 16)

/-- The function `m86_ei_decoded`: `di.opcode = (ei >> 16); di.operand = (ei & 0x0000FFFF)`. -/
def m86_ei_decoded (ei : m86_encoded_instruct) : m86_decoded_instruct :=
  { opcode := int_shr ei 16, operand := int_and ei 0x0000FFFF }

/-- The function `m86_ei_decoded_opcode`: `return (ei >> 16)`. -/
def m86_ei_decoded_opcode (ei : m86_encoded_instruct) : Int := int_shr ei 16

/-- The function `m86_ei_decoded_operand`: `return (ei & 0x0000FFFF)`. -/
def m86_ei_decoded_operand (ei : m86_encoded_instruct) : Int := int_and ei 0x0000FFFF

/-! ## Opcodes and constants (`micro86.h`, `micro86_proc.h`) -/

def HALT : Int := 0x0100
def LOAD : Int := 0x0202
def LOADI : Int := 0x0201
def STORE : Int := 0x0302
def ADD : Int := 0x0402
def ADDI : Int := 0x0401
def SUB : Int := 0x0502
def SUBI : Int := 0x0501
def MUL : Int := 0x0602
def MULI : Int := 0x0601
def DIV : Int := 0x0702
def DIVI : Int := 0x0701
def MOD : Int := 0x0802
def MODI : Int := 0x0801
def CMP : Int := 0x0902
def CMPI : Int := 0x0901
def JMPI : Int := 0x0A01
def JEI : Int := 0x0B01
def JNEI : Int := 0x0C01
def JLI : Int := 0x0D01
def JLEI : Int := 0x0E01
def JGI : Int := 0x0F01
def JGEI : Int := 0x1001
def IN : Int := 0x1100
def OUT : Int := 0x1200

def M86_DEF_MEM_SIZE : Nat := 20
def M86_INIT_MEM_VAL : Int := 0x00
def M86_MEM_EXT_SIZE : Nat := M86_DEF_MEM_SIZE

def ZERO_BIT_TRUE : Nat := 0x01
def ZERO_BIT_FALSE : Nat := 0x00
def SIGN_BIT_TRUE : Nat := 0x01
def SIGN_BIT_FALSE : Nat := 0x00

/-- The value of `EXIT_FAILURE` from `stdlib.h`. -/
def EXIT_FAILURE : Int := 1

/-! ## Processor (`micro86_proc.h`, `micro86_cpu.c`) -/

/-- The struct `micro86_proc`: `int acc; unsigned int ir, ip, flags;`. -/
structure micro86_proc where
  acc : Int
  ir : Nat
  ip : Nat
  flags : Nat
deriving DecidableEq, Repr

def DEF_REG_VAL : Nat := 0x00

/-- The function `m86_proc_init`: all four registers get `DEF_REG_VAL`. -/
def m86_proc_init : micro86_proc :=
  { acc := DEF_REG_VAL, ir := DEF_REG_VAL, ip := DEF_REG_VAL, flags := DEF_REG_VAL }

def m86_get_acc_reg (p : micro86_proc) : Int := p.acc

def m86_set_acc_reg (p : micro86_proc) (acc : Int) : micro86_proc := { p with acc := acc }

def m86_get_ir_reg (p : micro86_proc) : Nat := p.ir

def m86_set_ir_reg (p : micro86_proc) (ir : Nat) : micro86_proc := { p with ir := ir }

def m86_get_ip_reg (p : micro86_proc) : Nat := p.ip

def m86_set_ip_reg (p : micro86_proc) (ip : Nat) : micro86_proc := { p with ip := ip }

def m86_get_flags_reg (p : micro86_proc) : Nat := p.flags

/-- The function `m86_get_flags_zb`: `return (p.flags & 0x01)`. -/
def m86_get_flags_zb (p : micro86_proc) : Nat := p.flags &&& 0x01

/-- The function `m86_set_flags_zb`:
`p->flags = yes ? (p->flags | 0x01) : (p->flags & 0x02)`. -/
def m86_set_flags_zb (p : micro86_proc) (yes : Bool) : micro86_proc :=
  { p with flags := if yes then p.flags ||| 0x01 else p.flags &&& 0x02 }

/-- The function `m86_get_flags_sb`: `return (p.flags >> 1)`. -/
def m86_get_flags_sb (p : micro86_proc) : Nat := p.flags >>> 1

/-- The function `m86_set_flags_sb`:
`p->flags = yes ? (p->flags | 0x02) : (p->flags & 0x01)`. -/
def m86_set_flags_sb (p : micro86_proc) (yes : Bool) : micro86_proc :=
  { p with flags := if yes then p.flags ||| 0x02 else p.flags &&& 0x01 }

/-! ## Memory (`memory.c`) -/

/-- The type `memory` (`int *`): the allocated storage, one `int` per cell. The number of
cells is the size that was passed to the allocator. -/
abbrev memory := List Int

/-- The function `m_get_value`: `return *(m + pos)`. The result is `none` when `pos` lies outside
the allocated storage, where the C read is undefined. -/
def m_get_value (m : memory) (pos : Nat) : Option Int := m[pos]?

/-- The function `m_set_value`: `*((*m) + pos) = value`. The result is `none` when `pos` lies
outside the allocated storage, where the C write is undefined. -/
def m_set_value (m : memory) (pos : Nat) (value : Int) : Option memory :=
  if pos < m.length then some (m.set pos value) else none

/-! ## Dataset queries (`micro86_dataset.c`) -/

/-- The file-scope variables of `micro86_dataset.c`. The two hash tables are kept as
association lists searched from the front, a key being found by its value. (`om_table` is
created with `g_int_hash` and `g_str_equal`: a lookup matches an entry of equal hash, which is
the opcode itself, whose key bytes agree up to the first zero byte; for an opcode with a zero
byte among its four, as every 16-bit opcode has, that is equality of the opcodes.) -/
structure m86_dataset where
  initialized : Bool
  o_list : List Int
  m_list : List String
  oho_list : List Int
  mho_list : List String
  oi_list : List Int
  mi_list : List String
  reserved_words : List String
  om_table : List (Int × String)
  mo_table : List (String × Int)
deriving DecidableEq, Repr

/-- The ways a run of the emulator stops other than by leaving the loop. -/
inductive m86_stop where
  /-- A call `m86_error(stream, message, EXIT_FAILURE, cpu, memory, size)`: the message, then
  the post-mortem dump of the given processor and memory, then `exit`. -/
  | fatal (message : String) (cpu : micro86_proc) (mem : memory)
  /-- An `exit` from one of the dataset error printers (no post-mortem dump). -/
  | ds_fatal (message : String)
  /-- A read or write of cell `pos` outside the allocated storage: undefined in C. -/
  | outside_storage (pos : Nat)
deriving DecidableEq, Repr

/-- The function `m86ds_uninit_error` called with `EXIT_FAILURE`. -/
def m86ds_uninit_error {α : Type} : Except m86_stop α :=
  .error (.ds_fatal "ERROR: dataset not initialized!")

/-- The function `m86_invalid_opcode_error` called with `EXIT_FAILURE` (the message is kept
without the opcode it prints). -/
def m86_invalid_opcode_error {α : Type} : Except m86_stop α :=
  .error (.ds_fatal "ERROR: opcode is invalid!")

def m86ds_is_init (ds : m86_dataset) : Bool := ds.initialized

/-- The function `m86ds_is_valid_opcode`: `g_hash_table_contains(om_table, &opcode)`. -/
def m86ds_is_valid_opcode (ds : m86_dataset) (opcode : Int) : Except m86_stop Bool :=
  if !ds.initialized then m86ds_uninit_error
  else pure ((ds.om_table.lookup opcode).isSome)

/-- The function `m86ds_get_mnemonic`: `g_hash_table_lookup(om_table, &key)`. -/
def m86ds_get_mnemonic (ds : m86_dataset) (key : Int) : Except m86_stop String :=
  if !ds.initialized then m86ds_uninit_error
  else match ds.om_table.lookup key with
    | none => m86_invalid_opcode_error
    | some value => pure value

/-- The function `m86ds_opcode_has_operand`: a linear search of `oho_list`. -/
def m86ds_opcode_has_operand (ds : m86_dataset) (opcode : Int) : Except m86_stop Bool := do
  if !ds.initialized then m86ds_uninit_error
  else
    let valid ← m86ds_is_valid_opcode ds opcode
    if !valid then m86_invalid_opcode_error
    else pure (ds.oho_list.contains opcode)

/-- The function `m86ds_opcode_is_immediate`: false without an operand, else a linear search of
`oi_list`. -/
def m86ds_opcode_is_immediate (ds : m86_dataset) (opcode : Int) : Except m86_stop Bool := do
  if !ds.initialized then m86ds_uninit_error
  else
    let has_operand ← m86ds_opcode_has_operand ds opcode
    if !has_operand then pure false
    else pure (ds.oi_list.contains opcode)

def m86_di_is_valid_instruct (ds : m86_dataset) (di : m86_decoded_instruct) :
    Except m86_stop Bool :=
  if !m86ds_is_init ds then m86ds_uninit_error else m86ds_is_valid_opcode ds di.opcode

def m86_di_instruct_has_operand (ds : m86_dataset) (di : m86_decoded_instruct) :
    Except m86_stop Bool :=
  if !m86ds_is_init ds then m86ds_uninit_error else m86ds_opcode_has_operand ds di.opcode

def m86_di_instruct_is_immediate (ds : m86_dataset) (di : m86_decoded_instruct) :
    Except m86_stop Bool :=
  if !m86ds_is_init ds then m86ds_uninit_error else m86ds_opcode_is_immediate ds di.opcode

/-- Modelled from the spec: the data file `micro86_data.m86db` is not among the sources. These
are the lines such a file holds for the opcode catalogue of the specification: opcode, mnemonic,
whether the instruction takes an operand (marker `o`) and whether it is immediate (marker `i`);
"immediate variants end in 01, memory variants end in 02", and HALT, IN and OUT take no
operand. -/
def catalogue : List (Int × String × Bool × Bool) :=
  [ (HALT, "HALT", false, false), (LOAD, "LOAD", true, false), (LOADI, "LOADI", true, true),
    (STORE, "STORE", true, false), (ADD, "ADD", true, false), (ADDI, "ADDI", true, true),
    (SUB, "SUB", true, false), (SUBI, "SUBI", true, true), (MUL, "MUL", true, false),
    (MULI, "MULI", true, true), (DIV, "DIV", true, false), (DIVI, "DIVI", true, true),
    (MOD, "MOD", true, false), (MODI, "MODI", true, true), (CMP, "CMP", true, false),
    (CMPI, "CMPI", true, true), (JMPI, "JMPI", true, true), (JEI, "JEI", true, true),
    (JNEI, "JNEI", true, true), (JLI, "JLI", true, true), (JLEI, "JLEI", true, true),
    (JGI, "JGI", true, true), (JGEI, "JGEI", true, true), (IN, "IN", false, false),
    (OUT, "OUT", false, false) ]

/-- Modelled from the spec: the dataset after `m86ds_init` has read the catalogue lines, each
line appended to the lists its markers select (as the `switch (parts)` of `m86ds_load_data`
does) and entered in both tables. -/
def catalogue_dataset : m86_dataset :=
  { initialized := true
    o_list := catalogue.map (fun e => e.1)
    m_list := catalogue.map (fun e => e.2.1)
    oho_list := (catalogue.filter (fun e => e.2.2.1)).map (fun e => e.1)
    mho_list := (catalogue.filter (fun e => e.2.2.1)).map (fun e => e.2.1)
    oi_list := (catalogue.filter (fun e => e.2.2.1 && e.2.2.2)).map (fun e => e.1)
    mi_list := (catalogue.filter (fun e => e.2.2.1 && e.2.2.2)).map (fun e => e.2.1)
    reserved_words := "VAR" :: catalogue.map (fun e => e.2.1)
    om_table := catalogue.map (fun e => (e.1, e.2.1))
    mo_table := catalogue.map (fun e => (e.2.1, e.1)) }

/-- The memory `m_allocate_init` returns: `size` cells, each holding `init_val`. -/
def m_allocate_init (size : Nat) (init_val : Int) : memory := List.replicate size init_val

/-! ## Emulator (`micro86.c`) -/

/-- Lifts a memory access: an access outside the storage stops the run. -/
def in_storage {α : Type} (pos : Nat) (r : Option α) : Except m86_stop α :=
  match r with
  | some a => pure a
  | none => .error (.outside_storage pos)

/-- The function `m86_error`: prints the message and the post-mortem dump, then
`exit_on_exit_fail(error_code, error_code)`, which exits iff `error_code == EXIT_FAILURE`. -/
def m86_error (message : String) (error_code : Int) (cpu : micro86_proc) (mem : memory) :
    Except m86_stop Unit :=
  if error_code = EXIT_FAILURE then .error (.fatal message cpu mem) else pure ()

/-- The function `m86_check_zero_div_error`. -/
def m86_check_zero_div_error (divisor : Int) (error_code : Int) (cpu : micro86_proc)
    (mem : memory) : Except m86_stop Unit :=
  if divisor = 0 then m86_error "Micro86 ERROR: division by zero!" error_code cpu mem
  else pure ()

/-- The function `m86_check_no_prgm_error`. -/
def m86_check_no_prgm_error (program_size : Nat) (error_code : Int) (cpu : micro86_proc)
    (mem : memory) : Except m86_stop Unit :=
  if program_size = 0 then m86_error "Micro86 ERROR: no program in memory!" error_code cpu mem
  else pure ()

/-- The function `m86_check_memory_bounds`:
`if ((position < 0) || ((unsigned) position > mem_size))` then the error (the inner
`memory_bounds_error` is called with error code 0 and only prints). -/
def m86_check_memory_bounds (position : Int) (error_code : Int) (cpu : micro86_proc)
    (mem : memory) (mem_size : Nat) : Except m86_stop Unit :=
  if position < 0 ∨ to_unsigned position > mem_size then
    m86_error "Micro86 ERROR: memory violation!" error_code cpu mem
  else pure ()

/-- The function `m86_set_flag_reg`. -/
def m86_set_flag_reg (cpu : micro86_proc) (value : Int) : micro86_proc :=
  if value = 0 then
    m86_set_flags_sb (m86_set_flags_zb cpu true) false
  else if value < 0 then
    m86_set_flags_zb (m86_set_flags_sb cpu true) false
  else
    m86_set_flags_sb (m86_set_flags_zb cpu false) false

/-- The function `is_jmp_instruct`. -/
def is_jmp_instruct (di : m86_decoded_instruct) : Bool :=
  di.opcode = JMPI || di.opcode = JEI || di.opcode = JNEI || di.opcode = JLI ||
  di.opcode = JLEI || di.opcode = JGI || di.opcode = JGEI

/-- One line printed by `m86_disassemble`, before formatting: the three `fprintf` shapes, with
`raw` for a word whose opcode is not in the dataset (printed through the no-operand shape). -/
inductive m86_disassembled where
  /-- The raw word, formatted `0x%08X`. -/
  | raw (word : Int)
  /-- The mnemonic alone. -/
  | plain (mnemonic : String)
  /-- The mnemonic, two tabs and the operand. -/
  | immediate (mnemonic : String) (operand : Int)
  /-- The mnemonic, the operand, and `|operand: value|` with the memory cell at the operand. -/
  | cell (mnemonic : String) (operand : Int) (value : Int)
deriving DecidableEq, Repr

/-- The function `m86_disassemble`; the result is the line it prints. -/
def m86_disassemble (ds : m86_dataset) (cpu : micro86_proc) (mem : memory) (mem_size : Nat)
    (word : Int) : Except m86_stop m86_disassembled := do
  let di := m86_ei_decoded word
  if (← m86_di_is_valid_instruct ds di) then
    let output ← m86ds_get_mnemonic ds di.opcode
    let has_operand ← m86_di_instruct_has_operand ds di
    let nonjmp_immediate := (← m86_di_instruct_is_immediate ds di) && !(is_jmp_instruct di)
    if has_operand then
      m86_check_memory_bounds di.operand EXIT_FAILURE cpu mem mem_size
      if nonjmp_immediate then
        pure (.immediate output di.operand)
      else
        let value ← in_storage (to_unsigned di.operand)
          (m_get_value mem (to_unsigned di.operand))
        pure (.cell output di.operand value)
    else pure (.plain output)
  else pure (.raw word)

/-- The loop of `m86_disassembly` from cell `i` on, `n` cells still to print. -/
def m86_disassembly_loop (ds : m86_dataset) (cpu : micro86_proc) (mem : memory)
    (mem_size : Nat) : Nat → Nat → Except m86_stop (List m86_disassembled)
  | _, 0 => pure []
  | i, n + 1 => do
    m86_check_memory_bounds (to_int i) EXIT_FAILURE cpu mem mem_size
    let word ← in_storage i (m_get_value mem i)
    let line ← m86_disassemble ds cpu mem mem_size word
    let rest ← m86_disassembly_loop ds cpu mem mem_size (i + 1) n
    pure (line :: rest)

/-- The function `m86_disassembly`; the result is the list of lines it prints. -/
def m86_disassembly (ds : m86_dataset) (cpu : micro86_proc) (mem : memory) (mem_size : Nat)
    (program_size : Nat) : Except m86_stop (List m86_disassembled) := do
  m86_check_no_prgm_error program_size EXIT_FAILURE cpu mem
  m86_disassembly_loop ds cpu mem mem_size 0 program_size

/-- Everything `execute` reads and writes besides its by-value arguments: the `running` flag,
the processor, the memory, the bytes still to come on `STD_IN_SRC`, and the bytes `OUT` has
written to `STD_OUT_DEST`. -/
structure m86_machine where
  running : Bool
  cpu : micro86_proc
  mem : memory
  input : List Nat
  output : List Nat
deriving DecidableEq, Repr

/-- The `switch (di.opcode)` statement of `execute`. -/
def execute_switch (m : m86_machine) (mem_size : Nat) (di : m86_decoded_instruct) :
    Except m86_stop m86_machine := do
  let pos := to_unsigned di.operand
  if di.opcode = HALT then
    pure { m with running := false }
  else if di.opcode = LOAD then
    m86_check_memory_bounds di.operand EXIT_FAILURE m.cpu m.mem mem_size
    let v ← in_storage pos (m_get_value m.mem pos)
    pure { m with cpu := m86_set_acc_reg m.cpu v }
  else if di.opcode = LOADI then
    pure { m with cpu := m86_set_acc_reg m.cpu di.operand }
  else if di.opcode = STORE then
    m86_check_memory_bounds di.operand EXIT_FAILURE m.cpu m.mem mem_size
    let mem ← in_storage pos (m_set_value m.mem pos (m86_get_acc_reg m.cpu))
    pure { m with mem := mem }
  else if di.opcode = ADD then
    m86_check_memory_bounds di.operand EXIT_FAILURE m.cpu m.mem mem_size
    let v ← in_storage pos (m_get_value m.mem pos)
    pure { m with cpu := m86_set_acc_reg m.cpu (int_add (m86_get_acc_reg m.cpu) v) }
  else if di.opcode = ADDI then
    pure { m with cpu := m86_set_acc_reg m.cpu (int_add (m86_get_acc_reg m.cpu) di.operand) }
  else if di.opcode = SUB then
    m86_check_memory_bounds di.operand EXIT_FAILURE m.cpu m.mem mem_size
    let v ← in_storage pos (m_get_value m.mem pos)
    pure { m with cpu := m86_set_acc_reg m.cpu (int_sub (m86_get_acc_reg m.cpu) v) }
  else if di.opcode = SUBI then
    pure { m with cpu := m86_set_acc_reg m.cpu (int_sub (m86_get_acc_reg m.cpu) di.operand) }
  else if di.opcode = MUL then
    m86_check_memory_bounds di.operand EXIT_FAILURE m.cpu m.mem mem_size
    let v ← in_storage pos (m_get_value m.mem pos)
    pure { m with cpu := m86_set_acc_reg m.cpu (int_mul (m86_get_acc_reg m.cpu) v) }
  else if di.opcode = MULI then
    pure { m with cpu := m86_set_acc_reg m.cpu (int_mul (m86_get_acc_reg m.cpu) di.operand) }
  else if di.opcode = DIV then
    m86_check_memory_bounds di.operand EXIT_FAILURE m.cpu m.mem mem_size
    let divisor ← in_storage pos (m_get_value m.mem pos)
    m86_check_zero_div_error divisor EXIT_FAILURE m.cpu m.mem
    pure { m with cpu := m86_set_acc_reg m.cpu (int_div (m86_get_acc_reg m.cpu) divisor) }
  else if di.opcode = DIVI then
    m86_check_zero_div_error di.operand EXIT_FAILURE m.cpu m.mem
    pure { m with cpu := m86_set_acc_reg m.cpu (int_div (m86_get_acc_reg m.cpu) di.operand) }
  else if di.opcode = MOD then
    m86_check_memory_bounds di.operand EXIT_FAILURE m.cpu m.mem mem_size
    let divisor ← in_storage pos (m_get_value m.mem pos)
    m86_check_zero_div_error divisor EXIT_FAILURE m.cpu m.mem
    pure { m with cpu := m86_set_acc_reg m.cpu (int_mod (m86_get_acc_reg m.cpu) divisor) }
  else if di.opcode = MODI then
    m86_check_zero_div_error di.operand EXIT_FAILURE m.cpu m.mem
    pure { m with cpu := m86_set_acc_reg m.cpu (int_mod (m86_get_acc_reg m.cpu) di.operand) }
  else if di.opcode = CMP then
    m86_check_memory_bounds di.operand EXIT_FAILURE m.cpu m.mem mem_size
    let v ← in_storage pos (m_get_value m.mem pos)
    pure { m with cpu := m86_set_flag_reg m.cpu (int_sub (m86_get_acc_reg m.cpu) v) }
  else if di.opcode = CMPI then
    pure { m with cpu := m86_set_flag_reg m.cpu (int_sub (m86_get_acc_reg m.cpu) di.operand) }
  else if di.opcode = JMPI then
    pure { m with cpu := m86_set_ip_reg m.cpu pos }
  else if di.opcode = JEI then
    if m86_get_flags_zb m.cpu = ZERO_BIT_TRUE then
      pure { m with cpu := m86_set_ip_reg m.cpu pos }
    else pure m
  else if di.opcode = JNEI then
    if m86_get_flags_zb m.cpu = ZERO_BIT_FALSE then
      pure { m with cpu := m86_set_ip_reg m.cpu pos }
    else pure m
  else if di.opcode = JLI then
    if m86_get_flags_sb m.cpu = SIGN_BIT_TRUE then
      pure { m with cpu := m86_set_ip_reg m.cpu pos }
    else pure m
  else if di.opcode = JLEI then
    if m86_get_flags_sb m.cpu = SIGN_BIT_TRUE ∨ m86_get_flags_zb m.cpu = ZERO_BIT_TRUE then
      pure { m with cpu := m86_set_ip_reg m.cpu pos }
    else pure m
  else if di.opcode = JGI then
    if m86_get_flags_zb m.cpu = ZERO_BIT_FALSE ∧ m86_get_flags_sb m.cpu = SIGN_BIT_FALSE then
      pure { m with cpu := m86_set_ip_reg m.cpu pos }
    else pure m
  else if di.opcode = JGEI then
    let zero_bit := m86_get_flags_zb m.cpu
    if (zero_bit = ZERO_BIT_FALSE ∧ m86_get_flags_sb m.cpu = SIGN_BIT_FALSE) ∨
        zero_bit = ZERO_BIT_TRUE then
      pure { m with cpu := m86_set_ip_reg m.cpu pos }
    else pure m
  else if di.opcode = IN then
    match m.input with
    | [] =>
      m86_error "Micro86 ERROR: cannot read input!" EXIT_FAILURE m.cpu m.mem
      pure m
    | input :: rest =>
      pure { m with cpu := m86_set_acc_reg m.cpu ((input % 256 : Nat) : Int), input := rest }
  else if di.opcode = OUT then
    pure { m with output := m.output ++ [to_unsigned (m86_get_acc_reg m.cpu) % 256, 10] }
  else do
    m86_error "Micro86 ERROR: invalid instruction!" EXIT_FAILURE m.cpu m.mem
    pure m

/-- The function `execute`: when `trace` is set the instruction register is disassembled first
(which has its own fatal exits), then the `switch` runs. -/
def execute (ds : m86_dataset) (trace : Bool) (m : m86_machine) (mem_size : Nat)
    (di : m86_decoded_instruct) : Except m86_stop m86_machine := do
  if trace then
    let _ ← m86_disassemble ds m.cpu m.mem mem_size (to_int (m86_get_ir_reg m.cpu))
  execute_switch m mem_size di

/-- The function `fetch`; the result is the decoded instruction and the updated processor. -/
def fetch (cpu : micro86_proc) (mem : memory) (mem_size : Nat) (program_size : Nat) :
    Except m86_stop (m86_decoded_instruct × micro86_proc) := do
  m86_check_no_prgm_error program_size EXIT_FAILURE cpu mem
  let ip := m86_get_ip_reg cpu
  if ip ≥ mem_size then
    m86_error "Micro86 ERROR: memory violation!" EXIT_FAILURE cpu mem
  let cpu := m86_set_ip_reg cpu ((ip + 1) % 4294967296)
  if m86_get_ip_reg cpu > program_size then
    m86_error "Micro86 ERROR: program end reached!" EXIT_FAILURE cpu mem
  let cpu := m86_set_ir_reg cpu (to_unsigned (← in_storage ip (m_get_value mem ip)))
  pure (m86_ei_decoded (to_int (m86_get_ir_reg cpu)), cpu)

/-- The `while (*running)` loop of `m86_boot_up`, run for at most `fuel` iterations; the result
is `none` when the loop is still running after `fuel` iterations. -/
def m86_boot_up_loop (ds : m86_dataset) (trace : Bool) (mem_size program_size : Nat) :
    Nat → m86_machine → Except m86_stop (Option m86_machine)
  | 0, m => pure (if m.running then none else some m)
  | fuel + 1, m =>
    if m.running then do
      let (di, cpu) ← fetch m.cpu m.mem mem_size program_size
      let m ← execute ds trace { m with cpu := cpu } mem_size di
      m86_boot_up_loop ds trace mem_size program_size fuel m
    else pure (some m)

/-- The function `m86_boot_up`: sets `running`, runs the loop, then prints the disassembly when
`dump` is set (which has its own fatal exits) and the post-mortem dump. -/
def m86_boot_up (ds : m86_dataset) (m : m86_machine) (mem_size program_size : Nat)
    (dump trace : Bool) (fuel : Nat) : Except m86_stop (Option m86_machine) := do
  match (← m86_boot_up_loop ds trace mem_size program_size fuel { m with running := true }) with
  | none => pure none
  | some m =>
    if dump then
      let _ ← m86_disassembly ds m.cpu m.mem mem_size program_size
    pure (some m)

/-! ## Memory ranges and extension (`memory.c`) -/

/-- The block `malloc` hands to `m_allocate`: `size` cells whose contents are indeterminate,
given here by `fresh`. Allocation failure is not modelled. -/
def m_allocate (size : Nat) (fresh : Nat → Int) : memory := (List.range size).map fresh

/-- The loop of `m_set_values`, `for (i = start; i < end; i++) *((*m) + i) = value`, from
index `i` on; `fuel` bounds the iterations left. -/
def m_set_values_loop (end_ : Nat) (value : Int) : Nat → Nat → memory → Option memory
  | 0, _, m => some m
  | fuel + 1, i, m =>
    if i < end_ then
      match m_set_value m i value with
      | none => none
      | some m1 => m_set_values_loop end_ value fuel (i + 1) m1
    else some m

/-- The function `m_set_values`. -/
def m_set_values (m : memory) (start end_ : Nat) (value : Int) : Option memory :=
  m_set_values_loop end_ value (end_ - start) start m

/-- The loop of `m_copy_arr`,
`for (i = start2, j = start1; ((i < end2) && (j < end1)); i++, j++) *((*m) + i) = *(arr + j)`,
from indices `i`, `j` on; `fuel` bounds the iterations left. -/
def m_copy_arr_loop (arr : memory) (end1 end2 : Nat) : Nat → Nat → Nat → memory → Option memory
  | 0, _, _, m => some m
  | fuel + 1, i, j, m =>
    if i < end2 ∧ j < end1 then
      match m_get_value arr j with
      | none => none
      | some v =>
        match m_set_value m i v with
        | none => none
        | some m1 => m_copy_arr_loop arr end1 end2 fuel (i + 1) (j + 1) m1
    else some m

/-- The function `m_copy_arr`. -/
def m_copy_arr (arr : memory) (start1 end1 : Nat) (m : memory) (start2 end2 : Nat) :
    Option memory :=
  m_copy_arr_loop arr end1 end2 (end2 - start2) start2 start1 m

/-- The function `m_copy_mem`. -/
def m_copy_mem (src : memory) (start1 end1 : Nat) (dest : memory) (start2 end2 : Nat) :
    Option memory :=
  m_copy_arr src start1 end1 dest start2 end2

/-- The function `m_extend`: a fresh block of `size + e_size` cells (unsigned sum) receives
the first `size` cells of the old one and replaces it. -/
def m_extend (m : memory) (size e_size : Nat) (fresh : Nat → Int) : Option memory :=
  m_copy_mem m 0 size (m_allocate ((size + e_size) % 4294967296) fresh) 0 size

/-- The function `m_extend_init`. -/
def m_extend_init (m : memory) (size e_size : Nat) (init_val : Int) (fresh : Nat → Int) :
    Option memory :=
  match m_extend m size e_size fresh with
  | none => none
  | some m1 => m_set_values m1 size ((size + e_size) % 4294967296) init_val

/-- The value `m_extend` returns: `false` when the pointer is `NULL` or `m_allocate` fails,
else `true`, whatever the sizes; `m_null` stands for `m == NULL` and `allocated` for the result
of `m_allocate(&temp, size + e_size)`. -/
def m_extend_status (m_null allocated : Bool) : Bool :=
  if m_null then false
  else if !allocated then false
  else true

/-- The value `m_extend_init` returns:
`if ((m == NULL) || (!m_extend(m, size, e_size))) return false; ...; return true`. -/
def m_extend_init_status (m_null allocated : Bool) : Bool :=
  if m_null || !(m_extend_status m_null allocated) then false
  else true

/-! ## C library input (`stdio.h`, `string.h`, `ctype.h`) and string helpers (`common_str.c`) -/

/-- The characters `fgets` stores when at most `n` more may be read: up to and including the
first newline; the second component is what is left of the stream. -/
def fgets_read : Nat → List Char → List Char × List Char
  | 0, stream => ([], stream)
  | _ + 1, [] => ([], [])
  | n + 1, c :: stream =>
    if c = Char.ofNat 10 then ([c], stream)
    else ((c :: (fgets_read n stream).1), (fgets_read n stream).2)

/-- The call `fgets(line, size, file)` on a stream with the given characters left: `none` for
the `NULL` it returns at end of file, else the characters stored and the rest of the stream. -/
def fgets (size : Nat) (stream : List Char) : Option (List Char × List Char) :=
  if stream = [] then none else some (fgets_read (size - 1) stream)

/-- The C string held in a buffer: its characters up to the first NUL. -/
def c_string (buffer : List Char) : List Char := buffer.takeWhile (fun c => c ≠ Char.ofNat 0)

/-- The function `is_empty_line`: `(*line) == '\n'`. -/
def is_empty_line (line : List Char) : Bool := line.head? = some (Char.ofNat 10)

/-- The function `char_pos_str`: position of the first `c` in `str`; `none` for its -1. -/
def char_pos_str (str : List Char) (c : Char) : Option Nat :=
  if c ∈ str then some (str.indexOf c) else none

/-- The C library function `strspn`: length of the longest prefix of `str` made of characters
of `accept`. -/
def strspn (str : List Char) (accept : List Char) : Nat :=
  (str.takeWhile (fun c => accept.contains c)).length

/-- The C library predicate `isspace` in the "C" locale. -/
def isspace (c : Char) : Bool :=
  c = ' ' || (9 ≤ c.toNat && c.toNat ≤ 13)

/-- The C library predicate `isxdigit`. -/
def isxdigit (c : Char) : Bool :=
  ('0'.toNat ≤ c.toNat && c.toNat ≤ '9'.toNat) ||
  ('a'.toNat ≤ c.toNat && c.toNat ≤ 'f'.toNat) ||
  ('A'.toNat ≤ c.toNat && c.toNat ≤ 'F'.toNat)

/-- The value of a hexadecimal digit. -/
def xdigit_value (c : Char) : Nat :=
  if c.toNat ≤ '9'.toNat then c.toNat - '0'.toNat
  else if c.toNat ≤ 'F'.toNat then c.toNat - 'A'.toNat + 10
  else c.toNat - 'a'.toNat + 10

/-- The number written by a sequence of hexadecimal digits. -/
def hex_value (digits : List Char) : Nat :=
  digits.foldl (fun acc c => 16 * acc + xdigit_value c) 0

/-- The leading zero of a number and the `x` or `X` that may follow it, as `sscanf` reads them
for `%X`: the zero goes to the digit buffer, the letter is dropped, and each of the two uses up
one position of the field width. The result is the buffer, the input left and the width left. -/
def sscanf_hex_lead (s : List Char) (width : Nat) : List Char × List Char × Nat :=
  match s with
  | [] => ([], [], width)
  | c :: s1 =>
    if c = '0' then
      match s1 with
      | [] => (['0'], [], width - 1)
      | x :: s2 =>
        if x = 'x' ∨ x = 'X' then (['0'], s2, width - 2) else (['0'], x :: s2, width - 1)
    else ([], c :: s1, width)

/-- The digit buffer `sscanf` fills for `%X` from input that starts after the sign, within
`width` characters: what `sscanf_hex_lead` puts there, then hexadecimal digits while the width
lasts. -/
def sscanf_hex_digits (s : List Char) (width : Nat) : List Char :=
  (sscanf_hex_lead s width).1 ++
    ((sscanf_hex_lead s width).2.1.takeWhile isxdigit).take (sscanf_hex_lead s width).2.2

/-- A number as `sscanf` reads it for `%X` within a field of `width` characters, from input
whose leading white space is gone: an optional sign, which uses up one position of the width,
then the digits. The result is whether the sign is `-`, and the digit buffer. -/
def sscanf_hex_number (s : List Char) (width : Nat) : Bool × List Char :=
  match s with
  | [] => (false, [])
  | c :: s1 =>
    if c = '-' then (true, sscanf_hex_digits s1 (width - 1))
    else if c = '+' then (false, sscanf_hex_digits s1 (width - 1))
    else (false, sscanf_hex_digits (c :: s1) width)

/-- The call `sscanf(str, "%08X", &instruction)` with `int instruction`: `none` when it does
not return 1 (no digit to convert), else the `int` stored. White space is skipped, the number is
read by `sscanf_hex_number` with field width 8, and its value, negated when the sign is `-`, is
stored as a 32-bit pattern. -/
def sscanf_08X (str : List Char) : Option Int :=
  if (sscanf_hex_number (str.dropWhile isspace) 8).2 = [] then none
  else if (sscanf_hex_number (str.dropWhile isspace) 8).1 then
    some (to_int ((4294967296 - hex_value (sscanf_hex_number (str.dropWhile isspace) 8).2
      % 4294967296) % 4294967296))
  else some (to_int (hex_value (sscanf_hex_number (str.dropWhile isspace) 8).2))

/-! ## Loader and `main` (`micro86.c`) -/

def M86_PRGM_FILE_LINE_SIZE : Nat := 80
def M86_PRGM_FILE_COMMENT : Char := '#'
def M86_PRGM_FILE_DELIM : List Char := [' ']

/-- What `m86_loader` updates through its pointer arguments: the memory, its size and the
program size. -/
structure m86_loaded where
  mem : memory
  mem_size : Nat
  program_size : Nat
deriving DecidableEq, Repr

/-- The text of `instruct` when the loop body of `m86_loader` sets `found_instruct` for the
line: the line cut at its first comment character, or the whole line when it has none; `none`
when the comment character is preceded by delimiters only. -/
def m86_loader_instruct (line : List Char) : Option (List Char) :=
  match char_pos_str line M86_PRGM_FILE_COMMENT with
  | some comment_pos =>
    if comment_pos ≠ strspn line M86_PRGM_FILE_DELIM then some (line.take comment_pos)
    else none
  | none => some line

/-- The statements of the loop body of `m86_loader` that follow a successful `sscanf`: the
capacity check, with the extension when resizing is allowed, and the write of the word. -/
def m86_loader_store (fresh : Nat → Int) (mem_resize : Bool) (cpu : micro86_proc)
    (instruction : Int) (st : m86_loaded) : Except m86_stop m86_loaded :=
  if st.program_size ≥ st.mem_size then
    if !mem_resize then
      .error (.fatal "Micro86 ERROR: memory violation!" cpu st.mem)
    else do
      let mem ← in_storage st.mem_size
        (m_extend_init st.mem st.mem_size M86_MEM_EXT_SIZE M86_INIT_MEM_VAL fresh)
      let mem ← in_storage st.program_size (m_set_value mem st.program_size instruction)
      pure { mem := mem
             mem_size := (st.mem_size + M86_MEM_EXT_SIZE) % 4294967296
             program_size := (st.program_size + 1) % 4294967296 }
  else do
    let mem ← in_storage st.program_size (m_set_value st.mem st.program_size instruction)
    pure { st with mem := mem, program_size := (st.program_size + 1) % 4294967296 }

/-- The body of the `while (fgets(...) != NULL)` loop of `m86_loader` for one line read. -/
def m86_loader_line (fresh : Nat → Int) (mem_resize : Bool) (cpu : micro86_proc)
    (line : List Char) (st : m86_loaded) : Except m86_stop m86_loaded :=
  if is_empty_line line then pure st
  else
    match m86_loader_instruct line with
    | none => pure st
    | some instruct =>
      match sscanf_08X instruct with
      | none => .error (.fatal "Micro86 ERROR: invalid instruction!" cpu st.mem)
      | some instruction => m86_loader_store fresh mem_resize cpu instruction st

/-- The `while (fgets(line, M86_PRGM_FILE_LINE_SIZE + 1, file) != NULL)` loop of `m86_loader`
on a stream with the given characters left; `fuel` bounds the calls of `fgets` left. -/
def m86_loader_loop (fresh : Nat → Int) (mem_resize : Bool) (cpu : micro86_proc) :
    Nat → List Char → m86_loaded → Except m86_stop m86_loaded
  | 0, _, st => pure st
  | fuel + 1, stream, st =>
    match fgets (M86_PRGM_FILE_LINE_SIZE + 1) stream with
    | none => pure st
    | some (line, rest) =>
      match m86_loader_line fresh mem_resize cpu (c_string line) st with
      | .error e => .error e
      | .ok st1 => m86_loader_loop fresh mem_resize cpu fuel rest st1

/-- The function `m86_loader` on a file with the given contents (`none` when it cannot be
opened). Every call of `fgets` but the last reads at least one character, so the loop is given
one call per character of the file and one more. -/
def m86_loader (file : Option (List Char)) (cpu : micro86_proc) (mem : memory) (mem_size : Nat)
    (mem_resize : Bool) (fresh : Nat → Int) : Except m86_stop m86_loaded :=
  match file with
  | none => .error (.fatal "Micro86 ERROR: cannot read program file!" cpu mem)
  | some text =>
    m86_loader_loop fresh mem_resize cpu (text.length + 1) text
      { mem := mem, mem_size := mem_size, program_size := 0 }

/-- The function `main` once the command line has been read: the flags, the contents of the
program file, the dataset `m86ds_init` builds from the data file, the bytes on standard input
and the number of loop iterations allowed. -/
def main (file : Option (List Char)) (dump trace mem_resize : Bool) (ds : m86_dataset)
    (input : List Nat) (fresh : Nat → Int) (fuel : Nat) :
    Except m86_stop (Option m86_machine) :=
  match m86_loader file m86_proc_init (m_allocate_init M86_DEF_MEM_SIZE M86_INIT_MEM_VAL)
      M86_DEF_MEM_SIZE mem_resize fresh with
  | .error e => .error e
  | .ok loaded =>
    m86_boot_up ds
      { running := false, cpu := m86_proc_init, mem := loaded.mem, input := input, output := [] }
      loaded.mem_size loaded.program_size dump trace fuel

/-- The loop of `m86_boot_up` together with a record of its calls of `execute`: for each call,
the address the instruction was fetched from and the decoded instruction. -/
def m86_boot_up_loop_log (ds : m86_dataset) (trace : Bool) (mem_size program_size : Nat) :
    Nat → m86_machine →
      Except m86_stop (Option m86_machine) × List (Nat × m86_decoded_instruct)
  | 0, m => (pure (if m.running then none else some m), [])
  | fuel + 1, m =>
    if m.running then
      match fetch m.cpu m.mem mem_size program_size with
      | .error e => (.error e, [])
      | .ok (di, cpu) =>
        match execute ds trace { m with cpu := cpu } mem_size di with
        | .error e => (.error e, [(m.cpu.ip, di)])
        | .ok m1 =>
          ((m86_boot_up_loop_log ds trace mem_size program_size fuel m1).1,
            (m.cpu.ip, di) :: (m86_boot_up_loop_log ds trace mem_size program_size fuel m1).2)
    else (pure (some m), [])

/-! ## Program files as lines -/

/-- The contents of a file made of the given lines, each ended by a newline, and of a last
line with no newline after it (empty when the file ends in a newline or is empty). -/
def file_text : List (List Char) → List Char → List Char
  | [], last => last
  | l :: ls, last => l ++ Char.ofNat 10 :: file_text ls last

/-- A line that is wholly comment: its first character other than a space is `#`. -/
def wholly_comment (l : List Char) : Bool := (l.dropWhile (fun c => c = ' ')).head? = some '#'

/-- The instruction lines among the given lines (each without its newline): those that are
neither empty nor wholly comment. -/
def instruction_lines (ls : List (List Char)) : List (List Char) :=
  ls.filter (fun l => !l.isEmpty && !wholly_comment l)

/-- The text of a line before its first `#`. -/
def before_comment (l : List Char) : List Char := l.takeWhile (fun c => c ≠ '#')

/-- The given lines with every wholly-comment line deleted and every other line cut at its
first `#`. -/
def without_comments (ls : List (List Char)) : List (List Char) :=
  (ls.filter (fun l => !wholly_comment l)).map before_comment

/-- The loop body of `m86_loader` applied in turn to each of the given lines, a line being given
without its newline and an empty line being passed over. -/
def m86_loader_lines (fresh : Nat → Int) (mem_resize : Bool) (cpu : micro86_proc) :
    List (List Char) → m86_loaded → Except m86_stop m86_loaded
  | [], st => pure st
  | l :: ls, st =>
    if l = [] then m86_loader_lines fresh mem_resize cpu ls st
    else
      match m86_loader_line fresh mem_resize cpu l st with
      | .error e => .error e
      | .ok st1 => m86_loader_lines fresh mem_resize cpu ls st1

/-- The program file of scenario S3 of the specification, one word per line. -/
def scenario_S3_file : List Char :=
  "02010005\n09010003\n0B010006\n0F010007\n01000000\n01000000\n02010063\n01000000\n".toList

/-- The program file of scenario S2 of the specification, one word per line. -/
def scenario_S2_file : List Char := "02010007\n03020010\n01000000\n".toList

/-! ## Range comparison, search and dump (`memory.c`) -/

/-- The loop of `m_eq_check`,
`for (i = start2, j = start1; ((i < end2) && (j < end1)); i++, j++)
if (*(m1 + i) != *(m2 + j)) return false;`, from indices `i`, `j` on, followed by its
`return true`; `none` for a read outside the storage, `fuel` bounds the iterations left. -/
def m_eq_check_loop (m1 m2 : memory) (end1 end2 : Nat) : Nat → Nat → Nat → Option Bool
  | 0, _, _ => some true
  | fuel + 1, i, j =>
    if i < end2 ∧ j < end1 then
      match m_get_value m1 i with
      | none => none
      | some a =>
        match m_get_value m2 j with
        | none => none
        | some b =>
          if a ≠ b then some false
          else m_eq_check_loop m1 m2 end1 end2 fuel (i + 1) (j + 1)
    else some true

/-- The function `m_eq_check`; a memory argument is `none` for `NULL`, and the two range sizes
are compared as the unsigned differences they are in C. -/
def m_eq_check (m1 : Option memory) (start1 end1 : Nat) (m2 : Option memory)
    (start2 end2 : Nat) : Option Bool :=
  match m1, m2 with
  | none, none => some true
  | none, some _ => some false
  | some _, none => some false
  | some a, some b =>
    if (end1 + 4294967296 - start1) % 4294967296 ≠ (end2 + 4294967296 - start2) % 4294967296
    then some false
    else m_eq_check_loop a b end1 end2 (end2 - start2) start2 start1

/-- How a call of `m_search_s` ends: with the `int` it returns, at a read outside the storage
(undefined in C), or not within the number of calls allowed. -/
inductive m_searched where
  | returned (value : Int)
  | outside_storage (pos : Nat)
  | unfinished
deriving DecidableEq, Repr

/-- The function `m_search_s`, with `int low, high` and `unsigned int mid = (low + high) / 2`:
the sum and the quotient are taken in `int`, the result is converted to unsigned, and `mid + 1`
and `mid - 1` are unsigned values converted back to `int` for the recursive call; `fuel` bounds
the depth of the recursion. -/
def m_search_s (m : memory) : Nat → Int → Int → Int → m_searched
  | 0, _, _, _ => .unfinished
  | fuel + 1, low, high, key =>
    if low > high then .returned (-1)
    else
      match m_get_value m (to_unsigned (int_div (int_add low high) 2)) with
      | none => .outside_storage (to_unsigned (int_div (int_add low high) 2))
      | some v =>
        if v = key then .returned (to_int (to_unsigned (int_div (int_add low high) 2)))
        else if v < key then
          m_search_s m fuel
            (to_int ((to_unsigned (int_div (int_add low high) 2) + 1) % 4294967296)) high key
        else
          m_search_s m fuel low
            (to_int ((to_unsigned (int_div (int_add low high) 2) + 4294967296 - 1)
              % 4294967296)) key

def MEM_SKIP_VAL : Int := 0x00

/-- One line printed by `m_print_memory`: `"0x%08X:\t0x%08X\n"` with an address and the value
of its cell, or the line `". . . . .\n"`. -/
inductive m_printed where
  | cell (address : Nat) (value : Int)
  | dots
deriving DecidableEq, Repr

/-- The loop `while (i < end)` of `m_print_memory` from index `i` on with the given count
`skip_lines`; the result is the lines printed, `none` for a read outside the storage; `fuel`
bounds the iterations left. -/
def m_print_memory_loop (m : memory) (end_ : Nat) : Nat → Nat → Nat → Option (List m_printed)
  | 0, _, _ => some []
  | fuel + 1, i, skip_lines =>
    if i < end_ then
      match m_get_value m i with
      | none => none
      | some v =>
        if v = MEM_SKIP_VAL then
          if (skip_lines + 1) % 4294967296 > 1 ∧ i < (end_ + 4294967296 - 1) % 4294967296 then
            if (skip_lines + 1) % 4294967296 = 2 then
              (m_print_memory_loop m end_ fuel (i + 1) ((skip_lines + 1) % 4294967296)).map
                (fun out => m_printed.dots :: out)
            else m_print_memory_loop m end_ fuel (i + 1) ((skip_lines + 1) % 4294967296)
          else
            (m_print_memory_loop m end_ fuel (i + 1) ((skip_lines + 1) % 4294967296)).map
              (fun out => m_printed.cell i v :: out)
        else
          (m_print_memory_loop m end_ fuel (i + 1) 0).map (fun out => m_printed.cell i v :: out)
    else some []

/-- The function `m_print_memory` on an allocated memory and an open stream; the result is the
lines it prints. -/
def m_print_memory (m : memory) (start end_ : Nat) : Option (List m_printed) :=
  m_print_memory_loop m end_ (end_ - start) start 0

/-! ## Dataset loading (`micro86_dataset.c`) -/

/-- The digit `printf` writes for a value below 16 under `%X`. -/
def hex_digit (d : Nat) : Char :=
  if d < 10 then Char.ofNat ('0'.toNat + d) else Char.ofNat ('A'.toNat + (d - 10))

/-- The conversion `%08X` of `printf` applied to an `int` or `unsigned int` argument: the eight
hexadecimal digits of its 32-bit pattern. -/
def format_08X (value : Int) : List Char :=
  [7, 6, 5, 4, 3, 2, 1, 0].map (fun k => hex_digit (to_unsigned value / 16 ^ k % 16))

/-- The format `M86_PRINT_FORMAT`, `"0x%08X"`, applied to a value. -/
def M86_PRINT_FORMAT (value : Int) : List Char := '0' :: 'x' :: format_08X value

/-- The text `m86_disassemble` prints for a line: `"%s\n"` (with the raw word written by
`sprintf(output, M86_PRINT_FORMAT, word)` when the opcode is not in the dataset),
`"%s\t\t" M86_PRINT_FORMAT "\n"`, or
`"%s\t\t" M86_PRINT_FORMAT "\t\t|" M86_PRINT_FORMAT ": " M86_PRINT_FORMAT "|\n"`. -/
def m86_disassembled_text : m86_disassembled → List Char
  | .raw word => M86_PRINT_FORMAT word ++ "\n".toList
  | .plain output => output.toList ++ "\n".toList
  | .immediate output operand =>
    output.toList ++ "\t\t".toList ++ M86_PRINT_FORMAT operand ++ "\n".toList
  | .cell output operand value =>
    output.toList ++ "\t\t".toList ++ M86_PRINT_FORMAT operand ++ "\t\t|".toList ++
      M86_PRINT_FORMAT operand ++ ": ".toList ++ M86_PRINT_FORMAT value ++ "|\n".toList

/-- The processor states reached from `m86_proc_init` by calls of `m86_set_flags_zb`,
`m86_set_flags_sb` and `m86_set_flag_reg`, by fetches and by executed instructions, whatever
the memory, the dataset and the sizes at each step. -/
inductive reached_by_calls : micro86_proc → Prop where
  | init : reached_by_calls m86_proc_init
  | set_flags_zb (p : micro86_proc) (yes : Bool) :
    reached_by_calls p → reached_by_calls (m86_set_flags_zb p yes)
  | set_flags_sb (p : micro86_proc) (yes : Bool) :
    reached_by_calls p → reached_by_calls (m86_set_flags_sb p yes)
  | set_flag_reg (p : micro86_proc) (value : Int) :
    reached_by_calls p → reached_by_calls (m86_set_flag_reg p value)
  | fetch (p : micro86_proc) (mem : memory) (mem_size program_size : Nat)
      (r : m86_decoded_instruct × micro86_proc) :
    reached_by_calls p → fetch p mem mem_size program_size = .ok r → reached_by_calls r.2
  | execute (ds : m86_dataset) (trace : Bool) (m m1 : m86_machine) (mem_size : Nat)
      (di : m86_decoded_instruct) :
    reached_by_calls m.cpu → execute ds trace m mem_size di = .ok m1 →
    reached_by_calls m1.cpu

/-- The processor states reached from `m86_proc_init` by fetches and executed instructions
alone. -/
inductive reached_by_instructions : micro86_proc → Prop where
  | init : reached_by_instructions m86_proc_init
  | fetch (p : micro86_proc) (mem : memory) (mem_size program_size : Nat)
      (r : m86_decoded_instruct × micro86_proc) :
    reached_by_instructions p → fetch p mem mem_size program_size = .ok r →
    reached_by_instructions r.2
  | execute (ds : m86_dataset) (trace : Bool) (m m1 : m86_machine) (mem_size : Nat)
      (di : m86_decoded_instruct) :
    reached_by_instructions m.cpu → execute ds trace m mem_size di = .ok m1 →
    reached_by_instructions m1.cpu

/-- The condition under which the tracing step of `execute` does not stop the run: with `trace`
set, disassembling the instruction register returns. -/
def trace_passes (ds : m86_dataset) (trace : Bool) (cpu : micro86_proc) (mem : memory)
    (mem_size : Nat) : Prop :=
  trace = true →
    (m86_disassemble ds cpu mem mem_size (to_int (m86_get_ir_reg cpu))).isOk = true

instance (ds : m86_dataset) (trace : Bool) (cpu : micro86_proc) (mem : memory) (mem_size : Nat) :
    Decidable (trace_passes ds trace cpu mem mem_size) := by
  unfold trace_passes; infer_instance

/-! ## Machine integers: lemmas -/

theorem to_unsigned_lt (x : Int) : to_unsigned x < 4294967296 := by
  unfold to_unsigned; omega

theorem to_unsigned_cast (x : Int) : ((to_unsigned x : Nat) : Int) = x % 4294967296 := by
  unfold to_unsigned; omega

theorem to_int_of_lt (n : Nat) (h : n < 2147483648) : to_int n = n := by
  unfold to_int
  have h1 : n % 4294967296 = n := Nat.mod_eq_of_lt (by omega)
  rw [h1, if_pos h]

theorem wrap_int_of_is_int (x : Int) (h : is_int x) : wrap_int x = x := by
  unfold is_int at h
  unfold wrap_int to_int to_unsigned
  split <;> omega

theorem wrap_int_is_int (x : Int) : is_int (wrap_int x) := by
  unfold is_int wrap_int to_int to_unsigned
  split <;> omega

theorem wrap_int_emod (x : Int) : wrap_int x % 4294967296 = x % 4294967296 := by
  unfold wrap_int to_int to_unsigned
  split <;> omega

theorem int_shr_16 (w : Int) : int_shr w 16 = w / 65536 := by
  unfold int_shr
  rw [Int.shiftRight_eq_div_pow]
  norm_num

theorem int_and_ffff (w : Int) : int_and w 0x0000FFFF = w % 65536 := by
  unfold int_and
  have h1 : to_unsigned 0x0000FFFF = 2 ^ 16 - 1 := by decide
  rw [h1, Nat.and_pow_two_sub_one_eq_mod]
  have h2 : to_unsigned w % 2 ^ 16 < 2147483648 := by
    have := Nat.mod_lt (to_unsigned w) (show 2 ^ 16 > 0 by norm_num)
    omega
  rw [to_int_of_lt _ h2]
  have h3 := to_unsigned_cast w
  omega

theorem int_shl_16 (a : Int) : int_shl a 16 = wrap_int (a * 65536) := by
  unfold int_shl wrap_int
  rw [Nat.shiftLeft_eq]
  have h3 := to_unsigned_cast a
  have h4 := to_unsigned_cast (a * 65536)
  have h5 : to_unsigned (a * 65536) = (to_unsigned a * 2 ^ 16) % 4294967296 := by
    omega
  rw [h5]
  unfold to_int
  simp only [Nat.mod_mod]

/-! ## Instruction codec: theorems -/

theorem decoded_encoded_eq (oc op : Int) (hoc : 0 ≤ oc ∧ oc ≤ 0xFFFF) (hop : 0 ≤ op ∧ op ≤ 0xFFFF) :
    m86_ei_decoded (m86_di_encoded ⟨oc, op⟩)
      = ⟨if oc ≤ 0x7FFF then oc else oc - 0x10000, op⟩ := by
  unfold m86_ei_decoded m86_di_encoded int_add
  simp only [int_shr_16, int_and_ffff, int_shl_16]
  have h1 := wrap_int_emod (oc * 65536)
  have h2 := wrap_int_is_int (oc * 65536)
  have h3 := wrap_int_emod (op + wrap_int (oc * 65536))
  have h4 := wrap_int_is_int (op + wrap_int (oc * 65536))
  unfold is_int at h2 h4
  congr 1
  · split <;> omega
  · omega

/-- C1, counterexample to the round trip on all of 0..0xFFFF: the opcode 0x8000 with operand 0
lies in the range, yet encoding it gives the word -2^31, whose decoding has opcode -32768, not
0x8000. -/
theorem C1_round_trip_fails_at_0x8000 :
    (0 : Int) ≤ 0x8000 ∧ (0x8000 : Int) ≤ 0xFFFF ∧
    m86_di_encoded ⟨0x8000, 0⟩ = -2147483648 ∧
    m86_ei_decoded (m86_di_encoded ⟨0x8000, 0⟩) = ⟨-32768, 0⟩ ∧
    m86_ei_decoded (m86_di_encoded ⟨0x8000, 0⟩) ≠ ⟨0x8000, 0⟩ := by
  decide

/-- C1, as it holds: for every opcode oc and operand op in 0..0xFFFF, decoding the encoding of
(oc, op) returns the operand op unchanged; it returns the opcode oc itself when oc <= 0x7FFF,
and oc - 0x10000 (the same 16 bits read as a negative number) when oc >= 0x8000. -/
theorem C1_encode_decode_round_trip (oc op : Int)
    (hoc : 0 ≤ oc ∧ oc ≤ 0xFFFF) (hop : 0 ≤ op ∧ op ≤ 0xFFFF) :
    (oc ≤ 0x7FFF → m86_ei_decoded (m86_di_encoded ⟨oc, op⟩) = ⟨oc, op⟩) ∧
    (0x8000 ≤ oc → m86_ei_decoded (m86_di_encoded ⟨oc, op⟩) = ⟨oc - 0x10000, op⟩) := by
  have h := decoded_encoded_eq oc op hoc hop
  constructor
  · intro hle
    rw [h, if_pos hle]
  · intro hge
    rw [h, if_neg (by omega)]

theorem C1_encode_decode_round_trip_witness :
    m86_ei_decoded (m86_di_encoded ⟨0x0201, 5⟩) = ⟨0x0201, 5⟩ ∧
    m86_ei_decoded (m86_di_encoded ⟨0xFFFF, 0xFFFF⟩) = ⟨-1, 0xFFFF⟩ :=
  ⟨(C1_encode_decode_round_trip 0x0201 5 (by decide) (by decide)).1 (by decide),
   (C1_encode_decode_round_trip 0xFFFF 0xFFFF (by decide) (by decide)).2 (by decide)⟩

/-- C2, counterexample to the masked decode formula: the word 0x80000000 (the int -2^31)
decodes to the opcode -32768, whereas (w >> 16) & 0xFFFF is 0x8000; the decoded opcode is not
in 0..65535. -/
theorem C2_decoded_opcode_not_masked :
    is_int (-2147483648) ∧
    (m86_ei_decoded (-2147483648)).opcode = -32768 ∧
    int_and (int_shr (-2147483648) 16) 0xFFFF = 0x8000 ∧
    (m86_ei_decoded (-2147483648)).opcode ≠ int_and (int_shr (-2147483648) 16) 0xFFFF ∧
    ¬ (0 ≤ (m86_ei_decoded (-2147483648)).opcode) := by
  decide

/-- C2, as it holds: for every 32-bit signed word w, m86_ei_decoded(w) yields
operand = w & 0xFFFF = w mod 2^16, which lies in 0..65535, and opcode = w >> 16 with the
sign-preserving shift, that is floor(w / 2^16), the same value m86_ei_decoded_opcode returns.
The opcode equals (w >> 16) & 0xFFFF and lies in 0..0x7FFF when w >= 0; when the top bit of w is
set the opcode is negative and equals ((w >> 16) & 0xFFFF) - 0x10000. -/
theorem C2_decode_formula (w : Int) (hw : is_int w) :
    (m86_ei_decoded w).operand = w % 65536 ∧
    (0 ≤ (m86_ei_decoded w).operand ∧ (m86_ei_decoded w).operand ≤ 65535) ∧
    (m86_ei_decoded w).opcode = w / 65536 ∧
    m86_ei_decoded_opcode w = (m86_ei_decoded w).opcode ∧
    m86_ei_decoded_operand w = (m86_ei_decoded w).operand ∧
    (0 ≤ w → (m86_ei_decoded w).opcode = int_and (int_shr w 16) 0xFFFF ∧
      0 ≤ (m86_ei_decoded w).opcode ∧ (m86_ei_decoded w).opcode ≤ 0x7FFF) ∧
    (w < 0 → (m86_ei_decoded w).opcode = int_and (int_shr w 16) 0xFFFF - 0x10000 ∧
      -32768 ≤ (m86_ei_decoded w).opcode ∧ (m86_ei_decoded w).opcode < 0) := by
  unfold is_int at hw
  unfold m86_ei_decoded m86_ei_decoded_opcode m86_ei_decoded_operand
  simp only [int_and_ffff, int_shr_16]
  and_intros <;> first | trivial | omega

theorem C2_decode_formula_witness :
    (m86_ei_decoded 0x02010005).operand = 0x02010005 % 65536 ∧
    (m86_ei_decoded 0x02010005).opcode = 0x02010005 / 65536 ∧
    (m86_ei_decoded 0x02010005).opcode = int_and (int_shr 0x02010005 16) 0xFFFF ∧
    (m86_ei_decoded (-65536)).opcode = int_and (int_shr (-65536) 16) 0xFFFF - 0x10000 :=
  ⟨(C2_decode_formula 0x02010005 (by decide)).1,
   (C2_decode_formula 0x02010005 (by decide)).2.2.1,
   ((C2_decode_formula 0x02010005 (by decide)).2.2.2.2.2.1 (by decide)).1,
   ((C2_decode_formula (-65536) (by decide)).2.2.2.2.2.2 (by decide)).1⟩

/-- C3: for every 32-bit signed word w, re-encoding the decoded fields gives the same word:
m86_di_encoded(m86_ei_decoded(w)) equals w, and as 32-bit patterns it equals w & 0xFFFFFFFF; the
same holds for a word given by its unsigned 32-bit pattern n. -/
theorem C3_opcode_operand_split (w : Int) (hw : is_int w) :
    m86_di_encoded (m86_ei_decoded w) = w ∧
    to_unsigned (m86_di_encoded (m86_ei_decoded w)) = to_unsigned w &&& 0xFFFFFFFF ∧
    ∀ n : Nat, is_unsigned n →
      to_unsigned (m86_di_encoded (m86_ei_decoded (to_int n))) = n &&& 0xFFFFFFFF := by
  have key : ∀ v : Int, is_int v → m86_di_encoded (m86_ei_decoded v) = v := by
    intro v hv
    unfold is_int at hv
    unfold m86_ei_decoded m86_di_encoded int_add
    simp only [int_shr_16, int_and_ffff, int_shl_16]
    have h1 : wrap_int (v / 65536 * 65536) = v / 65536 * 65536 :=
      wrap_int_of_is_int _ (by unfold is_int; omega)
    rw [h1]
    have h2 : v % 65536 + v / 65536 * 65536 = v := by omega
    rw [h2]
    exact wrap_int_of_is_int v (by unfold is_int; omega)
  have h5 : (0xFFFFFFFF : Nat) = 2 ^ 32 - 1 := by norm_num
  refine ⟨key w hw, ?_, ?_⟩
  · rw [key w hw, h5, Nat.and_pow_two_sub_one_eq_mod]
    have h6 := to_unsigned_lt w
    omega
  · intro n hn
    unfold is_unsigned at hn
    have hi : is_int (to_int n) := by
      unfold is_int to_int; split <;> omega
    rw [key _ hi, h5, Nat.and_pow_two_sub_one_eq_mod]
    unfold to_unsigned to_int
    split <;> omega

theorem C3_opcode_operand_split_witness :
    m86_di_encoded (m86_ei_decoded (-2147418113)) = -2147418113 ∧
    to_unsigned (m86_di_encoded (m86_ei_decoded (-2147418113)))
      = to_unsigned (-2147418113) &&& 0xFFFFFFFF ∧
    to_unsigned (m86_di_encoded (m86_ei_decoded (to_int 0x8000FFFF))) = 0x8000FFFF :=
  ⟨(C3_opcode_operand_split (-2147418113) (by decide)).1,
   (C3_opcode_operand_split (-2147418113) (by decide)).2.1,
   (C3_opcode_operand_split (-2147418113) (by decide)).2.2 0x8000FFFF (by decide)⟩

/-! ## Processor flags: theorems -/

theorem or_and_absorb (f a : Nat) : (f ||| a) &&& a = a := by
  apply Nat.eq_of_testBit_eq
  intro i
  rw [Nat.testBit_and, Nat.testBit_or]
  cases f.testBit i <;> cases a.testBit i <;> rfl

theorem and_and_disjoint (f a b : Nat) (h : a &&& b = 0) : (f &&& a) &&& b = 0 := by
  rw [Nat.and_assoc, h, Nat.and_zero]

theorem set_flag_reg_flags (cpu : micro86_proc) (v : Int) :
    (m86_set_flag_reg cpu v).flags = if v = 0 then 1 else if v < 0 then 2 else 0 := by
  unfold m86_set_flag_reg m86_set_flags_sb m86_set_flags_zb
  by_cases h0 : v = 0
  · simp only [h0, if_true, Bool.false_eq_true, if_false]
    exact or_and_absorb cpu.flags 1
  · by_cases h1 : v < 0
    · simp only [h0, h1, if_true, Bool.false_eq_true, if_false]
      exact or_and_absorb cpu.flags 2
    · simp only [h0, h1, Bool.false_eq_true, if_false]
      exact and_and_disjoint cpu.flags 2 1 (by decide)

theorem set_flag_reg_frame (cpu : micro86_proc) (v : Int) :
    m86_set_flag_reg cpu v = { cpu with flags := (m86_set_flag_reg cpu v).flags } := by
  unfold m86_set_flag_reg m86_set_flags_sb m86_set_flags_zb
  split
  · rfl
  · split <;> rfl

/-- C4: for every prior processor state (any flags value) and every value v, after
m86_set_flag_reg(v) the flags register is exactly 1 (zero bit 1, sign bit 0) when v == 0, exactly
2 (zero bit 0, sign bit 1) when v < 0, and exactly 0 (both bits 0) when v > 0; the getters
m86_get_flags_zb and m86_get_flags_sb report these bits, the state zero=1 and sign=1 never
results, and acc, ir and ip are untouched. -/
theorem C4_flag_update_convention (cpu : micro86_proc) (v : Int) :
    (m86_set_flag_reg cpu v).flags = (if v = 0 then 1 else if v < 0 then 2 else 0) ∧
    m86_get_flags_zb (m86_set_flag_reg cpu v) = (if v = 0 then 1 else 0) ∧
    m86_get_flags_sb (m86_set_flag_reg cpu v) = (if v < 0 then 1 else 0) ∧
    (m86_set_flag_reg cpu v).flags.testBit 0 = decide (v = 0) ∧
    (m86_set_flag_reg cpu v).flags.testBit 1 = decide (v < 0) ∧
    ¬ (m86_get_flags_zb (m86_set_flag_reg cpu v) = 1 ∧
       m86_get_flags_sb (m86_set_flag_reg cpu v) = 1) ∧
    ¬ ((m86_set_flag_reg cpu v).flags.testBit 0 = true ∧
       (m86_set_flag_reg cpu v).flags.testBit 1 = true) ∧
    (m86_set_flag_reg cpu v).acc = cpu.acc ∧
    (m86_set_flag_reg cpu v).ir = cpu.ir ∧
    (m86_set_flag_reg cpu v).ip = cpu.ip := by
  have hf := set_flag_reg_flags cpu v
  have hfr := set_flag_reg_frame cpu v
  have hacc : (m86_set_flag_reg cpu v).acc = cpu.acc := by rw [hfr]
  have hir : (m86_set_flag_reg cpu v).ir = cpu.ir := by rw [hfr]
  have hip : (m86_set_flag_reg cpu v).ip = cpu.ip := by rw [hfr]
  unfold m86_get_flags_zb m86_get_flags_sb
  rw [hf]
  refine ⟨rfl, ?_, ?_, ?_, ?_, ?_, ?_, hacc, hir, hip⟩ <;>
    rcases lt_trichotomy v 0 with h | h | h
  all_goals first
    | (have h0 : ¬ v = 0 := by omega
       have h1 : ¬ v < 0 := by omega
       simp only [h0, h1, if_false, decide_False]
       decide)
    | (have h0 : ¬ v = 0 := by omega
       simp only [h0, h, if_false, if_true, decide_False, decide_True]
       decide)
    | (subst h
       decide)

/-! ## Emulator: general lemmas -/

theorem disassemble_isOk_cpu (ds : m86_dataset) (cpu cpu1 : micro86_proc) (mem : memory)
    (mem_size : Nat) (word : Int) :
    (m86_disassemble ds cpu mem mem_size word).isOk
      = (m86_disassemble ds cpu1 mem mem_size word).isOk := by
  unfold m86_disassemble m86_check_memory_bounds m86_error
  by_cases hb : (m86_ei_decoded word).operand < 0 ∨
      to_unsigned (m86_ei_decoded word).operand > mem_size
  · simp only [bind, Except.bind, pure, Except.pure, hb, if_true]
    repeat' split
    all_goals simp_all [Except.isOk, Except.toBool]
  · simp only [bind, Except.bind, pure, Except.pure, hb, if_false]

theorem execute_eq_switch (ds : m86_dataset) (trace : Bool) (m : m86_machine) (mem_size : Nat)
    (di : m86_decoded_instruct) (h : trace_passes ds trace m.cpu m.mem mem_size) :
    execute ds trace m mem_size di = execute_switch m mem_size di := by
  unfold execute
  cases trace with
  | false => rfl
  | true =>
    have h1 := h rfl
    cases hd : m86_disassemble ds m.cpu m.mem mem_size (to_int (m86_get_ir_reg m.cpu)) with
    | error e => rw [hd] at h1; exact absurd h1 (by simp [Except.isOk, Except.toBool])
    | ok line => simp [bind, Except.bind, pure, Except.pure]

theorem to_unsigned_natCast (n : Nat) (h : n < 4294967296) : to_unsigned (n : Int) = n := by
  unfold to_unsigned; omega

theorem check_memory_bounds_pass (x : Nat) (cpu : micro86_proc) (mem : memory) (mem_size : Nat)
    (h16 : x ≤ 0xFFFF) (h : x ≤ mem_size) :
    m86_check_memory_bounds (x : Int) EXIT_FAILURE cpu mem mem_size = .ok () := by
  unfold m86_check_memory_bounds
  rw [to_unsigned_natCast x (by omega), if_neg (by omega)]
  rfl

theorem check_memory_bounds_stop (x : Nat) (cpu : micro86_proc) (mem : memory) (mem_size : Nat)
    (h16 : x ≤ 0xFFFF) (h : mem_size < x) :
    m86_check_memory_bounds (x : Int) EXIT_FAILURE cpu mem mem_size
      = .error (.fatal "Micro86 ERROR: memory violation!" cpu mem) := by
  unfold m86_check_memory_bounds m86_error
  rw [to_unsigned_natCast x (by omega), if_pos (Or.inr h), if_pos rfl]

theorem execute_switch_CMPI (m : m86_machine) (mem_size : Nat) (b : Int) :
    execute_switch m mem_size ⟨CMPI, b⟩
      = .ok { m with cpu := m86_set_flag_reg m.cpu (int_sub m.cpu.acc b) } := by
  unfold execute_switch
  simp [HALT, LOAD, LOADI, STORE, ADD, ADDI, SUB, SUBI, MUL, MULI, DIV, DIVI, MOD,
    MODI, CMP, CMPI, m86_get_acc_reg, pure, Except.pure]

theorem execute_switch_CMP (m : m86_machine) (mem_size : Nat) (x : Nat) (b : Int)
    (h16 : x ≤ 0xFFFF) (hx : x < mem_size) (hb : m.mem[x]? = some b) :
    execute_switch m mem_size ⟨CMP, x⟩
      = .ok { m with cpu := m86_set_flag_reg m.cpu (int_sub m.cpu.acc b) } := by
  unfold execute_switch
  simp [HALT, LOAD, LOADI, STORE, ADD, ADDI, SUB, SUBI, MUL, MULI, DIV, DIVI, MOD,
    MODI, CMP, m86_get_acc_reg, pure, Except.pure, bind, Except.bind,
    check_memory_bounds_pass x m.cpu m.mem mem_size h16 (by omega),
    to_unsigned_natCast x (by omega), m_get_value, hb, in_storage]

theorem conditional_jumps_switch (m : m86_machine) (mem_size : Nat) (t : Nat) (ht : t ≤ 0xFFFF)
    (hf : m.cpu.flags = 0 ∨ m.cpu.flags = 1 ∨ m.cpu.flags = 2) :
    execute_switch m mem_size ⟨JEI, t⟩
      = .ok (if m.cpu.flags = 1 then { m with cpu := { m.cpu with ip := t } } else m) ∧
    execute_switch m mem_size ⟨JNEI, t⟩
      = .ok (if m.cpu.flags ≠ 1 then { m with cpu := { m.cpu with ip := t } } else m) ∧
    execute_switch m mem_size ⟨JLI, t⟩
      = .ok (if m.cpu.flags = 2 then { m with cpu := { m.cpu with ip := t } } else m) ∧
    execute_switch m mem_size ⟨JLEI, t⟩
      = .ok (if m.cpu.flags ≠ 0 then { m with cpu := { m.cpu with ip := t } } else m) ∧
    execute_switch m mem_size ⟨JGI, t⟩
      = .ok (if m.cpu.flags = 0 then { m with cpu := { m.cpu with ip := t } } else m) ∧
    execute_switch m mem_size ⟨JGEI, t⟩
      = .ok (if m.cpu.flags ≠ 2 then { m with cpu := { m.cpu with ip := t } } else m) := by
  have hu : to_unsigned (t : Int) = t := to_unsigned_natCast t (by omega)
  obtain ⟨running, ⟨acc, ir, ip, flags⟩, mem, input, output⟩ := m
  simp only at hf
  unfold execute_switch
  simp only [hu, HALT, LOAD, LOADI, STORE, ADD, ADDI, SUB, SUBI, MUL, MULI, DIV, DIVI, MOD,
    MODI, CMP, CMPI, JMPI, JEI, JNEI, JLI, JLEI, JGI, JGEI, IN, OUT,
    m86_set_ip_reg, m86_get_flags_zb, m86_get_flags_sb, ZERO_BIT_TRUE, ZERO_BIT_FALSE,
    SIGN_BIT_TRUE, SIGN_BIT_FALSE]
  rcases hf with h | h | h <;> subst h <;> simp [pure, Except.pure]

theorem wrap_int_eq_zero_iff (a b : Int) (ha : is_int a) (hb : is_int b) :
    wrap_int (a - b) = 0 ↔ a = b := by
  unfold is_int at ha hb
  have h1 := wrap_int_emod (a - b)
  constructor
  · intro h
    rw [h] at h1
    omega
  · intro h
    subst h
    have : a - a = 0 := by omega
    rw [this]
    decide

/-! ## Jumps: theorems -/

/-- C10: for every processor state whose flags register holds only bits 0 and 1 (flags < 4) and
every operand op in 0..0xFFFF, JMPI sets ip to op; JEI sets ip to op iff the zero bit is 1; JNEI
iff the zero bit is 0; JLI iff the sign bit is 1; JLEI iff the sign bit or the zero bit is 1; JGI
iff both bits are 0; JGEI iff both bits are 0 or the zero bit is 1. When the predicate is false
the whole machine state is unchanged, and in every case nothing but ip changes. -/
theorem C10_jump_semantics (ds : m86_dataset) (trace : Bool) (m : m86_machine) (mem_size : Nat)
    (op : Nat) (hop : op ≤ 0xFFFF) (hflags : m.cpu.flags < 4)
    (htr : trace_passes ds trace m.cpu m.mem mem_size) :
    execute ds trace m mem_size ⟨JMPI, op⟩ = .ok { m with cpu := { m.cpu with ip := op } } ∧
    execute ds trace m mem_size ⟨JEI, op⟩
      = .ok (if m.cpu.flags.testBit 0 = true
          then { m with cpu := { m.cpu with ip := op } } else m) ∧
    execute ds trace m mem_size ⟨JNEI, op⟩
      = .ok (if m.cpu.flags.testBit 0 = false
          then { m with cpu := { m.cpu with ip := op } } else m) ∧
    execute ds trace m mem_size ⟨JLI, op⟩
      = .ok (if m.cpu.flags.testBit 1 = true
          then { m with cpu := { m.cpu with ip := op } } else m) ∧
    execute ds trace m mem_size ⟨JLEI, op⟩
      = .ok (if m.cpu.flags.testBit 1 = true ∨ m.cpu.flags.testBit 0 = true
          then { m with cpu := { m.cpu with ip := op } } else m) ∧
    execute ds trace m mem_size ⟨JGI, op⟩
      = .ok (if m.cpu.flags.testBit 0 = false ∧ m.cpu.flags.testBit 1 = false
          then { m with cpu := { m.cpu with ip := op } } else m) ∧
    execute ds trace m mem_size ⟨JGEI, op⟩
      = .ok (if (m.cpu.flags.testBit 0 = false ∧ m.cpu.flags.testBit 1 = false) ∨
            m.cpu.flags.testBit 0 = true
          then { m with cpu := { m.cpu with ip := op } } else m) := by
  have hu : to_unsigned (op : Int) = op := to_unsigned_natCast op (by omega)
  simp only [execute_eq_switch ds trace m mem_size _ htr]
  obtain ⟨running, ⟨acc, ir, ip, flags⟩, mem, input, output⟩ := m
  simp only at hflags
  unfold execute_switch
  simp only [hu, HALT, LOAD, LOADI, STORE, ADD, ADDI, SUB, SUBI, MUL, MULI, DIV, DIVI, MOD,
    MODI, CMP, CMPI, JMPI, JEI, JNEI, JLI, JLEI, JGI, JGEI, IN, OUT,
    m86_set_ip_reg, m86_get_flags_zb, m86_get_flags_sb, ZERO_BIT_TRUE, ZERO_BIT_FALSE,
    SIGN_BIT_TRUE, SIGN_BIT_FALSE]
  have t11 : Nat.testBit 1 1 = false := by decide
  have t21 : Nat.testBit 2 1 = true := by decide
  have t31 : Nat.testBit 3 1 = true := by decide
  interval_cases flags <;> simp [pure, Except.pure, t11, t21, t31]

theorem C10_jump_semantics_witness :
    execute catalogue_dataset true
        ⟨true, ⟨5, 0x0D010007, 3, 2⟩, m_allocate_init 20 0, [], []⟩ 20 ⟨JLI, 7⟩
      = .ok ⟨true, ⟨5, 0x0D010007, 7, 2⟩, m_allocate_init 20 0, [], []⟩ ∧
    execute catalogue_dataset true
        ⟨true, ⟨5, 0x0D010007, 3, 2⟩, m_allocate_init 20 0, [], []⟩ 20 ⟨JGEI, 7⟩
      = .ok ⟨true, ⟨5, 0x0D010007, 3, 2⟩, m_allocate_init 20 0, [], []⟩ :=
  ⟨(C10_jump_semantics catalogue_dataset true
      ⟨true, ⟨5, 0x0D010007, 3, 2⟩, m_allocate_init 20 0, [], []⟩ 20 7
      (by decide) (by decide) (by decide)).2.2.2.1,
   (C10_jump_semantics catalogue_dataset true
      ⟨true, ⟨5, 0x0D010007, 3, 2⟩, m_allocate_init 20 0, [], []⟩ 20 7
      (by decide) (by decide) (by decide)).2.2.2.2.2.2⟩

/-! ## Comparison followed by a conditional jump: theorems -/

theorem execute_compare (ds : m86_dataset) (trace : Bool) (m : m86_machine) (mem_size : Nat)
    (di : m86_decoded_instruct) (b : Int)
    (hdi : (∃ x : Nat, x ≤ 0xFFFF ∧ x < mem_size ∧ m.mem[x]? = some b ∧ di = ⟨CMP, x⟩) ∨
      di = ⟨CMPI, b⟩)
    (htr : trace_passes ds trace m.cpu m.mem mem_size) :
    execute ds trace m mem_size di
      = .ok { m with cpu := m86_set_flag_reg m.cpu (int_sub m.cpu.acc b) } := by
  rw [execute_eq_switch ds trace m mem_size di htr]
  rcases hdi with ⟨x, h16, hx, hb, rfl⟩ | rfl
  · exact execute_switch_CMP m mem_size x b h16 hx hb
  · exact execute_switch_CMPI m mem_size b

/-- C6: for all 32-bit signed a and b, executing CMP (operand in bounds, cell holding b) or
CMPI (operand b) with acc == a succeeds and changes only the flags; in every later state that
still holds those flags, JEI sets ip to its operand iff a == b and JNEI sets ip to its operand
iff a != b, and a jump that is not taken changes nothing. -/
theorem C6_equality_predicates (ds : m86_dataset) (trace : Bool) (m : m86_machine)
    (mem_size : Nat) (di : m86_decoded_instruct) (b : Int)
    (ha : is_int m.cpu.acc) (hb : is_int b)
    (hdi : (∃ x : Nat, x ≤ 0xFFFF ∧ x < mem_size ∧ m.mem[x]? = some b ∧ di = ⟨CMP, x⟩) ∨
      di = ⟨CMPI, b⟩)
    (htr : trace_passes ds trace m.cpu m.mem mem_size) :
    execute ds trace m mem_size di
      = .ok { m with cpu := m86_set_flag_reg m.cpu (int_sub m.cpu.acc b) } ∧
    ∀ (m2 : m86_machine) (t : Nat), t ≤ 0xFFFF →
      m2.cpu.flags = (m86_set_flag_reg m.cpu (int_sub m.cpu.acc b)).flags →
      trace_passes ds trace m2.cpu m2.mem mem_size →
      execute ds trace m2 mem_size ⟨JEI, t⟩
        = .ok (if m.cpu.acc = b then { m2 with cpu := { m2.cpu with ip := t } } else m2) ∧
      execute ds trace m2 mem_size ⟨JNEI, t⟩
        = .ok (if m.cpu.acc ≠ b then { m2 with cpu := { m2.cpu with ip := t } } else m2) := by
  refine ⟨execute_compare ds trace m mem_size di b hdi htr, ?_⟩
  intro m2 t ht hfl htr2
  rw [set_flag_reg_flags] at hfl
  have hz := wrap_int_eq_zero_iff m.cpu.acc b ha hb
  unfold int_sub at hfl
  have hf3 : m2.cpu.flags = 0 ∨ m2.cpu.flags = 1 ∨ m2.cpu.flags = 2 := by
    rw [hfl]; split_ifs <;> simp
  obtain ⟨h1, h2, -⟩ := conditional_jumps_switch m2 mem_size t ht hf3
  rw [execute_eq_switch ds trace m2 mem_size _ htr2,
    execute_eq_switch ds trace m2 mem_size _ htr2, h1, h2]
  by_cases hab : m.cpu.acc = b
  · have hv : wrap_int (m.cpu.acc - b) = 0 := hz.mpr hab
    rw [hv] at hfl
    simp [hfl, hab]
  · have hv : ¬ wrap_int (m.cpu.acc - b) = 0 := fun h => hab (hz.mp h)
    have hne : m2.cpu.flags ≠ 1 := by
      rw [hfl, if_neg hv]; split_ifs <;> simp
    simp [hne, hab]

theorem C6_equality_predicates_witness :
    execute catalogue_dataset true
        ⟨true, ⟨5, 0x09010003, 2, 3⟩, m_allocate_init 20 0, [], []⟩ 20 ⟨CMPI, 3⟩
      = .ok ⟨true, ⟨5, 0x09010003, 2, 0⟩, m_allocate_init 20 0, [], []⟩ ∧
    execute catalogue_dataset true
        ⟨true, ⟨5, 0x0C010006, 3, 0⟩, m_allocate_init 20 0, [], []⟩ 20 ⟨JNEI, 6⟩
      = .ok ⟨true, ⟨5, 0x0C010006, 6, 0⟩, m_allocate_init 20 0, [], []⟩ :=
  ⟨(C6_equality_predicates catalogue_dataset true
      ⟨true, ⟨5, 0x09010003, 2, 3⟩, m_allocate_init 20 0, [], []⟩ 20 ⟨CMPI, 3⟩ 3
      (by decide) (by decide) (Or.inr rfl) (by decide)).1,
   ((C6_equality_predicates catalogue_dataset true
      ⟨true, ⟨5, 0x09010003, 2, 3⟩, m_allocate_init 20 0, [], []⟩ 20 ⟨CMPI, 3⟩ 3
      (by decide) (by decide) (Or.inr rfl) (by decide)).2
      ⟨true, ⟨5, 0x0C010006, 3, 0⟩, m_allocate_init 20 0, [], []⟩ 6
      (by decide) (by decide) (by decide)).2⟩

/-- C5, counterexample to ordering soundness for all a and b: with acc = -2^31 and CMPI 1 the
difference overflows and wraps to 2^31 - 1, so the flags come out as zero=0, sign=0; a following
JLI 7 is not taken although -2^31 < 1, and a following JGI 7 is taken although -2^31 > 1 is
false. -/
theorem C5_ordering_fails_on_overflow :
    is_int (-2147483648) ∧ is_int 1 ∧ (-2147483648 : Int) < 1 ∧
    execute catalogue_dataset false
        ⟨true, ⟨-2147483648, 0x09010001, 1, 0⟩, m_allocate_init 20 0, [], []⟩ 20 ⟨CMPI, 1⟩
      = .ok ⟨true, ⟨-2147483648, 0x09010001, 1, 0⟩, m_allocate_init 20 0, [], []⟩ ∧
    execute catalogue_dataset false
        ⟨true, ⟨-2147483648, 0x0D010007, 2, 0⟩, m_allocate_init 20 0, [], []⟩ 20 ⟨JLI, 7⟩
      = .ok ⟨true, ⟨-2147483648, 0x0D010007, 2, 0⟩, m_allocate_init 20 0, [], []⟩ ∧
    execute catalogue_dataset false
        ⟨true, ⟨-2147483648, 0x0F010007, 2, 0⟩, m_allocate_init 20 0, [], []⟩ 20 ⟨JGI, 7⟩
      = .ok ⟨true, ⟨-2147483648, 0x0F010007, 7, 0⟩, m_allocate_init 20 0, [], []⟩ :=
  ⟨by decide, by decide, by decide, rfl, rfl, rfl⟩

/-- C5, as it holds: for all a and b whose mathematical difference a - b lies in the 32-bit signed
range, executing CMP (operand in bounds, cell holding b) or CMPI (operand b) with acc == a
succeeds and changes only the flags; in every later state that still holds those flags, JLI sets
ip to its operand iff a < b, JGI iff a > b, JLEI iff a <= b, and JGEI iff a >= b, and a jump
that is not taken changes nothing. -/
theorem C5_ordering_predicates (ds : m86_dataset) (trace : Bool) (m : m86_machine)
    (mem_size : Nat) (di : m86_decoded_instruct) (b : Int)
    (hno : is_int (m.cpu.acc - b))
    (hdi : (∃ x : Nat, x ≤ 0xFFFF ∧ x < mem_size ∧ m.mem[x]? = some b ∧ di = ⟨CMP, x⟩) ∨
      di = ⟨CMPI, b⟩)
    (htr : trace_passes ds trace m.cpu m.mem mem_size) :
    execute ds trace m mem_size di
      = .ok { m with cpu := m86_set_flag_reg m.cpu (int_sub m.cpu.acc b) } ∧
    ∀ (m2 : m86_machine) (t : Nat), t ≤ 0xFFFF →
      m2.cpu.flags = (m86_set_flag_reg m.cpu (int_sub m.cpu.acc b)).flags →
      trace_passes ds trace m2.cpu m2.mem mem_size →
      execute ds trace m2 mem_size ⟨JLI, t⟩
        = .ok (if m.cpu.acc < b then { m2 with cpu := { m2.cpu with ip := t } } else m2) ∧
      execute ds trace m2 mem_size ⟨JGI, t⟩
        = .ok (if m.cpu.acc > b then { m2 with cpu := { m2.cpu with ip := t } } else m2) ∧
      execute ds trace m2 mem_size ⟨JLEI, t⟩
        = .ok (if m.cpu.acc ≤ b then { m2 with cpu := { m2.cpu with ip := t } } else m2) ∧
      execute ds trace m2 mem_size ⟨JGEI, t⟩
        = .ok (if m.cpu.acc ≥ b then { m2 with cpu := { m2.cpu with ip := t } } else m2) := by
  refine ⟨execute_compare ds trace m mem_size di b hdi htr, ?_⟩
  intro m2 t ht hfl htr2
  rw [set_flag_reg_flags] at hfl
  unfold int_sub at hfl
  rw [wrap_int_of_is_int _ hno] at hfl
  have hf3 : m2.cpu.flags = 0 ∨ m2.cpu.flags = 1 ∨ m2.cpu.flags = 2 := by
    rw [hfl]; split_ifs <;> simp
  obtain ⟨-, -, h3, h4, h5, h6⟩ := conditional_jumps_switch m2 mem_size t ht hf3
  rw [execute_eq_switch ds trace m2 mem_size _ htr2,
    execute_eq_switch ds trace m2 mem_size _ htr2,
    execute_eq_switch ds trace m2 mem_size _ htr2,
    execute_eq_switch ds trace m2 mem_size _ htr2, h3, h4, h5, h6]
  rcases lt_trichotomy m.cpu.acc b with h | h | h
  · have h0 : ¬ m.cpu.acc - b = 0 := by omega
    have h1 : m.cpu.acc - b < 0 := by omega
    have hf : m2.cpu.flags = 2 := by rw [hfl, if_neg h0, if_pos h1]
    have e1 : ¬ m.cpu.acc > b := by omega
    have e2 : m.cpu.acc ≤ b := by omega
    have e3 : ¬ m.cpu.acc ≥ b := by omega
    simp [hf, h, e1, e2, e3]
  · have h0 : m.cpu.acc - b = 0 := by omega
    have hf : m2.cpu.flags = 1 := by rw [hfl, if_pos h0]
    simp [hf, h]
  · have h0 : ¬ m.cpu.acc - b = 0 := by omega
    have h1 : ¬ m.cpu.acc - b < 0 := by omega
    have hf : m2.cpu.flags = 0 := by rw [hfl, if_neg h0, if_neg h1]
    have e1 : ¬ m.cpu.acc < b := by omega
    have e2 : ¬ m.cpu.acc ≤ b := by omega
    have e3 : m.cpu.acc ≥ b := by omega
    simp [hf, h, e1, e2, e3]

theorem C5_ordering_predicates_witness :
    execute catalogue_dataset true
        ⟨true, ⟨5, 0x09020008, 2, 0⟩, [0, 0, 0, 0, 0, 0, 0, 0, 9, 0], [], []⟩ 10 ⟨CMP, 8⟩
      = .ok ⟨true, ⟨5, 0x09020008, 2, 2⟩, [0, 0, 0, 0, 0, 0, 0, 0, 9, 0], [], []⟩ ∧
    execute catalogue_dataset true
        ⟨true, ⟨5, 0x0D010007, 3, 2⟩, [0, 0, 0, 0, 0, 0, 0, 0, 9, 0], [], []⟩ 10 ⟨JLI, 7⟩
      = .ok ⟨true, ⟨5, 0x0D010007, 7, 2⟩, [0, 0, 0, 0, 0, 0, 0, 0, 9, 0], [], []⟩ :=
  ⟨(C5_ordering_predicates catalogue_dataset true
      ⟨true, ⟨5, 0x09020008, 2, 0⟩, [0, 0, 0, 0, 0, 0, 0, 0, 9, 0], [], []⟩ 10 ⟨CMP, 8⟩ 9
      (by decide) (Or.inl ⟨8, by decide, by decide, rfl, rfl⟩) (by decide)).1,
   ((C5_ordering_predicates catalogue_dataset true
      ⟨true, ⟨5, 0x09020008, 2, 0⟩, [0, 0, 0, 0, 0, 0, 0, 0, 9, 0], [], []⟩ 10 ⟨CMP, 8⟩ 9
      (by decide) (Or.inl ⟨8, by decide, by decide, rfl, rfl⟩) (by decide)).2
      ⟨true, ⟨5, 0x0D010007, 3, 2⟩, [0, 0, 0, 0, 0, 0, 0, 0, 9, 0], [], []⟩ 7
      (by decide) (by decide) (by decide)).1⟩

/-! ## Memory operands: theorems -/

/-- C7, the code at operand == mem_size: for each of LOAD, STORE, ADD, SUB, MUL, DIV, MOD
and CMP, when the operand equals mem_size (and the storage has exactly mem_size cells) the bounds
check of execute lets it through, because it tests `position > mem_size`, and the instruction
then reads or writes the cell at index mem_size, one past the end of the storage, instead of
ending in the fatal memory-violation error; one cell further the error is raised. -/
theorem C7_bounds_check_admits_mem_size (ds : m86_dataset) (trace : Bool) (m : m86_machine)
    (mem_size : Nat) (oc : Int) (hoc : oc ∈ [LOAD, STORE, ADD, SUB, MUL, DIV, MOD, CMP])
    (hlen : m.mem.length = mem_size) (h16 : mem_size < 0xFFFF)
    (htr : trace_passes ds trace m.cpu m.mem mem_size) :
    execute ds trace m mem_size ⟨oc, mem_size⟩ = .error (.outside_storage mem_size) ∧
    execute ds trace m mem_size ⟨oc, (mem_size + 1 : Nat)⟩
      = .error (.fatal "Micro86 ERROR: memory violation!" m.cpu m.mem) := by
  have hget : m.mem[mem_size]? = none := by
    rw [List.getElem?_eq_none]; omega
  have hpass := check_memory_bounds_pass mem_size m.cpu m.mem mem_size (by omega) (le_refl _)
  have hstop := check_memory_bounds_stop (mem_size + 1) m.cpu m.mem mem_size (by omega)
    (by omega)
  have hu := to_unsigned_natCast mem_size (by omega)
  rw [execute_eq_switch ds trace m mem_size _ htr, execute_eq_switch ds trace m mem_size _ htr]
  simp only [Nat.cast_add, Nat.cast_one] at hstop ⊢
  unfold execute_switch
  simp only [List.mem_cons, List.mem_singleton, List.not_mem_nil, or_false] at hoc
  rcases hoc with h | h | h | h | h | h | h | h <;> subst h <;>
    simp [HALT, LOAD, LOADI, STORE, ADD, ADDI, SUB, SUBI, MUL, MULI, DIV, DIVI, MOD,
      MODI, CMP, bind, Except.bind, hpass, hstop, hu, m_get_value, m_set_value, hget,
      in_storage, hlen]

theorem C7_bounds_check_admits_mem_size_witness :
    execute catalogue_dataset false
        ⟨true, ⟨0, 0x02020014, 1, 0⟩, m_allocate_init 20 0, [], []⟩ 20 ⟨LOAD, (20 : Nat)⟩
      = .error (.outside_storage 20) ∧
    execute catalogue_dataset false
        ⟨true, ⟨0, 0x02020014, 1, 0⟩, m_allocate_init 20 0, [], []⟩ 20 ⟨LOAD, (21 : Nat)⟩
      = .error (.fatal "Micro86 ERROR: memory violation!" ⟨0, 0x02020014, 1, 0⟩
          (m_allocate_init 20 0)) :=
  C7_bounds_check_admits_mem_size catalogue_dataset false
    ⟨true, ⟨0, 0x02020014, 1, 0⟩, m_allocate_init 20 0, [], []⟩ 20 LOAD
    (by decide) (by decide) (by decide) (by decide)

/-! ## Division: theorems -/

theorem execute_switch_div_immediate (m : m86_machine) (mem_size : Nat) (op : Int) :
    execute_switch m mem_size ⟨DIVI, op⟩
      = (if op = 0 then .error (.fatal "Micro86 ERROR: division by zero!" m.cpu m.mem)
         else .ok { m with cpu := { m.cpu with acc := int_div m.cpu.acc op } }) ∧
    execute_switch m mem_size ⟨MODI, op⟩
      = (if op = 0 then .error (.fatal "Micro86 ERROR: division by zero!" m.cpu m.mem)
         else .ok { m with cpu := { m.cpu with acc := int_mod m.cpu.acc op } }) := by
  unfold execute_switch m86_check_zero_div_error m86_error
  by_cases h : op = 0 <;>
    simp [HALT, LOAD, LOADI, STORE, ADD, ADDI, SUB, SUBI, MUL, MULI, DIV, DIVI, MOD,
      MODI, bind, Except.bind, pure, Except.pure, h, m86_set_acc_reg, m86_get_acc_reg]

theorem execute_switch_div_memory (m : m86_machine) (mem_size : Nat) (x : Nat) (b : Int)
    (h16 : x ≤ 0xFFFF) (hx : x < mem_size) (hb : m.mem[x]? = some b) :
    execute_switch m mem_size ⟨DIV, x⟩
      = (if b = 0 then .error (.fatal "Micro86 ERROR: division by zero!" m.cpu m.mem)
         else .ok { m with cpu := { m.cpu with acc := int_div m.cpu.acc b } }) ∧
    execute_switch m mem_size ⟨MOD, x⟩
      = (if b = 0 then .error (.fatal "Micro86 ERROR: division by zero!" m.cpu m.mem)
         else .ok { m with cpu := { m.cpu with acc := int_mod m.cpu.acc b } }) := by
  have hpass := check_memory_bounds_pass x m.cpu m.mem mem_size h16 (by omega)
  have hu := to_unsigned_natCast x (by omega)
  unfold execute_switch m86_check_zero_div_error m86_error
  by_cases h : b = 0 <;>
    simp [HALT, LOAD, LOADI, STORE, ADD, ADDI, SUB, SUBI, MUL, MULI, DIV, DIVI, MOD,
      MODI, bind, Except.bind, pure, Except.pure, h, m86_set_acc_reg, m86_get_acc_reg,
      hpass, hu, m_get_value, hb, in_storage]

/-- C8: DIVI and MODI end in the fatal "division by zero" error if and only if the literal
operand is zero, and DIV and MOD (operand in bounds) if and only if the addressed cell holds zero;
the error is raised with the processor and the memory exactly as they were before the
instruction, and with a non-zero divisor the instruction returns normally. Running LOADI 4,
DIVI 0 from the initial state ends in that error with acc = 4. -/
theorem C8_division_by_zero (ds : m86_dataset) (trace : Bool) (m : m86_machine)
    (mem_size : Nat) (htr : trace_passes ds trace m.cpu m.mem mem_size) :
    (∀ oc ∈ [DIVI, MODI], ∀ op : Int,
      (op = 0 → execute ds trace m mem_size ⟨oc, op⟩
        = .error (.fatal "Micro86 ERROR: division by zero!" m.cpu m.mem)) ∧
      (op ≠ 0 → ∃ m1, execute ds trace m mem_size ⟨oc, op⟩ = .ok m1) ∧
      ((∃ cpu mem, execute ds trace m mem_size ⟨oc, op⟩
        = .error (.fatal "Micro86 ERROR: division by zero!" cpu mem)) ↔ op = 0)) ∧
    (∀ oc ∈ [DIV, MOD], ∀ (x : Nat) (b : Int),
      x ≤ 0xFFFF → x < mem_size → m.mem[x]? = some b →
      (b = 0 → execute ds trace m mem_size ⟨oc, x⟩
        = .error (.fatal "Micro86 ERROR: division by zero!" m.cpu m.mem)) ∧
      (b ≠ 0 → ∃ m1, execute ds trace m mem_size ⟨oc, x⟩ = .ok m1) ∧
      ((∃ cpu mem, execute ds trace m mem_size ⟨oc, x⟩
        = .error (.fatal "Micro86 ERROR: division by zero!" cpu mem)) ↔ b = 0)) ∧
    (∀ fuel : Nat,
      m86_boot_up catalogue_dataset
          ⟨false, m86_proc_init, [0x02010004, 0x07010000] ++ m_allocate_init 18 0, [], []⟩
          20 2 false false (fuel + 2)
        = .error (.fatal "Micro86 ERROR: division by zero!" ⟨4, 0x07010000, 2, 0⟩
            ([0x02010004, 0x07010000] ++ m_allocate_init 18 0))) := by
  refine ⟨?_, ?_, ?_⟩
  · intro oc hoc op
    rw [execute_eq_switch ds trace m mem_size _ htr]
    obtain ⟨h1, h2⟩ := execute_switch_div_immediate m mem_size op
    simp only [List.mem_cons, List.mem_singleton, List.not_mem_nil, or_false] at hoc
    rcases hoc with h | h <;> subst h
    · rw [h1]
      by_cases h0 : op = 0 <;> simp [h0]
    · rw [h2]
      by_cases h0 : op = 0 <;> simp [h0]
  · intro oc hoc x b h16 hx hb
    rw [execute_eq_switch ds trace m mem_size _ htr]
    obtain ⟨h1, h2⟩ := execute_switch_div_memory m mem_size x b h16 hx hb
    simp only [List.mem_cons, List.mem_singleton, List.not_mem_nil, or_false] at hoc
    rcases hoc with h | h <;> subst h
    · rw [h1]
      by_cases h0 : b = 0 <;> simp [h0]
    · rw [h2]
      by_cases h0 : b = 0 <;> simp [h0]
  · intro fuel
    rfl

theorem C8_division_by_zero_witness :
    execute catalogue_dataset true
        ⟨true, ⟨4, 0x07010000, 2, 0⟩, m_allocate_init 20 0, [], []⟩ 20 ⟨DIVI, 0⟩
      = .error (.fatal "Micro86 ERROR: division by zero!" ⟨4, 0x07010000, 2, 0⟩
          (m_allocate_init 20 0)) ∧
    execute catalogue_dataset true
        ⟨true, ⟨4, 0x07010000, 2, 0⟩, m_allocate_init 20 0, [], []⟩ 20 ⟨MOD, (3 : Nat)⟩
      = .error (.fatal "Micro86 ERROR: division by zero!" ⟨4, 0x07010000, 2, 0⟩
          (m_allocate_init 20 0)) :=
  ⟨((C8_division_by_zero catalogue_dataset true
      ⟨true, ⟨4, 0x07010000, 2, 0⟩, m_allocate_init 20 0, [], []⟩ 20 (by decide)).1
      DIVI (by decide) 0).1 rfl,
   ((C8_division_by_zero catalogue_dataset true
      ⟨true, ⟨4, 0x07010000, 2, 0⟩, m_allocate_init 20 0, [], []⟩ 20 (by decide)).2.1
      MOD (by decide) 3 0 (by decide) (by decide) rfl).1 rfl⟩

/-! ## Fetch: theorems -/

theorem to_int_to_unsigned (v : Int) (hv : is_int v) : to_int (to_unsigned v) = v :=
  wrap_int_of_is_int v hv

/-- C9: for every processor state and every memory of mem_size cells holding 32-bit values,
fetch succeeds iff program_size > 0 and ip < mem_size and ip + 1 <= program_size; on success it
sets ir to the pattern of mem[ip], sets ip to the old ip + 1, leaves acc and flags unchanged and
returns the decoding of mem[old ip]. It fails with "no program in memory" when program_size == 0,
otherwise with "memory violation" when ip >= mem_size (both raised with the processor
unchanged), otherwise with "program end reached" (raised after ip was incremented). -/
theorem C9_fetch (cpu : micro86_proc) (mem : memory) (mem_size program_size : Nat)
    (hsize : is_unsigned mem_size) (hlen : mem.length = mem_size)
    (hcells : ∀ v ∈ mem, is_int v) :
    ((∃ r, fetch cpu mem mem_size program_size = .ok r) ↔
      (program_size > 0 ∧ cpu.ip < mem_size ∧ cpu.ip + 1 ≤ program_size)) ∧
    (∀ v, mem[cpu.ip]? = some v →
      program_size > 0 → cpu.ip < mem_size → cpu.ip + 1 ≤ program_size →
      fetch cpu mem mem_size program_size
        = .ok (m86_ei_decoded v, { cpu with ir := to_unsigned v, ip := cpu.ip + 1 })) ∧
    (program_size = 0 →
      fetch cpu mem mem_size program_size
        = .error (.fatal "Micro86 ERROR: no program in memory!" cpu mem)) ∧
    (program_size ≠ 0 → cpu.ip ≥ mem_size →
      fetch cpu mem mem_size program_size
        = .error (.fatal "Micro86 ERROR: memory violation!" cpu mem)) ∧
    (program_size ≠ 0 → cpu.ip < mem_size → cpu.ip + 1 > program_size →
      fetch cpu mem mem_size program_size
        = .error (.fatal "Micro86 ERROR: program end reached!"
            { cpu with ip := cpu.ip + 1 } mem)) := by
  unfold is_unsigned at hsize
  have hok : ∀ v, mem[cpu.ip]? = some v →
      program_size > 0 → cpu.ip < mem_size → cpu.ip + 1 ≤ program_size →
      fetch cpu mem mem_size program_size
        = .ok (m86_ei_decoded v, { cpu with ir := to_unsigned v, ip := cpu.ip + 1 }) := by
    intro v hv hp hip hend
    have hvint : is_int v := hcells v (List.getElem?_mem hv)
    have hmod : (cpu.ip + 1) % 4294967296 = cpu.ip + 1 := Nat.mod_eq_of_lt (by omega)
    unfold fetch m86_check_no_prgm_error m86_error
    simp [bind, Except.bind, pure, Except.pure, m86_get_ip_reg, m86_set_ip_reg,
      m86_set_ir_reg, m86_get_ir_reg, hmod, m_get_value, hv, in_storage,
      to_int_to_unsigned v hvint, show ¬ program_size = 0 by omega,
      show ¬ mem_size ≤ cpu.ip by omega, show ¬ program_size < cpu.ip + 1 by omega]
  have h0 : program_size = 0 →
      fetch cpu mem mem_size program_size
        = .error (.fatal "Micro86 ERROR: no program in memory!" cpu mem) := by
    intro hp
    unfold fetch m86_check_no_prgm_error m86_error
    simp [bind, Except.bind, hp, EXIT_FAILURE]
  have h1 : program_size ≠ 0 → cpu.ip ≥ mem_size →
      fetch cpu mem mem_size program_size
        = .error (.fatal "Micro86 ERROR: memory violation!" cpu mem) := by
    intro hp hip
    unfold fetch m86_check_no_prgm_error m86_error
    simp [bind, Except.bind, pure, Except.pure, hp, m86_get_ip_reg, hip, EXIT_FAILURE]
  have h2 : program_size ≠ 0 → cpu.ip < mem_size → cpu.ip + 1 > program_size →
      fetch cpu mem mem_size program_size
        = .error (.fatal "Micro86 ERROR: program end reached!"
            { cpu with ip := cpu.ip + 1 } mem) := by
    intro hp hip hend
    have hmod : (cpu.ip + 1) % 4294967296 = cpu.ip + 1 := Nat.mod_eq_of_lt (by omega)
    unfold fetch m86_check_no_prgm_error m86_error
    simp [bind, Except.bind, pure, Except.pure, hp, m86_get_ip_reg, m86_set_ip_reg, hmod,
      hend, EXIT_FAILURE, show ¬ mem_size ≤ cpu.ip by omega]
  refine ⟨⟨?_, ?_⟩, hok, h0, h1, h2⟩
  · rintro ⟨r, hr⟩
    by_cases hp : program_size = 0
    · rw [h0 hp] at hr; exact absurd hr (by simp)
    · by_cases hip : cpu.ip ≥ mem_size
      · rw [h1 hp hip] at hr; exact absurd hr (by simp)
      · by_cases hend : cpu.ip + 1 > program_size
        · rw [h2 hp (by omega) hend] at hr; exact absurd hr (by simp)
        · omega
  · rintro ⟨hp, hip, hend⟩
    have hlt : cpu.ip < mem.length := by omega
    exact ⟨_, hok mem[cpu.ip] (List.getElem?_eq_getElem hlt) hp hip hend⟩

theorem C9_fetch_witness :
    fetch ⟨0, 0, 1, 0⟩ ([0x02010005, 0x04010003, 0x01000000] ++ m_allocate_init 17 0) 20 3
      = .ok (⟨ADDI, 3⟩, ⟨0, 0x04010003, 2, 0⟩) ∧
    fetch ⟨0, 0, 3, 0⟩ ([0x02010005, 0x04010003, 0x01000000] ++ m_allocate_init 17 0) 20 3
      = .error (.fatal "Micro86 ERROR: program end reached!" ⟨0, 0, 4, 0⟩
          ([0x02010005, 0x04010003, 0x01000000] ++ m_allocate_init 17 0)) :=
  ⟨(C9_fetch ⟨0, 0, 1, 0⟩ ([0x02010005, 0x04010003, 0x01000000] ++ m_allocate_init 17 0) 20 3
      (by decide) (by decide) (by decide)).2.1 0x04010003 rfl
      (by decide) (by decide) (by decide),
   (C9_fetch ⟨0, 0, 3, 0⟩ ([0x02010005, 0x04010003, 0x01000000] ++ m_allocate_init 17 0) 20 3
      (by decide) (by decide) (by decide)).2.2.2.2 (by decide) (by decide) (by decide)⟩

/-! ## Arithmetic, comparison, load and store: theorems -/

theorem execute_switch_arith_immediate (m : m86_machine) (mem_size : Nat) (op : Int) :
    execute_switch m mem_size ⟨ADDI, op⟩
      = .ok { m with cpu := { m.cpu with acc := wrap_int (m.cpu.acc + op) } } ∧
    execute_switch m mem_size ⟨SUBI, op⟩
      = .ok { m with cpu := { m.cpu with acc := wrap_int (m.cpu.acc - op) } } ∧
    execute_switch m mem_size ⟨MULI, op⟩
      = .ok { m with cpu := { m.cpu with acc := wrap_int (m.cpu.acc * op) } } := by
  unfold execute_switch
  simp [HALT, LOAD, LOADI, STORE, ADD, ADDI, SUB, SUBI, MUL, MULI, pure, Except.pure,
    m86_set_acc_reg, m86_get_acc_reg, int_add, int_sub, int_mul]

theorem execute_switch_arith_memory (m : m86_machine) (mem_size : Nat) (x : Nat) (b : Int)
    (h16 : x ≤ 0xFFFF) (hx : x < mem_size) (hb : m.mem[x]? = some b) :
    execute_switch m mem_size ⟨ADD, x⟩
      = .ok { m with cpu := { m.cpu with acc := wrap_int (m.cpu.acc + b) } } ∧
    execute_switch m mem_size ⟨SUB, x⟩
      = .ok { m with cpu := { m.cpu with acc := wrap_int (m.cpu.acc - b) } } ∧
    execute_switch m mem_size ⟨MUL, x⟩
      = .ok { m with cpu := { m.cpu with acc := wrap_int (m.cpu.acc * b) } } := by
  have hpass := check_memory_bounds_pass x m.cpu m.mem mem_size h16 (by omega)
  have hu := to_unsigned_natCast x (by omega)
  unfold execute_switch
  simp [HALT, LOAD, LOADI, STORE, ADD, ADDI, SUB, SUBI, MUL, MULI, pure, Except.pure,
    bind, Except.bind, m86_set_acc_reg, m86_get_acc_reg, int_add, int_sub, int_mul,
    hpass, hu, m_get_value, hb, in_storage]

/-- C11: for every state and operand value x (x = M[op] for ADD/SUB/MUL with op in bounds,
x = op for ADDI/SUBI/MULI), the instruction succeeds and leaves acc equal to acc + x, acc - x or
acc * x reduced to the 32-bit two's-complement value congruent to it modulo 2^32; ip, ir, flags
and every other part of the machine, memory included, are unchanged. -/
theorem C11_arithmetic_wraps (ds : m86_dataset) (trace : Bool) (m : m86_machine)
    (mem_size : Nat) (htr : trace_passes ds trace m.cpu m.mem mem_size) :
    (∀ op : Int,
      execute ds trace m mem_size ⟨ADDI, op⟩
        = .ok { m with cpu := { m.cpu with acc := wrap_int (m.cpu.acc + op) } } ∧
      execute ds trace m mem_size ⟨SUBI, op⟩
        = .ok { m with cpu := { m.cpu with acc := wrap_int (m.cpu.acc - op) } } ∧
      execute ds trace m mem_size ⟨MULI, op⟩
        = .ok { m with cpu := { m.cpu with acc := wrap_int (m.cpu.acc * op) } }) ∧
    (∀ (x : Nat) (b : Int), x ≤ 0xFFFF → x < mem_size → m.mem[x]? = some b →
      execute ds trace m mem_size ⟨ADD, x⟩
        = .ok { m with cpu := { m.cpu with acc := wrap_int (m.cpu.acc + b) } } ∧
      execute ds trace m mem_size ⟨SUB, x⟩
        = .ok { m with cpu := { m.cpu with acc := wrap_int (m.cpu.acc - b) } } ∧
      execute ds trace m mem_size ⟨MUL, x⟩
        = .ok { m with cpu := { m.cpu with acc := wrap_int (m.cpu.acc * b) } }) ∧
    (∀ v : Int, (-2147483648 ≤ wrap_int v ∧ wrap_int v ≤ 2147483647) ∧
      wrap_int v % 4294967296 = v % 4294967296 ∧
      (-2147483648 ≤ v → v ≤ 2147483647 → wrap_int v = v)) := by
  refine ⟨?_, ?_, ?_⟩
  · intro op
    simp only [execute_eq_switch ds trace m mem_size _ htr]
    exact execute_switch_arith_immediate m mem_size op
  · intro x b h16 hx hb
    simp only [execute_eq_switch ds trace m mem_size _ htr]
    exact execute_switch_arith_memory m mem_size x b h16 hx hb
  · intro v
    exact ⟨wrap_int_is_int v, wrap_int_emod v, fun h1 h2 => wrap_int_of_is_int v ⟨h1, h2⟩⟩

theorem C11_arithmetic_wraps_witness :
    execute catalogue_dataset true
        ⟨true, ⟨2147483647, 0x04010003, 2, 1⟩, m_allocate_init 20 0, [], []⟩ 20 ⟨ADDI, 3⟩
      = .ok ⟨true, ⟨-2147483646, 0x04010003, 2, 1⟩, m_allocate_init 20 0, [], []⟩ ∧
    execute catalogue_dataset true
        ⟨true, ⟨65536, 0x04010003, 2, 1⟩, [0, 0, 65536, 0], [], []⟩ 4 ⟨MUL, (2 : Nat)⟩
      = .ok ⟨true, ⟨0, 0x04010003, 2, 1⟩, [0, 0, 65536, 0], [], []⟩ :=
  ⟨((C11_arithmetic_wraps catalogue_dataset true
      ⟨true, ⟨2147483647, 0x04010003, 2, 1⟩, m_allocate_init 20 0, [], []⟩ 20
      (by decide)).1 3).1,
   ((C11_arithmetic_wraps catalogue_dataset true
      ⟨true, ⟨65536, 0x04010003, 2, 1⟩, [0, 0, 65536, 0], [], []⟩ 4
      (by decide)).2.1 2 65536 (by decide) (by decide) rfl).2.2⟩

/-- C12: for every state, executing CMP (operand in bounds, cell holding b) or CMPI (operand b)
succeeds and sets the flags register by the flag update convention applied to the 32-bit value
of acc - b: 1 (zero) when it is 0, 2 (sign) when it is negative, 0 otherwise; acc, ip, ir, every
memory cell and the rest of the machine are unchanged. -/
theorem C12_compare_sets_flags_only (ds : m86_dataset) (trace : Bool) (m : m86_machine)
    (mem_size : Nat) (htr : trace_passes ds trace m.cpu m.mem mem_size) :
    (∀ b : Int,
      execute ds trace m mem_size ⟨CMPI, b⟩
        = .ok { m with cpu := { m.cpu with flags :=
            (if wrap_int (m.cpu.acc - b) = 0 then 1
             else if wrap_int (m.cpu.acc - b) < 0 then 2 else 0) } }) ∧
    (∀ (x : Nat) (b : Int), x ≤ 0xFFFF → x < mem_size → m.mem[x]? = some b →
      execute ds trace m mem_size ⟨CMP, x⟩
        = .ok { m with cpu := { m.cpu with flags :=
            (if wrap_int (m.cpu.acc - b) = 0 then 1
             else if wrap_int (m.cpu.acc - b) < 0 then 2 else 0) } }) := by
  have key : ∀ b : Int, m86_set_flag_reg m.cpu (int_sub m.cpu.acc b)
      = { m.cpu with flags :=
            if wrap_int (m.cpu.acc - b) = 0 then 1
            else if wrap_int (m.cpu.acc - b) < 0 then 2 else 0 } := by
    intro b
    rw [set_flag_reg_frame, set_flag_reg_flags]
    rfl
  constructor
  · intro b
    rw [execute_compare ds trace m mem_size ⟨CMPI, b⟩ b (Or.inr rfl) htr, key]
  · intro x b h16 hx hb
    rw [execute_compare ds trace m mem_size ⟨CMP, x⟩ b (Or.inl ⟨x, h16, hx, hb, rfl⟩) htr, key]

theorem C12_compare_sets_flags_only_witness :
    execute catalogue_dataset true
        ⟨true, ⟨5, 0x09020002, 2, 1⟩, [0, 0, 9, 0], [], []⟩ 4 ⟨CMP, (2 : Nat)⟩
      = .ok ⟨true, ⟨5, 0x09020002, 2, 2⟩, [0, 0, 9, 0], [], []⟩ :=
  (C12_compare_sets_flags_only catalogue_dataset true
      ⟨true, ⟨5, 0x09020002, 2, 1⟩, [0, 0, 9, 0], [], []⟩ 4 (by decide)).2
    2 9 (by decide) (by decide) rfl

theorem execute_switch_load_store (m : m86_machine) (mem_size : Nat) (x : Nat)
    (h16 : x ≤ 0xFFFF) (hx : x < mem_size) :
    (∀ b : Int, m.mem[x]? = some b →
      execute_switch m mem_size ⟨LOAD, x⟩ = .ok { m with cpu := { m.cpu with acc := b } }) ∧
    (x < m.mem.length →
      execute_switch m mem_size ⟨STORE, x⟩ = .ok { m with mem := m.mem.set x m.cpu.acc }) := by
  have hpass := check_memory_bounds_pass x m.cpu m.mem mem_size h16 (by omega)
  have hu := to_unsigned_natCast x (by omega)
  unfold execute_switch
  constructor
  · intro b hb
    simp [HALT, LOAD, pure, Except.pure, bind, Except.bind, m86_set_acc_reg, hpass, hu,
      m_get_value, hb, in_storage]
  · intro hlen
    simp [HALT, LOAD, LOADI, STORE, pure, Except.pure, bind, Except.bind, m86_get_acc_reg,
      hpass, hu, m_set_value, hlen, in_storage]

/-- C13: for every state, LOADI sets acc to its operand; LOAD with op < mem_size sets acc to
mem[op]; STORE with op < mem_size (a cell of the storage) sets mem[op] to acc, leaves every other
memory cell and the number of cells unchanged. None of the three changes ip, ir or flags, LOAD
and LOADI change no memory cell, and STORE does not change acc. -/
theorem C13_load_store (ds : m86_dataset) (trace : Bool) (m : m86_machine)
    (mem_size : Nat) (htr : trace_passes ds trace m.cpu m.mem mem_size) :
    (∀ op : Int,
      execute ds trace m mem_size ⟨LOADI, op⟩
        = .ok { m with cpu := { m.cpu with acc := op } }) ∧
    (∀ (x : Nat) (b : Int), x ≤ 0xFFFF → x < mem_size → m.mem[x]? = some b →
      execute ds trace m mem_size ⟨LOAD, x⟩
        = .ok { m with cpu := { m.cpu with acc := b } }) ∧
    (∀ x : Nat, x ≤ 0xFFFF → x < mem_size → x < m.mem.length →
      execute ds trace m mem_size ⟨STORE, x⟩ = .ok { m with mem := m.mem.set x m.cpu.acc } ∧
      (m.mem.set x m.cpu.acc)[x]? = some m.cpu.acc ∧
      (∀ i : Nat, i ≠ x → (m.mem.set x m.cpu.acc)[i]? = m.mem[i]?) ∧
      (m.mem.set x m.cpu.acc).length = m.mem.length) := by
  refine ⟨?_, ?_, ?_⟩
  · intro op
    rw [execute_eq_switch ds trace m mem_size _ htr]
    unfold execute_switch
    simp [HALT, LOAD, LOADI, pure, Except.pure, m86_set_acc_reg]
  · intro x b h16 hx hb
    rw [execute_eq_switch ds trace m mem_size _ htr]
    exact (execute_switch_load_store m mem_size x h16 hx).1 b hb
  · intro x h16 hx hlen
    rw [execute_eq_switch ds trace m mem_size _ htr]
    refine ⟨(execute_switch_load_store m mem_size x h16 hx).2 hlen, ?_, ?_, ?_⟩
    · simp [List.getElem?_set, hlen]
    · intro i hi
      simp [List.getElem?_set, Ne.symm hi]
    · simp

theorem C13_load_store_witness :
    execute catalogue_dataset true
        ⟨true, ⟨7, 0x03020002, 2, 1⟩, [0, 0, 9, 0], [], []⟩ 4 ⟨STORE, (2 : Nat)⟩
      = .ok ⟨true, ⟨7, 0x03020002, 2, 1⟩, [0, 0, 7, 0], [], []⟩ ∧
    execute catalogue_dataset true
        ⟨true, ⟨7, 0x03020002, 2, 1⟩, [0, 0, 9, 0], [], []⟩ 4 ⟨LOAD, (2 : Nat)⟩
      = .ok ⟨true, ⟨9, 0x03020002, 2, 1⟩, [0, 0, 9, 0], [], []⟩ :=
  ⟨((C13_load_store catalogue_dataset true
      ⟨true, ⟨7, 0x03020002, 2, 1⟩, [0, 0, 9, 0], [], []⟩ 4 (by decide)).2.2
      2 (by decide) (by decide) (by decide)).1,
   (C13_load_store catalogue_dataset true
      ⟨true, ⟨7, 0x03020002, 2, 1⟩, [0, 0, 9, 0], [], []⟩ 4 (by decide)).2.1
      2 9 (by decide) (by decide) rfl⟩

/-! ## Flags frame and unknown opcodes: theorems -/

theorem execute_ok_switch (ds : m86_dataset) (trace : Bool) (m m1 : m86_machine)
    (mem_size : Nat) (di : m86_decoded_instruct)
    (h : execute ds trace m mem_size di = .ok m1) :
    execute_switch m mem_size di = .ok m1 := by
  unfold execute at h
  cases trace with
  | false => exact h
  | true =>
    cases hd : m86_disassemble ds m.cpu m.mem mem_size (to_int (m86_get_ir_reg m.cpu)) with
    | error e => simp [hd, bind, Except.bind] at h
    | ok line => simpa [hd, bind, Except.bind, pure, Except.pure] using h

theorem execute_switch_flags (m m1 : m86_machine) (mem_size : Nat) (di : m86_decoded_instruct)
    (h1 : di.opcode ≠ CMP) (h2 : di.opcode ≠ CMPI)
    (h : execute_switch m mem_size di = .ok m1) : m1.cpu.flags = m.cpu.flags := by
  obtain ⟨oc, op⟩ := di
  simp only at h1 h2
  have hcase : ∀ c : Int, c ∈ [HALT, LOAD, LOADI, STORE, ADD, ADDI, SUB, SUBI, MUL, MULI, DIV,
      DIVI, MOD, MODI, JMPI, JEI, JNEI, JLI, JLEI, JGI, JGEI, IN, OUT] →
      execute_switch m mem_size ⟨c, op⟩ = .ok m1 → m1.cpu.flags = m.cpu.flags := by
    intro c hc hex
    simp only [List.mem_cons, List.mem_singleton, List.not_mem_nil, or_false] at hc
    rcases hc with e | e | e | e | e | e | e | e | e | e | e | e | e | e | e | e | e | e | e |
      e | e | e | e <;> subst e <;> unfold execute_switch at hex <;>
      simp only [HALT, LOAD, LOADI, STORE, ADD, ADDI, SUB, SUBI, MUL, MULI, DIV, DIVI, MOD,
        MODI, CMP, CMPI, JMPI, JEI, JNEI, JLI, JLEI, JGI, JGEI, IN, OUT, bind, Except.bind,
        pure, Except.pure, m86_error, m86_check_zero_div_error, reduceIte, Int.reduceEq,
        if_false, if_true] at hex <;>
      (try split at hex) <;> (try split at hex) <;> (try split at hex) <;>
      first
        | (cases hex; rfl)
        | (simp at hex)
  by_cases hHALT : oc = HALT
  · subst hHALT
    exact hcase _ (by decide) h
  by_cases hLOAD : oc = LOAD
  · subst hLOAD
    exact hcase _ (by decide) h
  by_cases hLOADI : oc = LOADI
  · subst hLOADI
    exact hcase _ (by decide) h
  by_cases hSTORE : oc = STORE
  · subst hSTORE
    exact hcase _ (by decide) h
  by_cases hADD : oc = ADD
  · subst hADD
    exact hcase _ (by decide) h
  by_cases hADDI : oc = ADDI
  · subst hADDI
    exact hcase _ (by decide) h
  by_cases hSUB : oc = SUB
  · subst hSUB
    exact hcase _ (by decide) h
  by_cases hSUBI : oc = SUBI
  · subst hSUBI
    exact hcase _ (by decide) h
  by_cases hMUL : oc = MUL
  · subst hMUL
    exact hcase _ (by decide) h
  by_cases hMULI : oc = MULI
  · subst hMULI
    exact hcase _ (by decide) h
  by_cases hDIV : oc = DIV
  · subst hDIV
    exact hcase _ (by decide) h
  by_cases hDIVI : oc = DIVI
  · subst hDIVI
    exact hcase _ (by decide) h
  by_cases hMOD : oc = MOD
  · subst hMOD
    exact hcase _ (by decide) h
  by_cases hMODI : oc = MODI
  · subst hMODI
    exact hcase _ (by decide) h
  by_cases hJMPI : oc = JMPI
  · subst hJMPI
    exact hcase _ (by decide) h
  by_cases hJEI : oc = JEI
  · subst hJEI
    exact hcase _ (by decide) h
  by_cases hJNEI : oc = JNEI
  · subst hJNEI
    exact hcase _ (by decide) h
  by_cases hJLI : oc = JLI
  · subst hJLI
    exact hcase _ (by decide) h
  by_cases hJLEI : oc = JLEI
  · subst hJLEI
    exact hcase _ (by decide) h
  by_cases hJGI : oc = JGI
  · subst hJGI
    exact hcase _ (by decide) h
  by_cases hJGEI : oc = JGEI
  · subst hJGEI
    exact hcase _ (by decide) h
  by_cases hIN : oc = IN
  · subst hIN
    exact hcase _ (by decide) h
  by_cases hOUT : oc = OUT
  · subst hOUT
    exact hcase _ (by decide) h
  unfold execute_switch at h
  simp [hHALT, hLOAD, hLOADI, hSTORE, hADD, hADDI, hSUB, hSUBI, hMUL, hMULI, hDIV, hDIVI,
    hMOD, hMODI, h1, h2, hJMPI, hJEI, hJNEI, hJLI, hJLEI, hJGI, hJGEI, hIN, hOUT, m86_error,
    bind, Except.bind] at h

/-- C14: for every state and every instruction whose opcode is neither CMP nor CMPI (in
particular each of the other 23 catalogue opcodes: HALT, LOAD, LOADI, STORE, the ten arithmetic
opcodes, the seven jumps, IN and OUT), whenever execute returns normally the flags register of
the resulting state equals the flags register before it. -/
theorem C14_only_compare_writes_flags (ds : m86_dataset) (trace : Bool) (m m1 : m86_machine)
    (mem_size : Nat) (di : m86_decoded_instruct)
    (hoc : di.opcode ∈ [HALT, LOAD, LOADI, STORE, ADD, ADDI, SUB, SUBI, MUL, MULI, DIV, DIVI,
      MOD, MODI, JMPI, JEI, JNEI, JLI, JLEI, JGI, JGEI, IN, OUT] ∨
      (di.opcode ≠ CMP ∧ di.opcode ≠ CMPI))
    (h : execute ds trace m mem_size di = .ok m1) :
    m1.cpu.flags = m.cpu.flags := by
  have hne : di.opcode ≠ CMP ∧ di.opcode ≠ CMPI := by
    rcases hoc with hmem | hne
    · simp only [List.mem_cons, List.mem_singleton, List.not_mem_nil, or_false] at hmem
      rcases hmem with e | e | e | e | e | e | e | e | e | e | e | e | e | e | e | e | e | e |
        e | e | e | e | e <;> rw [e] <;> decide
    · exact hne
  exact execute_switch_flags m m1 mem_size di hne.1 hne.2
    (execute_ok_switch ds trace m m1 mem_size di h)

theorem C14_only_compare_writes_flags_witness :
    execute catalogue_dataset true
        ⟨true, ⟨-3, 0x04010003, 2, 2⟩, m_allocate_init 20 0, [], []⟩ 20 ⟨ADDI, 3⟩
      = .ok ⟨true, ⟨0, 0x04010003, 2, 2⟩, m_allocate_init 20 0, [], []⟩ ∧
    (⟨true, ⟨0, 0x04010003, 2, 2⟩, m_allocate_init 20 0, [], []⟩ : m86_machine).cpu.flags
      = (⟨true, ⟨-3, 0x04010003, 2, 2⟩, m_allocate_init 20 0, [], []⟩ : m86_machine).cpu.flags :=
  ⟨rfl, C14_only_compare_writes_flags catalogue_dataset true
    ⟨true, ⟨-3, 0x04010003, 2, 2⟩, m_allocate_init 20 0, [], []⟩
    ⟨true, ⟨0, 0x04010003, 2, 2⟩, m_allocate_init 20 0, [], []⟩ 20 ⟨ADDI, 3⟩
    (Or.inl (by decide)) rfl⟩

theorem execute_switch_unknown (m : m86_machine) (mem_size : Nat) (di : m86_decoded_instruct)
    (hnot : di.opcode ∉ [HALT, LOAD, LOADI, STORE, ADD, ADDI, SUB, SUBI, MUL, MULI, DIV, DIVI,
      MOD, MODI, CMP, CMPI, JMPI, JEI, JNEI, JLI, JLEI, JGI, JGEI, IN, OUT]) :
    execute_switch m mem_size di
      = .error (.fatal "Micro86 ERROR: invalid instruction!" m.cpu m.mem) := by
  simp only [List.mem_cons, List.mem_singleton, List.not_mem_nil, or_false, not_or] at hnot
  obtain ⟨h1, h2, h3, h4, h5, h6, h7, h8, h9, h10, h11, h12, h13, h14, h15, h16, h17, h18,
    h19, h20, h21, h22, h23, h24, h25⟩ := hnot
  unfold execute_switch
  simp [h1, h2, h3, h4, h5, h6, h7, h8, h9, h10, h11, h12, h13, h14, h15, h16, h17, h18,
    h19, h20, h21, h22, h23, h24, h25, m86_error, bind, Except.bind]

/-- C15: for every decoded instruction whose opcode is not one of the 25 catalogue opcodes,
execute ends in the fatal "invalid instruction" error, raised with the processor (acc, ip, ir,
flags) and the memory exactly as they were. This covers every 32-bit word with the top bit set
(its decoded opcode is negative) and the zero word (its decoded opcode is 0). -/
theorem C15_unknown_opcode (ds : m86_dataset) (trace : Bool) (m : m86_machine)
    (mem_size : Nat) (htr : trace_passes ds trace m.cpu m.mem mem_size) :
    (∀ di : m86_decoded_instruct,
      di.opcode ∉ [HALT, LOAD, LOADI, STORE, ADD, ADDI, SUB, SUBI, MUL, MULI, DIV, DIVI,
        MOD, MODI, CMP, CMPI, JMPI, JEI, JNEI, JLI, JLEI, JGI, JGEI, IN, OUT] →
      execute ds trace m mem_size di
        = .error (.fatal "Micro86 ERROR: invalid instruction!" m.cpu m.mem)) ∧
    (∀ w : Int, is_int w → w ≤ 0 →
      execute ds trace m mem_size (m86_ei_decoded w)
        = .error (.fatal "Micro86 ERROR: invalid instruction!" m.cpu m.mem)) := by
  have hgen : ∀ di : m86_decoded_instruct,
      di.opcode ∉ [HALT, LOAD, LOADI, STORE, ADD, ADDI, SUB, SUBI, MUL, MULI, DIV, DIVI,
        MOD, MODI, CMP, CMPI, JMPI, JEI, JNEI, JLI, JLEI, JGI, JGEI, IN, OUT] →
      execute ds trace m mem_size di
        = .error (.fatal "Micro86 ERROR: invalid instruction!" m.cpu m.mem) := by
    intro di hnot
    rw [execute_eq_switch ds trace m mem_size di htr]
    exact execute_switch_unknown m mem_size di hnot
  refine ⟨hgen, ?_⟩
  intro w hw hneg
  apply hgen
  have hop : (m86_ei_decoded w).opcode ≤ 0 := by
    unfold m86_ei_decoded
    simp only [int_shr_16]
    omega
  intro hmem
  simp only [List.mem_cons, List.mem_singleton, List.not_mem_nil, or_false, HALT, LOAD, LOADI,
    STORE, ADD, ADDI, SUB, SUBI, MUL, MULI, DIV, DIVI, MOD, MODI, CMP, CMPI, JMPI, JEI, JNEI,
    JLI, JLEI, JGI, JGEI, IN, OUT] at hmem
  omega

theorem C15_unknown_opcode_witness :
    execute catalogue_dataset true
        ⟨true, ⟨4, 0xFFFF0000, 2, 1⟩, m_allocate_init 20 0, [], []⟩ 20 (m86_ei_decoded (-65536))
      = .error (.fatal "Micro86 ERROR: invalid instruction!" ⟨4, 0xFFFF0000, 2, 1⟩
          (m_allocate_init 20 0)) ∧
    execute catalogue_dataset true
        ⟨true, ⟨4, 0xFFFF0000, 2, 1⟩, m_allocate_init 20 0, [], []⟩ 20 ⟨0x0203, 5⟩
      = .error (.fatal "Micro86 ERROR: invalid instruction!" ⟨4, 0xFFFF0000, 2, 1⟩
          (m_allocate_init 20 0)) :=
  ⟨(C15_unknown_opcode catalogue_dataset true
      ⟨true, ⟨4, 0xFFFF0000, 2, 1⟩, m_allocate_init 20 0, [], []⟩ 20 (by decide)).2
      (-65536) (by decide) (by decide),
   (C15_unknown_opcode catalogue_dataset true
      ⟨true, ⟨4, 0xFFFF0000, 2, 1⟩, m_allocate_init 20 0, [], []⟩ 20 (by decide)).1
      ⟨0x0203, 5⟩ (by decide)⟩

/-! ## Jumps and the fetch that follows: theorems -/

theorem fetch_ok_bounds (cpu : micro86_proc) (mem : memory) (mem_size program_size : Nat)
    (r : m86_decoded_instruct × micro86_proc)
    (h : fetch cpu mem mem_size program_size = .ok r) :
    program_size ≠ 0 ∧ cpu.ip < mem_size ∧ (cpu.ip + 1) % 4294967296 ≤ program_size := by
  unfold fetch m86_check_no_prgm_error m86_error at h
  simp only [bind, Except.bind, pure, Except.pure, m86_get_ip_reg, m86_set_ip_reg] at h
  by_cases hp : program_size = 0
  · simp [hp, EXIT_FAILURE] at h
  · by_cases hip : cpu.ip ≥ mem_size
    · simp [hp, hip, EXIT_FAILURE] at h
    · by_cases hend : (cpu.ip + 1) % 4294967296 > program_size
      · simp [hp, hip, hend, EXIT_FAILURE] at h
      · exact ⟨hp, by omega, by omega⟩

theorem fetch_beyond_program (cpu : micro86_proc) (mem : memory) (mem_size program_size : Nat)
    (hsize : is_unsigned mem_size) (hp : 0 < program_size) (hip : program_size ≤ cpu.ip) :
    fetch cpu mem mem_size program_size
      = (if cpu.ip ≥ mem_size then
          .error (.fatal "Micro86 ERROR: memory violation!" cpu mem)
        else
          .error (.fatal "Micro86 ERROR: program end reached!"
            { cpu with ip := cpu.ip + 1 } mem)) := by
  unfold is_unsigned at hsize
  unfold fetch m86_check_no_prgm_error m86_error
  by_cases h : cpu.ip ≥ mem_size
  · simp [bind, Except.bind, pure, Except.pure, m86_get_ip_reg, h, EXIT_FAILURE,
      show ¬ program_size = 0 by omega]
  · have hmod : (cpu.ip + 1) % 4294967296 = cpu.ip + 1 := Nat.mod_eq_of_lt (by omega)
    simp [bind, Except.bind, pure, Except.pure, m86_get_ip_reg, m86_set_ip_reg, h, hmod,
      EXIT_FAILURE, show ¬ program_size = 0 by omega, show program_size < cpu.ip + 1 by omega]

theorem jumps_switch_ok (m : m86_machine) (mem_size : Nat) (t : Nat) (ht : t ≤ 0xFFFF)
    (oc : Int) (hoc : oc ∈ [JMPI, JEI, JNEI, JLI, JLEI, JGI, JGEI]) :
    execute_switch m mem_size ⟨oc, t⟩ = .ok { m with cpu := { m.cpu with ip := t } } ∨
    execute_switch m mem_size ⟨oc, t⟩ = .ok m := by
  have hu : to_unsigned (t : Int) = t := to_unsigned_natCast t (by omega)
  simp only [List.mem_cons, List.mem_singleton, List.not_mem_nil, or_false] at hoc
  unfold execute_switch
  rcases hoc with e | e | e | e | e | e | e <;> subst e <;>
    simp only [hu, HALT, LOAD, LOADI, STORE, ADD, ADDI, SUB, SUBI, MUL, MULI, DIV, DIVI, MOD,
      MODI, CMP, CMPI, JMPI, JEI, JNEI, JLI, JLEI, JGI, JGEI, m86_set_ip_reg, pure,
      Except.pure, Int.reduceEq, reduceIte, if_false, if_true] <;>
    first
      | (simp; done)
      | (split <;> simp)

theorem boot_up_loop_log_fst (ds : m86_dataset) (trace : Bool) (mem_size program_size : Nat)
    (fuel : Nat) (m : m86_machine) :
    (m86_boot_up_loop_log ds trace mem_size program_size fuel m).1
      = m86_boot_up_loop ds trace mem_size program_size fuel m := by
  induction fuel generalizing m with
  | zero => rfl
  | succ n ih =>
    unfold m86_boot_up_loop_log m86_boot_up_loop
    by_cases hr : m.running = true
    · rw [if_pos hr, if_pos hr]
      simp only [bind, Except.bind]
      cases hf : fetch m.cpu m.mem mem_size program_size with
      | error e => rfl
      | ok r =>
        obtain ⟨di, cpu⟩ := r
        simp only
        cases he : execute ds trace { m with cpu := cpu } mem_size di with
        | error e => rfl
        | ok m1 => simp only [ih]
    · rw [if_neg hr, if_neg hr]

theorem boot_up_loop_log_below (ds : m86_dataset) (trace : Bool) (mem_size program_size : Nat)
    (hsize : is_unsigned mem_size) (fuel : Nat) (m : m86_machine) :
    ∀ e ∈ (m86_boot_up_loop_log ds trace mem_size program_size fuel m).2,
      e.1 < program_size := by
  unfold is_unsigned at hsize
  induction fuel generalizing m with
  | zero => intro e he; simp [m86_boot_up_loop_log] at he
  | succ n ih =>
    intro e he
    unfold m86_boot_up_loop_log at he
    by_cases hr : m.running = true
    · rw [if_pos hr] at he
      cases hf : fetch m.cpu m.mem mem_size program_size with
      | error err => simp [hf] at he
      | ok r =>
        obtain ⟨di, cpu⟩ := r
        obtain ⟨-, h2, h3⟩ := fetch_ok_bounds m.cpu m.mem mem_size program_size _ hf
        have hmod : (m.cpu.ip + 1) % 4294967296 = m.cpu.ip + 1 := Nat.mod_eq_of_lt (by omega)
        have hlt : m.cpu.ip < program_size := by omega
        simp only [hf] at he
        cases hex : execute ds trace { m with cpu := cpu } mem_size di with
        | error err =>
          simp only [hex, List.mem_singleton] at he
          rw [he]; exact hlt
        | ok m1 =>
          simp only [hex, List.mem_cons] at he
          rcases he with he | he
          · rw [he]; exact hlt
          · exact ih m1 e he
    · rw [if_neg hr] at he
      simp at he

/-! ## Flag bits above bit 1: theorems -/

/-- C17, the code at flags = 2 against flags = 6 (and 0 against 4): the two states agree on
acc, ip, ir and on bits 0 and 1 of flags, yet m86_get_flags_sb, which is flags >> 1 with no mask,
reads the sign as 1 in one and 3 in the other (0 and 2), so JLI 7 and JLEI 7 jump only in the
first state of the first pair and JGI 7 and JGEI 7 only in the first state of the second; JEI
and JNEI, which read the masked zero bit only, do the same in both. -/
theorem C17_high_flag_bit_changes_jump :
    ((2 : Nat).testBit 0 = (6 : Nat).testBit 0 ∧ (2 : Nat).testBit 1 = (6 : Nat).testBit 1) ∧
    ((0 : Nat).testBit 0 = (4 : Nat).testBit 0 ∧ (0 : Nat).testBit 1 = (4 : Nat).testBit 1) ∧
    (m86_get_flags_sb ⟨5, 0, 3, 2⟩ = 1 ∧ m86_get_flags_sb ⟨5, 0, 3, 6⟩ = 3) ∧
    (execute catalogue_dataset false ⟨true, ⟨5, 0, 3, 2⟩, m_allocate_init 20 0, [], []⟩ 20
        ⟨JLI, 7⟩ = .ok ⟨true, ⟨5, 0, 7, 2⟩, m_allocate_init 20 0, [], []⟩ ∧
     execute catalogue_dataset false ⟨true, ⟨5, 0, 3, 6⟩, m_allocate_init 20 0, [], []⟩ 20
        ⟨JLI, 7⟩ = .ok ⟨true, ⟨5, 0, 3, 6⟩, m_allocate_init 20 0, [], []⟩) ∧
    (execute catalogue_dataset false ⟨true, ⟨5, 0, 3, 2⟩, m_allocate_init 20 0, [], []⟩ 20
        ⟨JLEI, 7⟩ = .ok ⟨true, ⟨5, 0, 7, 2⟩, m_allocate_init 20 0, [], []⟩ ∧
     execute catalogue_dataset false ⟨true, ⟨5, 0, 3, 6⟩, m_allocate_init 20 0, [], []⟩ 20
        ⟨JLEI, 7⟩ = .ok ⟨true, ⟨5, 0, 3, 6⟩, m_allocate_init 20 0, [], []⟩) ∧
    (execute catalogue_dataset false ⟨true, ⟨5, 0, 3, 0⟩, m_allocate_init 20 0, [], []⟩ 20
        ⟨JGI, 7⟩ = .ok ⟨true, ⟨5, 0, 7, 0⟩, m_allocate_init 20 0, [], []⟩ ∧
     execute catalogue_dataset false ⟨true, ⟨5, 0, 3, 4⟩, m_allocate_init 20 0, [], []⟩ 20
        ⟨JGI, 7⟩ = .ok ⟨true, ⟨5, 0, 3, 4⟩, m_allocate_init 20 0, [], []⟩) ∧
    (execute catalogue_dataset false ⟨true, ⟨5, 0, 3, 0⟩, m_allocate_init 20 0, [], []⟩ 20
        ⟨JGEI, 7⟩ = .ok ⟨true, ⟨5, 0, 7, 0⟩, m_allocate_init 20 0, [], []⟩ ∧
     execute catalogue_dataset false ⟨true, ⟨5, 0, 3, 4⟩, m_allocate_init 20 0, [], []⟩ 20
        ⟨JGEI, 7⟩ = .ok ⟨true, ⟨5, 0, 3, 4⟩, m_allocate_init 20 0, [], []⟩) ∧
    (execute catalogue_dataset false ⟨true, ⟨5, 0, 3, 2⟩, m_allocate_init 20 0, [], []⟩ 20
        ⟨JNEI, 7⟩ = .ok ⟨true, ⟨5, 0, 7, 2⟩, m_allocate_init 20 0, [], []⟩ ∧
     execute catalogue_dataset false ⟨true, ⟨5, 0, 3, 6⟩, m_allocate_init 20 0, [], []⟩ 20
        ⟨JNEI, 7⟩ = .ok ⟨true, ⟨5, 0, 7, 6⟩, m_allocate_init 20 0, [], []⟩) :=
  ⟨by decide, by decide, by decide, ⟨rfl, rfl⟩, ⟨rfl, rfl⟩, ⟨rfl, rfl⟩, ⟨rfl, rfl⟩, ⟨rfl, rfl⟩⟩

/-! ## Scenarios: theorems -/

/-- C18, counterexample to the final accumulator 0x63: the eight words of scenario S3 in a
20-cell zeroed memory, run from the all-zero processor state, reach HALT with acc = 5. -/
theorem C18_scenario_S3_halts_with_acc_5 :
    m86_boot_up catalogue_dataset
        ⟨false, m86_proc_init,
          [0x02010005, 0x09010003, 0x0B010006, 0x0F010007, 0x01000000, 0x01000000,
            0x02010063, 0x01000000] ++ m_allocate_init 12 0, [], []⟩
        20 8 false false 10
      = .ok (some ⟨false, ⟨5, 0x01000000, 8, 0⟩,
          [0x02010005, 0x09010003, 0x0B010006, 0x0F010007, 0x01000000, 0x01000000,
            0x02010063, 0x01000000] ++ m_allocate_init 12 0, [], []⟩) ∧
    (5 : Int) ≠ 0x63 :=
  ⟨rfl, by decide⟩

/-- C18, as it holds: loading the eight words 02010005, 09010003, 0B010006, 0F010007, 01000000,
01000000, 02010063, 01000000 at addresses 0..7 of a 20-cell zeroed memory and running from the
all-zero processor state, with tracing on or off and any number of loop iterations from five
up, reaches HALT with acc == 5, ip == 8 and flags == 0 and the memory unchanged: JGI 7 is taken
(5 > 3) and lands on the HALT at address 7, and the LOADI 0x63 at address 6 is never executed.
The same holds when the words come from the program file through the loader. -/
theorem C18_scenario_S3 (trace mem_resize : Bool) (fresh : Nat → Int) (fuel : Nat) :
    m86_boot_up catalogue_dataset
        ⟨false, m86_proc_init,
          [0x02010005, 0x09010003, 0x0B010006, 0x0F010007, 0x01000000, 0x01000000,
            0x02010063, 0x01000000] ++ m_allocate_init 12 0, [], []⟩
        20 8 false trace (fuel + 5)
      = .ok (some ⟨false, ⟨5, 0x01000000, 8, 0⟩,
          [0x02010005, 0x09010003, 0x0B010006, 0x0F010007, 0x01000000, 0x01000000,
            0x02010063, 0x01000000] ++ m_allocate_init 12 0, [], []⟩) ∧
    main (some scenario_S3_file) false trace mem_resize catalogue_dataset [] fresh (fuel + 5)
      = .ok (some ⟨false, ⟨5, 0x01000000, 8, 0⟩,
          [0x02010005, 0x09010003, 0x0B010006, 0x0F010007, 0x01000000, 0x01000000,
            0x02010063, 0x01000000] ++ m_allocate_init 12 0, [], []⟩) ∧
    (m86_boot_up_loop_log catalogue_dataset trace 20 8 (fuel + 5)
        ⟨true, m86_proc_init,
          [0x02010005, 0x09010003, 0x0B010006, 0x0F010007, 0x01000000, 0x01000000,
            0x02010063, 0x01000000] ++ m_allocate_init 12 0, [], []⟩).2
      = [(0, ⟨LOADI, 5⟩), (1, ⟨CMPI, 3⟩), (2, ⟨JEI, 6⟩), (3, ⟨JGI, 7⟩), (7, ⟨HALT, 0⟩)] := by
  cases trace <;> cases mem_resize <;> cases fuel <;> exact ⟨rfl, rfl, rfl⟩

/-- C19, counterexample to the need for the resize option: with resizing off, the program
02010007, 03020010, 01000000 loads into the default 20-cell memory and runs to HALT with
mem[16] = 7, no memory-bounds error; with resizing on, the memory size after loading is 20,
not 40. -/
theorem C19_scenario_S2_needs_no_resize :
    main (some scenario_S2_file) false false false catalogue_dataset [] (fun _ => 0) 10
      = .ok (some ⟨false, ⟨7, 0x01000000, 3, 0⟩,
          [0x02010007, 0x03020010, 0x01000000] ++ m_allocate_init 13 0 ++ [7, 0, 0, 0],
          [], []⟩) ∧
    m86_loader (some scenario_S2_file) m86_proc_init (m_allocate_init 20 0) 20 true
        (fun _ => 0)
      = .ok ⟨[0x02010007, 0x03020010, 0x01000000] ++ m_allocate_init 17 0, 20, 3⟩ ∧
    (20 : Nat) ≠ 40 :=
  ⟨rfl, rfl, by decide⟩

/-- C19, as it holds: for the program 02010007, 03020010, 01000000 started with the default
20-cell zeroed memory, the run does not need the resize option: with or without it the loader
writes three words and leaves the memory size at 20 (address 16 is below 20), and the run halts
normally with mem[16] == 7, acc == 7 and ip == 3, with tracing on or off and any number of loop
iterations from three up. -/
theorem C19_scenario_S2 (mem_resize trace : Bool) (fresh : Nat → Int) (fuel : Nat) :
    m86_loader (some scenario_S2_file) m86_proc_init
        (m_allocate_init M86_DEF_MEM_SIZE M86_INIT_MEM_VAL) M86_DEF_MEM_SIZE mem_resize fresh
      = .ok ⟨[0x02010007, 0x03020010, 0x01000000] ++ m_allocate_init 17 0, 20, 3⟩ ∧
    main (some scenario_S2_file) false trace mem_resize catalogue_dataset [] fresh (fuel + 3)
      = .ok (some ⟨false, ⟨7, 0x01000000, 3, 0⟩,
          [0x02010007, 0x03020010, 0x01000000] ++ m_allocate_init 13 0 ++ [7, 0, 0, 0],
          [], []⟩) ∧
    ([0x02010007, 0x03020010, 0x01000000] ++ m_allocate_init 13 0 ++ [7, 0, 0, 0] : memory)[16]?
      = some 7 := by
  cases mem_resize <;> cases trace <;> cases fuel <;> exact ⟨rfl, rfl, rfl⟩

/-! ## Memory ranges: lemmas -/

theorem set_values_loop_spec (end_ : Nat) (v : Int) (fuel i : Nat) (m : memory)
    (hend : i + fuel = end_) (hlen : end_ ≤ m.length) :
    ∃ m1, m_set_values_loop end_ v fuel i m = some m1 ∧ m1.length = m.length ∧
      ∀ k, m1[k]? = if i ≤ k ∧ k < end_ then some v else m[k]? := by
  induction fuel generalizing i m with
  | zero =>
    refine ⟨m, rfl, rfl, ?_⟩
    intro k
    rw [if_neg (by omega)]
  | succ n ih =>
    unfold m_set_values_loop
    rw [if_pos (by omega)]
    unfold m_set_value
    rw [if_pos (by omega)]
    obtain ⟨m1, h1, h2, h3⟩ := ih (i + 1) (m.set i v) (by omega)
      (by rw [List.length_set]; omega)
    refine ⟨m1, h1, by simpa using h2, ?_⟩
    intro k
    rw [h3 k]
    by_cases hk : i = k
    · subst hk
      rw [if_neg (by omega), if_pos (by omega), List.getElem?_set_self (by omega)]
    · rw [List.getElem?_set_ne hk]
      by_cases hk2 : i + 1 ≤ k ∧ k < end_
      · rw [if_pos hk2, if_pos (by omega)]
      · rw [if_neg hk2, if_neg (by omega)]

theorem copy_arr_loop_spec (arr : memory) (end1 end2 : Nat) (fuel i j : Nat) (m : memory)
    (n : Nat) (hn : n = min (end2 - i) (end1 - j)) (hfuel : n ≤ fuel)
    (harr : j + n ≤ arr.length) (hm : i + n ≤ m.length) :
    ∃ m1, m_copy_arr_loop arr end1 end2 fuel i j m = some m1 ∧ m1.length = m.length ∧
      ∀ k, m1[k]? = if i ≤ k ∧ k < i + n then arr[j + (k - i)]? else m[k]? := by
  induction fuel generalizing i j m n with
  | zero =>
    refine ⟨m, rfl, rfl, ?_⟩
    intro k
    rw [if_neg (by omega)]
  | succ f ih =>
    unfold m_copy_arr_loop
    by_cases hc : i < end2 ∧ j < end1
    · rw [if_pos hc]
      have hj : j < arr.length := by omega
      have hi : i < m.length := by omega
      unfold m_get_value m_set_value
      rw [List.getElem?_eq_getElem hj]
      simp only [hi, if_true]
      obtain ⟨m1, h1, h2, h3⟩ := ih (i + 1) (j + 1) (m.set i arr[j]) (n - 1)
        (by omega) (by omega) (by omega) (by rw [List.length_set]; omega)
      have hn0 : 0 < n := by omega
      refine ⟨m1, h1, by simpa using h2, ?_⟩
      intro k
      rw [h3 k]
      by_cases hk : i = k
      · subst hk
        rw [if_neg (by omega), if_pos (by omega), List.getElem?_set_self hi,
          Nat.sub_self, Nat.add_zero, List.getElem?_eq_getElem hj]
      · rw [List.getElem?_set_ne hk]
        by_cases hk2 : i + 1 ≤ k ∧ k < i + 1 + (n - 1)
        · rw [if_pos hk2, if_pos (by omega)]
          congr 1
          omega
        · rw [if_neg hk2, if_neg (by omega)]
    · rw [if_neg hc]
      refine ⟨m, rfl, rfl, ?_⟩
      intro k
      rw [if_neg (by omega)]

theorem allocate_length (size : Nat) (fresh : Nat → Int) : (m_allocate size fresh).length = size := by
  simp [m_allocate]

theorem extend_init_spec (m : memory) (size e_size : Nat) (v : Int) (fresh : Nat → Int)
    (hlen : m.length = size) (hsum : size + e_size < 4294967296) :
    ∃ m1, m_extend_init m size e_size v fresh = some m1 ∧ m1.length = size + e_size ∧
      ∀ k, m1[k]? = if k < size then m[k]? else if k < size + e_size then some v else none := by
  have hmod : (size + e_size) % 4294967296 = size + e_size := Nat.mod_eq_of_lt hsum
  unfold m_extend_init m_extend m_copy_mem m_copy_arr m_set_values
  rw [hmod]
  obtain ⟨m1, h1, h2, h3⟩ := copy_arr_loop_spec m size size (size - 0) 0 0
    (m_allocate (size + e_size) fresh) size (by omega) (by omega) (by omega)
    (by rw [allocate_length]; omega)
  rw [h1]
  simp only
  rw [allocate_length] at h2
  obtain ⟨m2, g1, g2, g3⟩ := set_values_loop_spec (size + e_size) v (size + e_size - size) size m1
    (by omega) (by omega)
  refine ⟨m2, g1, by omega, ?_⟩
  intro k
  rw [g3 k, h3 k]
  by_cases hk : k < size
  · rw [if_neg (by omega), if_pos (by omega), if_pos hk]
    simp
  · by_cases hk2 : k < size + e_size
    · rw [if_pos (by omega), if_neg hk, if_pos hk2]
    · rw [if_neg (by omega), if_neg (by omega), if_neg hk, if_neg hk2]
      rw [List.getElem?_eq_none]
      rw [allocate_length]; omega


/-! ## Loader: lemmas -/

theorem loader_store_ok (fresh : Nat → Int) (mem_resize : Bool) (cpu : micro86_proc) (v : Int)
    (st st1 : m86_loaded) (hlen : st.mem.length = st.mem_size)
    (hps : st.program_size ≤ st.mem_size) (hbound : st.program_size + 20 < 4294967296)
    (h : m86_loader_store fresh mem_resize cpu v st = .ok st1) :
    st1.program_size = st.program_size + 1 ∧
    st1.mem.length = st1.mem_size ∧
    st1.program_size ≤ st1.mem_size ∧
    st1.mem_size = (if st.program_size ≥ st.mem_size then st.mem_size + 20 else st.mem_size) ∧
    (∀ k, st1.mem[k]? =
      if k = st.program_size then some v
      else if k < st.mem_size then st.mem[k]?
      else if k < st1.mem_size then some 0 else none) := by
  have hmod1 : (st.program_size + 1) % 4294967296 = st.program_size + 1 :=
    Nat.mod_eq_of_lt (by omega)
  unfold m86_loader_store at h
  by_cases hge : st.program_size ≥ st.mem_size
  · have heq : st.program_size = st.mem_size := by omega
    have hmod2 : (st.mem_size + 20) % 4294967296 = st.mem_size + 20 :=
      Nat.mod_eq_of_lt (by omega)
    rw [if_pos hge] at h
    cases mem_resize with
    | false => simp at h
    | true =>
      obtain ⟨m1, e1, e2, e3⟩ := extend_init_spec st.mem st.mem_size 20 0 fresh hlen (by omega)
      simp only [Bool.not_true, Bool.false_eq_true, if_false, M86_MEM_EXT_SIZE,
        M86_DEF_MEM_SIZE, M86_INIT_MEM_VAL, e1, in_storage, bind, Except.bind, pure,
        Except.pure, m_set_value, hmod1, hmod2] at h
      rw [if_pos (by omega)] at h
      simp only [Except.ok.injEq] at h
      subst h
      simp only [List.length_set, e2, if_pos hge]
      refine ⟨trivial, trivial, by omega, trivial, ?_⟩
      intro k
      by_cases hk : k = st.program_size
      · subst hk
        rw [if_pos rfl, List.getElem?_set_self (by omega)]
      · rw [if_neg hk, List.getElem?_set_ne (Ne.symm hk), e3 k]
  · rw [if_neg hge] at h
    simp only [in_storage, bind, Except.bind, pure, Except.pure, m_set_value, hmod1] at h
    rw [if_pos (by omega)] at h
    simp only [Except.ok.injEq] at h
    subst h
    simp only [List.length_set, if_neg hge]
    refine ⟨trivial, hlen, by omega, trivial, ?_⟩
    intro k
    by_cases hk : k = st.program_size
    · subst hk
      rw [if_pos rfl, List.getElem?_set_self (by omega)]
    · rw [if_neg hk, List.getElem?_set_ne (Ne.symm hk)]
      by_cases hk2 : k < st.mem_size
      · rw [if_pos hk2]
      · rw [if_neg hk2, if_neg hk2, List.getElem?_eq_none (by omega)]


/-! ## Reading lines: lemmas -/

theorem fgets_read_line (n : Nat) (l rest : List Char) (hnl : Char.ofNat 10 ∉ l)
    (hlen : l.length < n) :
    fgets_read n (l ++ Char.ofNat 10 :: rest) = (l ++ [Char.ofNat 10], rest) := by
  induction l generalizing n with
  | nil =>
    cases n with
    | zero => omega
    | succ k => simp [fgets_read]
  | cons c t ih =>
    cases n with
    | zero => simp at hlen
    | succ k =>
      have hc : c ≠ Char.ofNat 10 := fun h => hnl (by simp [h])
      have ht : Char.ofNat 10 ∉ t := fun h => hnl (by simp [h])
      rw [List.cons_append]
      simp only [fgets_read, if_neg hc, ih k ht (by simpa using hlen)]
      rfl

theorem fgets_read_full (l rest : List Char) (hnl : Char.ofNat 10 ∉ l) :
    fgets_read l.length (l ++ rest) = (l, rest) := by
  induction l with
  | nil => simp [fgets_read]
  | cons c t ih =>
    have hc : c ≠ Char.ofNat 10 := fun h => hnl (by simp [h])
    have ht : Char.ofNat 10 ∉ t := fun h => hnl (by simp [h])
    rw [List.cons_append, List.length_cons]
    simp only [fgets_read, if_neg hc, ih ht]

theorem fgets_read_last (n : Nat) (l : List Char) (hnl : Char.ofNat 10 ∉ l)
    (hlen : l.length ≤ n) : fgets_read n l = (l, []) := by
  induction l generalizing n with
  | nil => cases n <;> simp [fgets_read]
  | cons c t ih =>
    cases n with
    | zero => simp at hlen
    | succ k =>
      have hc : c ≠ Char.ofNat 10 := fun h => hnl (by simp [h])
      have ht : Char.ofNat 10 ∉ t := fun h => hnl (by simp [h])
      simp only [fgets_read, if_neg hc]
      rw [ih k ht (by simpa using hlen)]

theorem c_string_eq (l : List Char) (h : Char.ofNat 0 ∉ l) : c_string l = l := by
  unfold c_string
  rw [List.takeWhile_eq_self_iff]
  intro x hx
  simp only [ne_eq, decide_not, Bool.not_eq_true', decide_eq_false_iff_not]
  intro hx0
  exact h (hx0 ▸ hx)

/-! ## Scanning a hexadecimal word: lemmas -/

theorem takeWhile_append_stop {p : Char → Bool} (t : List Char) (c : Char) (hc : p c = false) :
    (t ++ [c]).takeWhile p = t.takeWhile p := by
  induction t with
  | nil => simp [List.takeWhile, hc]
  | cons a t ih =>
    simp only [List.cons_append, List.takeWhile_cons]
    split
    · rw [ih]
    · rfl

theorem sscanf_hex_lead_append (s : List Char) (w : Nat) (c : Char)
    (h0 : c ≠ '0') (hx : c ≠ 'x') (hX : c ≠ 'X') :
    sscanf_hex_lead (s ++ [c]) w
      = ((sscanf_hex_lead s w).1, (sscanf_hex_lead s w).2.1 ++ [c], (sscanf_hex_lead s w).2.2) := by
  cases s with
  | nil => simp [sscanf_hex_lead, h0]
  | cons a s1 =>
    by_cases ha : a = '0'
    · cases s1 with
      | nil => simp [sscanf_hex_lead, ha, hx, hX]
      | cons b s2 =>
        by_cases hb : b = 'x' ∨ b = 'X'
        · simp [sscanf_hex_lead, ha, hb]
        · simp [sscanf_hex_lead, ha, hb]
    · simp [sscanf_hex_lead, ha]

theorem sscanf_hex_digits_append (s : List Char) (w : Nat) (c : Char)
    (hd : isxdigit c = false) (hx : c ≠ 'x') (hX : c ≠ 'X') :
    sscanf_hex_digits (s ++ [c]) w = sscanf_hex_digits s w := by
  have h0 : c ≠ '0' := by
    intro h
    rw [h] at hd
    exact absurd hd (by decide)
  unfold sscanf_hex_digits
  rw [sscanf_hex_lead_append s w c h0 hx hX]
  simp only
  rw [takeWhile_append_stop _ c hd]

theorem sscanf_hex_number_append (s : List Char) (w : Nat) (c : Char)
    (hd : isxdigit c = false) (hx : c ≠ 'x') (hX : c ≠ 'X') (hm : c ≠ '-') (hp : c ≠ '+') :
    sscanf_hex_number (s ++ [c]) w = sscanf_hex_number s w := by
  cases s with
  | nil =>
    have := sscanf_hex_digits_append [] w c hd hx hX
    simp only [List.nil_append] at this
    simp only [List.nil_append, sscanf_hex_number, if_neg hm, if_neg hp, this]
    simp [sscanf_hex_digits, sscanf_hex_lead]
  | cons a s1 =>
    simp only [List.cons_append, sscanf_hex_number]
    have e1 := sscanf_hex_digits_append s1 (w - 1) c hd hx hX
    have e2 := sscanf_hex_digits_append (a :: s1) w c hd hx hX
    simp only [List.cons_append] at e2
    rw [e1, e2]

theorem sscanf_08X_append_newline (l : List Char) :
    sscanf_08X (l ++ [Char.ofNat 10]) = sscanf_08X l := by
  have hsp : isspace (Char.ofNat 10) = true := by decide
  have key : sscanf_hex_number ((l ++ [Char.ofNat 10]).dropWhile isspace) 8
      = sscanf_hex_number (l.dropWhile isspace) 8 := by
    rw [List.dropWhile_append]
    split
    · rename_i he
      have he' : l.dropWhile isspace = [] := by simpa [List.isEmpty_iff] using he
      rw [he']
      simp [List.dropWhile, hsp, sscanf_hex_number]
    · exact sscanf_hex_number_append _ 8 _ (by decide) (by decide) (by decide) (by decide)
        (by decide)
  unfold sscanf_08X
  rw [key]


/-! ## Comment handling: lemmas -/

theorem take_indexOf_eq_takeWhile (a : Char) (l : List Char) :
    l.take (l.indexOf a) = l.takeWhile (fun c => c ≠ a) := by
  induction l with
  | nil => rfl
  | cons c t ih =>
    rw [List.indexOf_cons, List.takeWhile_cons]
    by_cases h : c = a
    · subst h
      simp
    · have hb : (c == a) = false := by simpa using h
      simp only [hb, cond_false, List.take_succ_cons, ih]
      simp [h]

theorem comment_position_iff (l : List Char) :
    ('#' ∈ l ∧ l.indexOf '#' = strspn l [' ']) ↔ wholly_comment l = true := by
  unfold strspn wholly_comment
  induction l with
  | nil => simp
  | cons c t ih =>
    rw [List.indexOf_cons, List.takeWhile_cons, List.dropWhile_cons]
    by_cases h1 : c = '#'
    · subst h1
      simp
    · by_cases h2 : c = ' '
      · subst h2
        simp only [List.mem_cons, show ¬ ('#' = ' ') by decide, false_or,
          show ((' ' : Char) == '#') = false by decide, cond_false,
          show ([' '].contains ' ') = true by decide, if_true, List.length_cons,
          Nat.add_right_cancel_iff, decide_True]
        exact ih
      · have hb : (c == '#') = false := by simpa using h1
        have hc : [' '].contains c = false := by simpa using h2
        simp only [hb, cond_false, hc, Bool.false_eq_true, if_false, List.length_nil,
          decide_eq_true_eq, h2, List.head?_cons, Option.some.injEq, h1, iff_false, not_and]
        intro _
        omega

theorem loader_instruct_eq (l : List Char) :
    m86_loader_instruct l = if wholly_comment l then none else some (before_comment l) := by
  have hT := take_indexOf_eq_takeWhile '#' l
  have hU := comment_position_iff l
  unfold m86_loader_instruct char_pos_str M86_PRGM_FILE_COMMENT M86_PRGM_FILE_DELIM
    before_comment
  by_cases hm : '#' ∈ l
  · rw [if_pos hm]
    simp only
    by_cases he : l.indexOf '#' = strspn l [' ']
    · rw [if_neg (by simpa using he), if_pos (hU.mp ⟨hm, he⟩)]
    · have hw : ¬ wholly_comment l = true := fun h => he (hU.mpr h).2
      rw [if_pos he, if_neg hw, hT]
  · have hw : ¬ wholly_comment l = true := fun h => hm (hU.mpr h).1
    rw [if_neg hm, if_neg hw]
    simp only
    rw [← hT, List.indexOf_eq_length.mpr hm, List.take_length]


theorem is_empty_line_of_ne (l : List Char) (hne : l ≠ []) (hnl : Char.ofNat 10 ∉ l) :
    is_empty_line l = false := by
  cases l with
  | nil => exact absurd rfl hne
  | cons c t =>
    have hc : c ≠ Char.ofNat 10 := fun h => hnl (by simp [h])
    simp [is_empty_line, hc]

theorem loader_line_eq (fresh : Nat → Int) (mem_resize : Bool) (cpu : micro86_proc)
    (l : List Char) (st : m86_loaded) (hne : l ≠ []) (hnl : Char.ofNat 10 ∉ l) :
    m86_loader_line fresh mem_resize cpu l st
      = (if wholly_comment l then pure st
         else match sscanf_08X (before_comment l) with
          | none => .error (.fatal "Micro86 ERROR: invalid instruction!" cpu st.mem)
          | some v => m86_loader_store fresh mem_resize cpu v st) := by
  unfold m86_loader_line
  rw [is_empty_line_of_ne l hne hnl, loader_instruct_eq]
  by_cases hw : wholly_comment l = true
  · simp [hw]
  · simp [hw]

theorem wholly_comment_append_newline (l : List Char) :
    wholly_comment (l ++ [Char.ofNat 10]) = wholly_comment l := by
  unfold wholly_comment
  rw [List.dropWhile_append]
  split
  · rename_i he
    have he' : l.dropWhile (fun c => decide (c = ' ')) = [] := by
      simpa [List.isEmpty_iff] using he
    rw [he']
    simp [List.dropWhile]
  · rename_i he
    cases hd : l.dropWhile (fun c => decide (c = ' ')) with
    | nil => simp [hd] at he
    | cons a t => simp

theorem before_comment_append_newline (l : List Char) :
    before_comment (l ++ [Char.ofNat 10])
      = if '#' ∈ l then before_comment l else before_comment l ++ [Char.ofNat 10] := by
  unfold before_comment
  induction l with
  | nil => simp [List.takeWhile]
  | cons c t ih =>
    rw [List.cons_append, List.takeWhile_cons, List.takeWhile_cons]
    by_cases h : c = '#'
    · subst h
      simp
    · have hm : ('#' ∈ c :: t) ↔ '#' ∈ t := by
        simp [List.mem_cons, Ne.symm h]
      simp only [ne_eq, h, not_false_eq_true, decide_True, if_true, ih, hm]
      split <;> rfl

theorem loader_line_append_newline (fresh : Nat → Int) (mem_resize : Bool) (cpu : micro86_proc)
    (l : List Char) (st : m86_loaded) (hne : l ≠ []) (hnl : Char.ofNat 10 ∉ l) :
    m86_loader_line fresh mem_resize cpu (l ++ [Char.ofNat 10]) st
      = m86_loader_line fresh mem_resize cpu l st := by
  have hhead : is_empty_line (l ++ [Char.ofNat 10]) = false := by
    cases l with
    | nil => exact absurd rfl hne
    | cons c t =>
      have hc : c ≠ Char.ofNat 10 := fun h => hnl (by simp [h])
      simp [is_empty_line, hc]
  unfold m86_loader_line
  rw [hhead, is_empty_line_of_ne l hne hnl, loader_instruct_eq, loader_instruct_eq,
    wholly_comment_append_newline, before_comment_append_newline]
  by_cases hw : wholly_comment l = true
  · simp [hw]
  · by_cases hm : '#' ∈ l
    · simp [hw, hm]
    · simp only [hw, hm, if_false, Bool.false_eq_true, sscanf_08X_append_newline]

theorem loader_line_newline (fresh : Nat → Int) (mem_resize : Bool) (cpu : micro86_proc)
    (st : m86_loaded) :
    m86_loader_line fresh mem_resize cpu [Char.ofNat 10] st = .ok st := by
  simp [m86_loader_line, is_empty_line, pure, Except.pure]

theorem file_text_length (lines : List (List Char)) (last : List Char) :
    (file_text lines last).length
      = (lines.map (fun l => l.length + 1)).sum + last.length := by
  induction lines with
  | nil => simp [file_text]
  | cons l ls ih => simp [file_text, ih]; omega

theorem loader_loop_done (fresh : Nat → Int) (mem_resize : Bool) (cpu : micro86_proc)
    (fuel : Nat) (st : m86_loaded) :
    m86_loader_loop fresh mem_resize cpu fuel [] st = .ok st := by
  cases fuel <;> simp [m86_loader_loop, fgets, pure, Except.pure]

theorem loader_loop_eq_lines (fresh : Nat → Int) (mem_resize : Bool) (cpu : micro86_proc)
    (lines : List (List Char)) (last : List Char) (fuel : Nat) (st : m86_loaded)
    (hlines : ∀ l ∈ lines, Char.ofNat 10 ∉ l ∧ Char.ofNat 0 ∉ l ∧ l.length ≤ 80)
    (hlast : Char.ofNat 10 ∉ last ∧ Char.ofNat 0 ∉ last ∧ last.length ≤ 80)
    (hfuel : (file_text lines last).length < fuel) :
    m86_loader_loop fresh mem_resize cpu fuel (file_text lines last) st
      = m86_loader_lines fresh mem_resize cpu (lines ++ [last]) st := by
  induction lines generalizing fuel st with
  | nil =>
    simp only [file_text, List.nil_append]
    by_cases hl : last = []
    · subst hl
      rw [loader_loop_done]
      simp [m86_loader_lines, pure, Except.pure]
    · cases fuel with
      | zero => omega
      | succ f =>
        unfold m86_loader_loop
        have hg : fgets (M86_PRGM_FILE_LINE_SIZE + 1) last = some (last, []) := by
          unfold fgets
          rw [if_neg hl]
          simp only [M86_PRGM_FILE_LINE_SIZE, Nat.add_sub_cancel]
          rw [fgets_read_last 80 last hlast.1 hlast.2.2]
        rw [hg]
        simp only [c_string_eq last hlast.2.1, m86_loader_lines, if_neg hl]
        cases m86_loader_line fresh mem_resize cpu last st with
        | error e => rfl
        | ok st1 => simp [loader_loop_done, pure, Except.pure]
  | cons l ls ih =>
    obtain ⟨hnl, hnul, hlen⟩ := hlines l (by simp)
    have hrest : ∀ l1 ∈ ls, Char.ofNat 10 ∉ l1 ∧ Char.ofNat 0 ∉ l1 ∧ l1.length ≤ 80 :=
      fun l1 h1 => hlines l1 (by simp [h1])
    simp only [file_text, List.cons_append] at hfuel ⊢
    cases fuel with
    | zero => omega
    | succ f =>
      simp only [List.length_append, List.length_cons] at hfuel
      have hne : l ++ Char.ofNat 10 :: file_text ls last ≠ [] := by simp
      unfold m86_loader_loop
      unfold fgets
      rw [if_neg hne]
      simp only [M86_PRGM_FILE_LINE_SIZE, Nat.add_sub_cancel]
      by_cases hshort : l.length < 80
      · rw [fgets_read_line 80 l _ hnl hshort]
        simp only
        have hnul2 : Char.ofNat 0 ∉ l ++ [Char.ofNat 10] := by
          simp only [List.mem_append, List.mem_singleton, not_or]
          exact ⟨hnul, by decide⟩
        rw [c_string_eq _ hnul2]
        by_cases hl : l = []
        · subst hl
          simp only [List.nil_append, loader_line_newline, m86_loader_lines, if_true]
          exact ih f st hrest (by omega)
        · rw [loader_line_append_newline fresh mem_resize cpu l st hl hnl]
          simp only [m86_loader_lines, if_neg hl]
          cases m86_loader_line fresh mem_resize cpu l st with
          | error e => rfl
          | ok st1 => exact ih f st1 hrest (by omega)
      · have h80 : l.length = 80 := by omega
        have hl : l ≠ [] := by
          intro h; rw [h] at h80; simp at h80
        have hr := fgets_read_full l (Char.ofNat 10 :: file_text ls last) hnl
        rw [h80] at hr
        rw [hr]
        simp only [c_string_eq l hnul, m86_loader_lines, if_neg hl]
        cases m86_loader_line fresh mem_resize cpu l st with
        | error e => rfl
        | ok st1 =>
          simp only
          cases f with
          | zero => omega
          | succ f1 =>
            unfold m86_loader_loop
            have hg : fgets (M86_PRGM_FILE_LINE_SIZE + 1) (Char.ofNat 10 :: file_text ls last)
                = some ([Char.ofNat 10], file_text ls last) := by
              simp [fgets, fgets_read, M86_PRGM_FILE_LINE_SIZE]
            rw [hg]
            simp only
            have hcs : c_string [Char.ofNat 10] = [Char.ofNat 10] :=
              c_string_eq _ (by decide)
            rw [hcs, loader_line_newline]
            exact ih f1 st1 hrest (by omega)


theorem instruction_lines_cons (l : List Char) (ls : List (List Char)) :
    instruction_lines (l :: ls)
      = if l ≠ [] ∧ wholly_comment l = false then l :: instruction_lines ls
        else instruction_lines ls := by
  unfold instruction_lines
  rw [List.filter_cons]
  by_cases h1 : l = []
  · subst h1
    simp
  · by_cases h2 : wholly_comment l = true
    · simp [h1, h2]
    · simp [h1, h2, List.isEmpty_iff]

theorem loader_lines_spec (fresh : Nat → Int) (mem_resize : Bool) (cpu : micro86_proc)
    (ls : List (List Char)) (st st2 : m86_loaded)
    (hnl : ∀ l ∈ ls, Char.ofNat 10 ∉ l)
    (hlen : st.mem.length = st.mem_size) (hps : st.program_size ≤ st.mem_size)
    (hbound : st.program_size + ls.length + 20 < 4294967296)
    (h : m86_loader_lines fresh mem_resize cpu ls st = .ok st2) :
    st2.program_size = st.program_size + (instruction_lines ls).length ∧
    st2.mem.length = st2.mem_size ∧
    st2.program_size ≤ st2.mem_size ∧
    st.mem_size ≤ st2.mem_size ∧
    (∀ k, k < st.program_size → st2.mem[k]? = st.mem[k]?) ∧
    (∀ i l, (instruction_lines ls)[i]? = some l →
      ∃ v, sscanf_08X (before_comment l) = some v ∧
        st2.mem[st.program_size + i]? = some v) ∧
    (∀ k, st2.program_size ≤ k → k < st2.mem_size →
      st2.mem[k]? = some ((st.mem[k]?).getD 0)) := by
  induction ls generalizing st with
  | nil =>
    simp only [m86_loader_lines, pure, Except.pure, Except.ok.injEq] at h
    subst h
    refine ⟨by simp [instruction_lines], hlen, hps, le_refl _, fun _ _ => rfl, ?_, ?_⟩
    · intro i l hi
      simp [instruction_lines] at hi
    · intro k _ hk
      rw [List.getElem?_eq_getElem (by omega)]
      rfl
  | cons l ls ih =>
    have hnl1 : Char.ofNat 10 ∉ l := hnl l (by simp)
    have hnl2 : ∀ l1 ∈ ls, Char.ofNat 10 ∉ l1 := fun l1 h1 => hnl l1 (by simp [h1])
    simp only [List.length_cons] at hbound
    rw [instruction_lines_cons]
    unfold m86_loader_lines at h
    by_cases hl : l = []
    · rw [if_pos hl] at h
      rw [if_neg (by simp [hl])]
      exact ih st hnl2 hlen hps (by omega) h
    · rw [if_neg hl, loader_line_eq fresh mem_resize cpu l st hl hnl1] at h
      by_cases hw : wholly_comment l = true
      · rw [if_pos hw] at h
        rw [if_neg (by simp [hw])]
        exact ih st hnl2 hlen hps (by omega) h
      · rw [if_neg hw] at h
        rw [if_pos ⟨hl, by simpa using hw⟩]
        cases hs : sscanf_08X (before_comment l) with
        | none => simp [hs] at h
        | some v =>
          simp only [hs] at h
          cases hst : m86_loader_store fresh mem_resize cpu v st with
          | error e => simp [hst] at h
          | ok st1 =>
            simp only [hst] at h
            obtain ⟨a1, a2, a3, a4, a5⟩ :=
              loader_store_ok fresh mem_resize cpu v st st1 hlen hps (by omega) hst
            obtain ⟨b1, b2, b3, b4, b5, b6, b7⟩ := ih st1 hnl2 a2 a3 (by omega) h
            have hms : st.mem_size ≤ st1.mem_size := by
              rw [a4]; split <;> omega
            refine ⟨by rw [b1, a1, List.length_cons]; omega, b2, b3, by omega, ?_, ?_, ?_⟩
            · intro k hk
              rw [b5 k (by omega), a5 k, if_neg (by omega), if_pos (by omega)]
            · intro i l1 hi
              cases i with
              | zero =>
                simp only [List.getElem?_cons_zero, Option.some.injEq] at hi
                subst hi
                refine ⟨v, hs, ?_⟩
                rw [Nat.add_zero, b5 _ (by omega), a5, if_pos rfl]
              | succ j =>
                simp only [List.getElem?_cons_succ] at hi
                obtain ⟨v1, e1, e2⟩ := b6 j l1 hi
                refine ⟨v1, e1, ?_⟩
                rw [← e2]
                congr 1
                omega
            · intro k hk1 hk2
              rw [b7 k hk1 hk2, a5 k, if_neg (by omega)]
              by_cases hk3 : k < st.mem_size
              · rw [if_pos hk3]
              · rw [if_neg hk3, List.getElem?_eq_none (by omega)]
                split <;> rfl

/-! ## Scanning a well-formed word: lemmas -/

theorem isxdigit_not_special (c : Char) (h : isxdigit c = true) :
    isspace c = false ∧ c ≠ '-' ∧ c ≠ '+' ∧ c ≠ 'x' ∧ c ≠ 'X' := by
  refine ⟨?_, ?_, ?_, ?_, ?_⟩
  · unfold isxdigit at h
    unfold isspace
    simp only [Bool.or_eq_true, Bool.and_eq_true, decide_eq_true_eq] at h
    have h32 : c = ' ' → c.toNat = 32 := fun e => by rw [e]; rfl
    simp only [Bool.or_eq_false_iff, Bool.and_eq_false_iff, decide_eq_false_iff_not]
    have e0 : '0'.toNat = 48 := rfl
    have e9 : '9'.toNat = 57 := rfl
    have ea : 'a'.toNat = 97 := rfl
    have ef : 'f'.toNat = 102 := rfl
    have eA : 'A'.toNat = 65 := rfl
    have eF : 'F'.toNat = 70 := rfl
    rw [e0, e9, ea, ef, eA, eF] at h
    constructor
    · intro hc
      have := h32 hc
      omega
    · omega
  all_goals
    intro hc
    rw [hc] at h
    exact absurd h (by decide)

theorem take_takeWhile_append (p : Char → Bool) (d rest : List Char)
    (h : ∀ c ∈ d, p c = true) : ((d ++ rest).takeWhile p).take d.length = d := by
  rw [List.takeWhile_append_of_pos h, List.take_append_of_le_length (le_refl _),
    List.take_length]

theorem sscanf_08X_word (ws d rest : List Char) (hws : ∀ c ∈ ws, isspace c = true)
    (hd : d.length = 8) (hx : ∀ c ∈ d, isxdigit c = true) :
    sscanf_08X (ws ++ d ++ rest) = some (to_int (hex_value d)) := by
  cases d with
  | nil => simp at hd
  | cons c d1 =>
    have hc := isxdigit_not_special c (hx c (by simp))
    have hd1 : d1.length = 7 := by simpa using hd
    have hx1 : ∀ a ∈ d1, isxdigit a = true := fun a ha => hx a (by simp [ha])
    have hdrop : (ws ++ (c :: d1) ++ rest).dropWhile isspace = c :: (d1 ++ rest) := by
      induction ws with
      | nil => simp [List.dropWhile_cons, hc.1]
      | cons a ws ih =>
        rw [List.cons_append, List.cons_append, List.dropWhile_cons,
          if_pos (hws a (by simp))]
        exact ih (fun b hb => hws b (by simp [hb]))
    have hdig : sscanf_hex_digits (c :: (d1 ++ rest)) 8 = c :: d1 := by
      unfold sscanf_hex_digits sscanf_hex_lead
      by_cases h0 : c = '0'
      · cases d1 with
        | nil => simp at hd1
        | cons x d2 =>
          have hxx := isxdigit_not_special x (hx1 x (by simp))
          have hnot : ¬ (x = 'x' ∨ x = 'X') := by
            intro h; rcases h with h | h
            · exact hxx.2.2.2.1 h
            · exact hxx.2.2.2.2 h
          simp only [h0, if_true, List.cons_append, if_neg hnot, List.singleton_append,
            List.cons.injEq, true_and]
          have := take_takeWhile_append isxdigit (x :: d2) rest hx1
          rw [hd1] at this
          exact this
      · simp only [if_neg h0, List.nil_append]
        have := take_takeWhile_append isxdigit (c :: d1) rest hx
        rw [hd] at this
        exact this
    unfold sscanf_08X
    rw [hdrop]
    have hnum : sscanf_hex_number (c :: (d1 ++ rest)) 8 = (false, c :: d1) := by
      unfold sscanf_hex_number
      simp only [if_neg hc.2.1, if_neg hc.2.2.1, hdig]
    rw [hnum]
    simp

theorem before_comment_word (ws d rest : List Char) (hws : ∀ c ∈ ws, isspace c = true)
    (hx : ∀ c ∈ d, isxdigit c = true) :
    before_comment (ws ++ d ++ rest) = ws ++ d ++ before_comment rest := by
  unfold before_comment
  apply List.takeWhile_append_of_pos
  intro c hc
  rcases List.mem_append.mp hc with h | h
  · have := hws c h
    simp only [ne_eq, decide_not, Bool.not_eq_eq_eq_not, Bool.not_true, decide_eq_false_iff_not]
    intro e
    rw [e] at this
    exact absurd this (by decide)
  · have := hx c h
    simp only [ne_eq, decide_not, Bool.not_eq_eq_eq_not, Bool.not_true, decide_eq_false_iff_not]
    intro e
    rw [e] at this
    exact absurd this (by decide)

/-! ## Loader image: theorems -/

/-- C20: a program file given as its newline-ended lines and its last line, each of at most 80
characters and with no NUL character, that m86_loader loads without error: the returned
program_size is the number of instruction lines (neither empty nor wholly comment); for every
i < program_size, mem[i] is the word sscanf reads with %08X from the i-th instruction line cut
at its comment, which is the 32-bit value of the 8 hexadecimal digits when the line is
whitespace, then 8 hexadecimal digits, then anything; and every cell from program_size to the
returned size holds what it held before the load, or zero when it was added by an extension. -/
theorem C20_loader_image (fresh : Nat → Int) (mem_resize : Bool) (cpu : micro86_proc)
    (mem : memory) (lines : List (List Char)) (last : List Char) (loaded : m86_loaded)
    (hlines : ∀ l ∈ lines, Char.ofNat 10 ∉ l ∧ Char.ofNat 0 ∉ l ∧ l.length ≤ 80)
    (hlast : Char.ofNat 10 ∉ last ∧ Char.ofNat 0 ∉ last ∧ last.length ≤ 80)
    (hcount : lines.length + 21 < 4294967296)
    (h : m86_loader (some (file_text lines last)) cpu mem mem.length mem_resize fresh
      = .ok loaded) :
    loaded.program_size = (instruction_lines (lines ++ [last])).length ∧
    loaded.mem.length = loaded.mem_size ∧
    loaded.program_size ≤ loaded.mem_size ∧
    (∀ (i : Nat) (l : List Char), (instruction_lines (lines ++ [last]))[i]? = some l →
      (∃ v, sscanf_08X (before_comment l) = some v ∧ loaded.mem[i]? = some v) ∧
      (∀ ws d rest : List Char, l = ws ++ d ++ rest → (∀ c ∈ ws, isspace c = true) → d.length = 8 →
        (∀ c ∈ d, isxdigit c = true) → loaded.mem[i]? = some (to_int (hex_value d)))) ∧
    (∀ k, loaded.program_size ≤ k → k < loaded.mem_size →
      loaded.mem[k]? = some ((mem[k]?).getD 0)) := by
  unfold m86_loader at h
  simp only at h
  rw [loader_loop_eq_lines fresh mem_resize cpu lines last _ _ hlines hlast (by omega)] at h
  have hnl : ∀ l ∈ lines ++ [last], Char.ofNat 10 ∉ l := by
    intro l hl
    rcases List.mem_append.mp hl with h1 | h1
    · exact (hlines l h1).1
    · rw [List.mem_singleton.mp h1]
      exact hlast.1
  obtain ⟨b1, b2, b3, _, _, b6, b7⟩ :=
    loader_lines_spec fresh mem_resize cpu (lines ++ [last]) ⟨mem, mem.length, 0⟩ loaded hnl
      rfl (Nat.zero_le _) (by simp only [List.length_append, List.length_singleton]; omega) h
  simp only [Nat.zero_add] at b1 b6
  refine ⟨b1, b2, b3, ?_, b7⟩
  intro i l hi
  obtain ⟨v, hv, hm⟩ := b6 i l hi
  refine ⟨⟨v, hv, hm⟩, ?_⟩
  intro ws d rest hl hws hd hx
  subst hl
  rw [before_comment_word ws d rest hws hx, sscanf_08X_word ws d _ hws hd hx] at hv
  rw [hm, ← Option.some.inj hv]

theorem C20_loader_image_witness :
    m86_loader
        (some (file_text ["# program".toList, "02010007".toList, [],
          "  03020010 # store".toList] "01000000".toList))
        m86_proc_init (m_allocate_init 20 0) 20 false (fun _ => 0)
      = .ok ⟨[0x02010007, 0x03020010, 0x01000000] ++ List.replicate 17 0, 20, 3⟩ ∧
    (3 : Nat) = (instruction_lines (["# program".toList, "02010007".toList, [],
      "  03020010 # store".toList] ++ ["01000000".toList])).length ∧
    ([0x02010007, 0x03020010, 0x01000000] ++ List.replicate 17 (0 : Int))[1]?
      = some (to_int (hex_value "03020010".toList)) ∧
    ([0x02010007, 0x03020010, 0x01000000] ++ List.replicate 17 (0 : Int))[7]? = some 0 := by
  have hload : m86_loader
        (some (file_text ["# program".toList, "02010007".toList, [],
          "  03020010 # store".toList] "01000000".toList))
        m86_proc_init (m_allocate_init 20 0) (m_allocate_init 20 0).length false (fun _ => 0)
      = .ok ⟨[0x02010007, 0x03020010, 0x01000000] ++ List.replicate 17 0, 20, 3⟩ := rfl
  have hw := C20_loader_image (fun _ => 0) false m86_proc_init (m_allocate_init 20 0)
    ["# program".toList, "02010007".toList, [], "  03020010 # store".toList]
    "01000000".toList ⟨[0x02010007, 0x03020010, 0x01000000] ++ List.replicate 17 0, 20, 3⟩
    (by decide) (by decide) (by decide) hload
  exact ⟨rfl, hw.1,
    (hw.2.2.2.1 1 "  03020010 # store".toList rfl).2 "  ".toList "03020010".toList
      " # store".toList rfl (by decide) rfl (by decide),
    hw.2.2.2.2 7 (by decide) (by decide)⟩

/-! ## Memory extension and range copy: theorems -/

theorem copy_arr_loop_short (arr : memory) (end1 end2 : Nat) (fuel i j : Nat) (m : memory)
    (n : Nat) (hn : n = min (end2 - i) (end1 - j)) (hfuel : n ≤ fuel)
    (harr : j + n ≤ arr.length) (hi : i ≤ m.length) (hm : m.length < i + n) :
    m_copy_arr_loop arr end1 end2 fuel i j m = none := by
  induction fuel generalizing i j m n with
  | zero => omega
  | succ f ih =>
    unfold m_copy_arr_loop
    have hc : i < end2 ∧ j < end1 := by omega
    rw [if_pos hc]
    have hj : j < arr.length := by omega
    simp only [m_get_value, List.getElem?_eq_getElem hj, m_set_value]
    by_cases hlt : i < m.length
    · rw [if_pos hlt]
      simp only
      exact ih (i + 1) (j + 1) (m.set i arr[j]) (n - 1) (by omega) (by omega) (by omega)
        (by rw [List.length_set]; omega) (by rw [List.length_set]; omega)
    · rw [if_neg hlt]

/-- C24, the code when size + delta leaves the unsigned range: m_extend_init returns true
whenever the pointer is not NULL and malloc returns a block, whatever the sizes. When
size + delta fits in 32 bits the claim holds: the call succeeds, the memory has size + delta
cells, every cell i < size holds the value it held before and every cell i with
size <= i < size + delta holds v. When size + delta is 2^32 or more, the block allocated has
size + delta - 2^32 cells, fewer than size, and the copy of the first size cells writes outside
it: no memory of size + delta cells results although the call reports success. -/
theorem C24_memory_extension_wraps (m : memory) (size e_size : Nat) (v : Int)
    (fresh : Nat → Int) (hlen : m.length = size) (hs : is_unsigned size)
    (he : is_unsigned e_size) :
    m_extend_status false true = true ∧
    m_extend_init_status false true = true ∧
    (size + e_size < 4294967296 →
      ∃ m1, m_extend_init m size e_size v fresh = some m1 ∧
        m1.length = size + e_size ∧
        (∀ i : Nat, i < size → m1[i]? = m[i]?) ∧
        (∀ i : Nat, size ≤ i → i < size + e_size → m1[i]? = some v)) ∧
    (4294967296 ≤ size + e_size →
      (m_allocate ((size + e_size) % 4294967296) fresh).length = size + e_size - 4294967296 ∧
      (m_allocate ((size + e_size) % 4294967296) fresh).length < size ∧
      m_extend m size e_size fresh = none ∧
      m_extend_init m size e_size v fresh = none) := by
  unfold is_unsigned at hs he
  refine ⟨rfl, rfl, ?_, ?_⟩
  · intro hsum
    obtain ⟨m2, h1, h2, h3⟩ := extend_init_spec m size e_size v fresh hlen hsum
    refine ⟨m2, h1, h2, ?_, ?_⟩
    · intro i hi
      rw [h3 i, if_pos hi]
    · intro i hi1 hi2
      rw [h3 i, if_neg (by omega), if_pos hi2]
  · intro hsum
    have hblock : (m_allocate ((size + e_size) % 4294967296) fresh).length
        = size + e_size - 4294967296 := by
      rw [allocate_length]
      omega
    have hshort : m_extend m size e_size fresh = none := by
      unfold m_extend m_copy_mem m_copy_arr
      apply copy_arr_loop_short m size size (size - 0) 0 0 _ size (by omega) (by omega)
        (by omega) (by omega)
      rw [hblock]
      omega
    refine ⟨hblock, by rw [hblock]; omega, hshort, ?_⟩
    unfold m_extend_init
    rw [hshort]

theorem C24_memory_extension_wraps_witness :
    m_extend_init_status false true = true ∧
    (m_allocate ((10 + 4294967290) % 4294967296) (fun _ => 9)).length = 4 ∧
    m_extend [1, 2, 3, 4, 5, 6, 7, 8, 9, 10] 10 4294967290 (fun _ => 9) = none ∧
    m_extend_init [1, 2, 3, 4, 5, 6, 7, 8, 9, 10] 10 4294967290 7 (fun _ => 9) = none :=
  ⟨(C24_memory_extension_wraps [1, 2, 3, 4, 5, 6, 7, 8, 9, 10] 10 4294967290 7 (fun _ => 9)
      rfl (by decide) (by decide)).2.1,
   ((C24_memory_extension_wraps [1, 2, 3, 4, 5, 6, 7, 8, 9, 10] 10 4294967290 7 (fun _ => 9)
      rfl (by decide) (by decide)).2.2.2 (by decide)).1,
   ((C24_memory_extension_wraps [1, 2, 3, 4, 5, 6, 7, 8, 9, 10] 10 4294967290 7 (fun _ => 9)
      rfl (by decide) (by decide)).2.2.2 (by decide)).2.2.1,
   ((C24_memory_extension_wraps [1, 2, 3, 4, 5, 6, 7, 8, 9, 10] 10 4294967290 7 (fun _ => 9)
      rfl (by decide) (by decide)).2.2.2 (by decide)).2.2.2⟩

/-- C27: for every source src with range [s1,e1) and destination dst with range [s2,e2), both
ranges in bounds (the destination being a memory of its own), m_copy_mem returns, the
destination keeps its number of cells, dst[s2 + k] == src[s1 + k] for every
k < min(e1 - s1, e2 - s2), and every other destination cell holds its previous value. -/
theorem C27_range_copy (src dst : memory) (s1 e1 s2 e2 : Nat)
    (h1 : s1 ≤ e1) (hsrc : e1 ≤ src.length) (h2 : s2 ≤ e2) (hdst : e2 ≤ dst.length) :
    ∃ dst1, m_copy_mem src s1 e1 dst s2 e2 = some dst1 ∧
      dst1.length = dst.length ∧
      (∀ k : Nat, k < min (e1 - s1) (e2 - s2) → dst1[s2 + k]? = src[s1 + k]?) ∧
      (∀ i : Nat, ¬ (s2 ≤ i ∧ i < s2 + min (e1 - s1) (e2 - s2)) → dst1[i]? = dst[i]?) := by
  unfold m_copy_mem m_copy_arr
  obtain ⟨m1, e1_, e2_, e3_⟩ := copy_arr_loop_spec src e1 e2 (e2 - s2) s2 s1 dst
    (min (e2 - s2) (e1 - s1)) rfl (by omega) (by omega) (by omega)
  refine ⟨m1, e1_, e2_, ?_, ?_⟩
  · intro k hk
    rw [e3_ (s2 + k), if_pos (by omega)]
    congr 1
    omega
  · intro i hi
    rw [e3_ i, if_neg (by omega)]

theorem C27_range_copy_witness :
    m_copy_mem [1, 2, 3, 4] 1 4 [9, 9, 9, 9, 9] 2 4 = some [9, 9, 2, 3, 9] ∧
    ([9, 9, 2, 3, 9] : memory)[2 + 1]? = ([1, 2, 3, 4] : memory)[1 + 1]? ∧
    ([9, 9, 2, 3, 9] : memory)[4]? = ([9, 9, 9, 9, 9] : memory)[4]? := by
  obtain ⟨dst1, h, _, hk, hi⟩ := C27_range_copy [1, 2, 3, 4] [9, 9, 9, 9, 9] 1 4 2 4
    (by decide) (by decide) (by decide) (by decide)
  have e : dst1 = [9, 9, 2, 3, 9] := by
    have h0 : m_copy_mem [1, 2, 3, 4] 1 4 [9, 9, 9, 9, 9] 2 4 = some [9, 9, 2, 3, 9] := rfl
    rw [h0] at h
    exact (Option.some.inj h).symm
  subst e
  exact ⟨rfl, hk 1 (by decide), hi 4 (by decide)⟩

/-! ## Range comparison: theorems -/

theorem eq_check_loop_spec (m1 m2 : memory) (end1 end2 : Nat) (fuel i j n : Nat)
    (hn : n = min (end2 - i) (end1 - j)) (hfuel : n ≤ fuel)
    (h1 : i + n ≤ m1.length) (h2 : j + n ≤ m2.length) :
    m_eq_check_loop m1 m2 end1 end2 fuel i j
      = some (decide (∀ k : Nat, k < n → m1[i + k]? = m2[j + k]?)) := by
  induction fuel generalizing i j n with
  | zero =>
    have h0 : n = 0 := by omega
    subst h0
    simp [m_eq_check_loop]
  | succ f ih =>
    unfold m_eq_check_loop
    by_cases hc : i < end2 ∧ j < end1
    · rw [if_pos hc]
      have hi : i < m1.length := by omega
      have hj : j < m2.length := by omega
      simp only [m_get_value, List.getElem?_eq_getElem hi, List.getElem?_eq_getElem hj]
      by_cases hab : m1[i] ≠ m2[j]
      · rw [if_pos hab]
        congr 1
        symm
        rw [decide_eq_false_iff_not]
        intro hall
        have := hall 0 (by omega)
        simp only [Nat.add_zero, List.getElem?_eq_getElem hi, List.getElem?_eq_getElem hj,
          Option.some.injEq] at this
        exact hab this
      · rw [if_neg hab]
        rw [ih (i + 1) (j + 1) (n - 1) (by omega) (by omega) (by omega) (by omega)]
        congr 1
        rw [decide_eq_decide]
        have hab1 : m1[i] = m2[j] := by
          by_contra hne
          exact hab hne
        constructor
        · intro hall k hk
          cases k with
          | zero =>
            simp only [Nat.add_zero, List.getElem?_eq_getElem hi, List.getElem?_eq_getElem hj,
              hab1]
          | succ k1 =>
            have := hall k1 (by omega)
            rw [show i + (k1 + 1) = i + 1 + k1 by omega, show j + (k1 + 1) = j + 1 + k1 by omega]
            exact this
        · intro hall k hk
          have := hall (k + 1) (by omega)
          rw [show i + 1 + k = i + (k + 1) by omega, show j + 1 + k = j + (k + 1) by omega]
          exact this
    · rw [if_neg hc]
      have h0 : n = 0 := by omega
      subst h0
      simp

/-- C25, what the code computes: for allocated memories and ranges [s1,e1), [s2,e2) with
s1 <= e1 and s2 <= e2 (the cells read being in storage), m_eq_check returns true iff the two
range sizes are equal and m1[s2 + k] == m2[s1 + k] for every k < e1 - s1: the first memory is
indexed from the start of the second range and the second memory from the start of the first
range. Two absent memories compare equal and exactly one absent compares unequal. -/
theorem C25_eq_check_swaps_the_ranges (m1 m2 : memory) (s1 e1 s2 e2 : Nat)
    (h1 : s1 ≤ e1) (h2 : s2 ≤ e2) (hu1 : is_unsigned e1) (hu2 : is_unsigned e2)
    (hr1 : e2 ≤ m1.length) (hr2 : e1 ≤ m2.length) :
    m_eq_check (some m1) s1 e1 (some m2) s2 e2
      = some (decide (e1 - s1 = e2 - s2 ∧
          ∀ k : Nat, k < e1 - s1 → m1[s2 + k]? = m2[s1 + k]?)) ∧
    m_eq_check none s1 e1 none s2 e2 = some true ∧
    m_eq_check none s1 e1 (some m2) s2 e2 = some false ∧
    m_eq_check (some m1) s1 e1 none s2 e2 = some false := by
  refine ⟨?_, rfl, rfl, rfl⟩
  unfold is_unsigned at hu1 hu2
  unfold m_eq_check
  simp only
  have e1_ : (e1 + 4294967296 - s1) % 4294967296 = e1 - s1 := by omega
  have e2_ : (e2 + 4294967296 - s2) % 4294967296 = e2 - s2 := by omega
  rw [e1_, e2_]
  by_cases hsz : e1 - s1 = e2 - s2
  · rw [if_neg (by simpa using hsz)]
    rw [eq_check_loop_spec m1 m2 e1 e2 (e2 - s2) s2 s1 (e1 - s1) (by omega) (by omega)
      (by omega) (by omega)]
    congr 1
    rw [decide_eq_decide]
    constructor
    · intro h
      exact ⟨hsz, h⟩
    · intro h
      exact h.2
  · rw [if_pos hsz]
    congr 1
    symm
    rw [decide_eq_false_iff_not]
    intro h
    exact hsz h.1

theorem C25_eq_check_swaps_the_ranges_witness :
    m_eq_check (some [1, 2]) 0 1 (some [9, 1]) 1 2 = some false ∧
    ([1, 2] : memory)[0]? = ([9, 1] : memory)[1]? ∧
    m_eq_check (some [1, 2]) 0 1 (some [2, 7]) 1 2 = some true ∧
    ([1, 2] : memory)[0]? ≠ ([2, 7] : memory)[1]? :=
  ⟨(C25_eq_check_swaps_the_ranges [1, 2] [9, 1] 0 1 1 2 (by decide) (by decide) (by decide)
      (by decide) (by decide) (by decide)).1.trans (by decide),
   by decide,
   (C25_eq_check_swaps_the_ranges [1, 2] [2, 7] 0 1 1 2 (by decide) (by decide) (by decide)
      (by decide) (by decide) (by decide)).1.trans (by decide),
   by decide⟩

/-! ## Memory dump: theorems -/

theorem print_memory_loop_spec (m : memory) (end_ : Nat) (fuel i skip : Nat)
    (hfuel : end_ - i ≤ fuel) (hend : end_ ≤ m.length) (hu : end_ < 4294967296)
    (hskip : skip ≤ i) :
    ∃ out, m_print_memory_loop m end_ fuel i skip = some out ∧
      (∀ (a : Nat) (v : Int), m_printed.cell a v ∈ out ↔
        (i ≤ a ∧ a < end_ ∧ m[a]? = some v ∧
          (v ≠ 0 ∨ (a = i ∧ skip = 0) ∨ (i < a ∧ m[a - 1]? ≠ some 0) ∨ a + 1 = end_))) := by
  induction fuel generalizing i skip with
  | zero =>
    refine ⟨[], rfl, ?_⟩
    intro a v
    constructor
    · intro h
      exact absurd h (List.not_mem_nil _)
    · intro h
      omega
  | succ f ih =>
    unfold m_print_memory_loop
    by_cases hi : i < end_
    · rw [if_pos hi]
      have hlt : i < m.length := by omega
      have hv : m[i]? = some m[i] := List.getElem?_eq_getElem hlt
      simp only [m_get_value, hv, MEM_SKIP_VAL]
      have hmod : (skip + 1) % 4294967296 = skip + 1 := Nat.mod_eq_of_lt (by omega)
      have hmod2 : (end_ + 4294967296 - 1) % 4294967296 = end_ - 1 := by omega
      rw [hmod, hmod2]
      by_cases hz : m[i] = 0
      · rw [if_pos hz]
        obtain ⟨out1, e1, e2⟩ := ih (i + 1) (skip + 1) (by omega) (by omega)
        have hprev : ∀ a : Nat, a = i + 1 → m[a - 1]? = some 0 := by
          intro a ha
          rw [ha, Nat.add_sub_cancel, hv, hz]
        by_cases hs : skip + 1 > 1 ∧ i < end_ - 1
        · rw [if_pos hs]
          have hmem : ∀ (a : Nat) (v : Int), m_printed.cell a v ∈ out1 ↔
              (i ≤ a ∧ a < end_ ∧ m[a]? = some v ∧
                (v ≠ 0 ∨ (a = i ∧ skip = 0) ∨ (i < a ∧ m[a - 1]? ≠ some 0) ∨
                  a + 1 = end_)) := by
            intro a v
            rw [e2 a v]
            constructor
            · rintro ⟨h1, h2, h3, h4⟩
              refine ⟨by omega, h2, h3, ?_⟩
              rcases h4 with h4 | h4 | h4 | h4
              · exact Or.inl h4
              · omega
              · exact Or.inr (Or.inr (Or.inl ⟨by omega, h4.2⟩))
              · exact Or.inr (Or.inr (Or.inr h4))
            · rintro ⟨h1, h2, h3, h4⟩
              by_cases ha : a = i
              · subst ha
                rw [hv, Option.some.injEq] at h3
                rcases h4 with h4 | h4 | h4 | h4
                · exact absurd (h3 ▸ hz) h4
                · omega
                · omega
                · omega
              · refine ⟨by omega, h2, h3, ?_⟩
                rcases h4 with h4 | h4 | h4 | h4
                · exact Or.inl h4
                · omega
                · by_cases ha1 : a = i + 1
                  · exact absurd (hprev a ha1) h4.2
                  · exact Or.inr (Or.inr (Or.inl ⟨by omega, h4.2⟩))
                · exact Or.inr (Or.inr (Or.inr h4))
          by_cases h2 : skip + 1 = 2
          · rw [if_pos h2, e1]
            refine ⟨m_printed.dots :: out1, rfl, ?_⟩
            intro a v
            rw [List.mem_cons, ← hmem a v]
            constructor
            · intro h
              rcases h with h | h
              · cases h
              · exact h
            · intro h
              exact Or.inr h
          · rw [if_neg h2, e1]
            exact ⟨out1, rfl, hmem⟩
        · rw [if_neg hs, e1]
          refine ⟨m_printed.cell i m[i] :: out1, rfl, ?_⟩
          intro a v
          rw [List.mem_cons, e2 a v]
          constructor
          · intro h
            rcases h with h | ⟨h1, h2, h3, h4⟩
            · rw [m_printed.cell.injEq] at h
              obtain ⟨ha, hv1⟩ := h
              subst ha
              subst hv1
              refine ⟨Nat.le_refl _, hi, hv, ?_⟩
              by_cases hs0 : skip = 0
              · exact Or.inr (Or.inl ⟨rfl, hs0⟩)
              · exact Or.inr (Or.inr (Or.inr (by omega)))
            · refine ⟨by omega, h2, h3, ?_⟩
              rcases h4 with h4 | h4 | h4 | h4
              · exact Or.inl h4
              · omega
              · exact Or.inr (Or.inr (Or.inl ⟨by omega, h4.2⟩))
              · exact Or.inr (Or.inr (Or.inr h4))
          · rintro ⟨h1, h2, h3, h4⟩
            by_cases ha : a = i
            · subst ha
              rw [hv, Option.some.injEq] at h3
              left
              rw [h3]
            · right
              refine ⟨by omega, h2, h3, ?_⟩
              rcases h4 with h4 | h4 | h4 | h4
              · exact Or.inl h4
              · omega
              · by_cases ha1 : a = i + 1
                · exact absurd (hprev a ha1) h4.2
                · exact Or.inr (Or.inr (Or.inl ⟨by omega, h4.2⟩))
              · exact Or.inr (Or.inr (Or.inr h4))
      · rw [if_neg hz]
        obtain ⟨out1, e1, e2⟩ := ih (i + 1) 0 (by omega) (Nat.zero_le _)
        rw [e1]
        refine ⟨m_printed.cell i m[i] :: out1, rfl, ?_⟩
        have hprev : ∀ a : Nat, a = i + 1 → m[a - 1]? ≠ some 0 := by
          intro a ha
          rw [ha, Nat.add_sub_cancel, hv]
          intro h
          exact hz (Option.some.inj h)
        intro a v
        rw [List.mem_cons, e2 a v]
        constructor
        · intro h
          rcases h with h | ⟨h1, h2, h3, h4⟩
          · rw [m_printed.cell.injEq] at h
            obtain ⟨ha, hv1⟩ := h
            subst ha
            subst hv1
            exact ⟨Nat.le_refl _, hi, hv, Or.inl hz⟩
          · refine ⟨by omega, h2, h3, ?_⟩
            rcases h4 with h4 | h4 | h4 | h4
            · exact Or.inl h4
            · exact Or.inr (Or.inr (Or.inl ⟨by omega, hprev a h4.1⟩))
            · exact Or.inr (Or.inr (Or.inl ⟨by omega, h4.2⟩))
            · exact Or.inr (Or.inr (Or.inr h4))
        · rintro ⟨h1, h2, h3, h4⟩
          by_cases ha : a = i
          · subst ha
            rw [hv, Option.some.injEq] at h3
            left
            rw [h3]
          · right
            refine ⟨by omega, h2, h3, ?_⟩
            rcases h4 with h4 | h4 | h4 | h4
            · exact Or.inl h4
            · omega
            · by_cases ha1 : a = i + 1
              · exact Or.inr (Or.inl ⟨ha1, rfl⟩)
              · exact Or.inr (Or.inr (Or.inl ⟨by omega, h4.2⟩))
            · exact Or.inr (Or.inr (Or.inr h4))
    · rw [if_neg hi]
      refine ⟨[], rfl, ?_⟩
      intro a v
      constructor
      · intro h
        exact absurd h (List.not_mem_nil _)
      · intro h
        omega

/-- C28, what the code prints: for every memory and range [start, end) inside it,
m_print_memory prints an "address: value" line for a cell of the range exactly when the cell is
non-zero, or is the first cell of the range, or follows a cell that is not zero, or is the last
cell of the range. A zero cell that follows a zero cell and is not the last of the range gets
no line of its own, whatever the length of its run: the second cell of a run of 2 is elided. -/
theorem C28_dump_lines (m : memory) (start end_ : Nat)
    (hend : end_ ≤ m.length) (hu : is_unsigned end_) :
    ∃ out, m_print_memory m start end_ = some out ∧
      ∀ (a : Nat) (v : Int), m_printed.cell a v ∈ out ↔
        (start ≤ a ∧ a < end_ ∧ m[a]? = some v ∧
          (v ≠ 0 ∨ a = start ∨ m[a - 1]? ≠ some 0 ∨ a + 1 = end_)) := by
  unfold is_unsigned at hu
  unfold m_print_memory
  obtain ⟨out, e1, e2⟩ := print_memory_loop_spec m end_ (end_ - start) start 0
    (Nat.le_refl _) hend hu (Nat.zero_le _)
  refine ⟨out, e1, ?_⟩
  intro a v
  rw [e2 a v]
  constructor
  · rintro ⟨h1, h2, h3, h4⟩
    refine ⟨h1, h2, h3, ?_⟩
    rcases h4 with h4 | h4 | h4 | h4
    · exact Or.inl h4
    · exact Or.inr (Or.inl h4.1)
    · exact Or.inr (Or.inr (Or.inl h4.2))
    · exact Or.inr (Or.inr (Or.inr h4))
  · rintro ⟨h1, h2, h3, h4⟩
    refine ⟨h1, h2, h3, ?_⟩
    rcases h4 with h4 | h4 | h4 | h4
    · exact Or.inl h4
    · exact Or.inr (Or.inl ⟨h4, rfl⟩)
    · by_cases ha : a = start
      · exact Or.inr (Or.inl ⟨ha, rfl⟩)
      · exact Or.inr (Or.inr (Or.inl ⟨by omega, h4⟩))
    · exact Or.inr (Or.inr (Or.inr h4))

theorem C28_dump_lines_witness :
    m_print_memory [0, 0, 5] 0 3
      = some [m_printed.cell 0 0, m_printed.dots, m_printed.cell 2 5] ∧
    ([0, 0, 5] : memory)[2]? = some 5 ∧
    ∀ out, m_print_memory [0, 0, 5] 0 3 = some out → m_printed.cell 1 0 ∉ out := by
  refine ⟨rfl, rfl, ?_⟩
  intro out hout
  obtain ⟨out1, e1, e2⟩ := C28_dump_lines [0, 0, 5] 0 3 (by decide) (by decide)
  rw [hout] at e1
  cases e1
  rw [e2 1 0]
  decide

/-! ## Sorted search: theorems -/

theorem search_s_mid (low high : Int) (h0 : 0 ≤ low) (hle : low ≤ high)
    (hh : high ≤ 1073741823) :
    to_unsigned (int_div (int_add low high) 2) = ((low + high) / 2).toNat ∧
    to_int (to_unsigned (int_div (int_add low high) 2)) = (low + high) / 2 ∧
    to_int ((to_unsigned (int_div (int_add low high) 2) + 1) % 4294967296)
      = (low + high) / 2 + 1 ∧
    to_int ((to_unsigned (int_div (int_add low high) 2) + 4294967296 - 1) % 4294967296)
      = (low + high) / 2 - 1 := by
  have hs : int_add low high = low + high := by
    unfold int_add
    exact wrap_int_of_is_int _ ⟨by omega, by omega⟩
  have hd : int_div (low + high) 2 = (low + high) / 2 := by
    unfold int_div
    rw [Int.tdiv_eq_ediv (by omega) (by omega)]
    exact wrap_int_of_is_int _ ⟨by omega, by omega⟩
  rw [hs, hd]
  generalize hmid : (low + high) / 2 = mid
  have hm1 : low ≤ mid := by omega
  have hm2 : mid ≤ high := by omega
  have hu : to_unsigned mid = mid.toNat := by
    unfold to_unsigned
    omega
  rw [hu]
  refine ⟨rfl, ?_, ?_, ?_⟩
  · unfold to_int
    split <;> omega
  · unfold to_int
    split <;> omega
  · unfold to_int
    split <;> omega

theorem search_s_spec (m : memory) (key : Int) (fuel : Nat) (low high : Int)
    (h0 : 0 ≤ low) (hh1 : high < m.length) (hh2 : high ≤ 1073741823)
    (hsorted : ∀ i j : Nat, low ≤ i → i ≤ j → (j : Int) ≤ high →
      ∀ a b : Int, m[i]? = some a → m[j]? = some b → a ≤ b)
    (hfuel : (high - low + 1).toNat < fuel) :
    (m_search_s m fuel low high key = .returned (-1) ∧
      ∀ i : Nat, low ≤ i → (i : Int) ≤ high → m[i]? ≠ some key) ∨
    (∃ i : Nat, m_search_s m fuel low high key = .returned i ∧
      low ≤ i ∧ (i : Int) ≤ high ∧ m[i]? = some key) := by
  induction fuel generalizing low high with
  | zero => omega
  | succ f ih =>
    unfold m_search_s
    by_cases hgt : low > high
    · left
      rw [if_pos hgt]
      refine ⟨rfl, ?_⟩
      intro i hi1 hi2
      omega
    · rw [if_neg hgt]
      obtain ⟨e1, e2, e3, e4⟩ := search_s_mid low high h0 (by omega) hh2
      rw [e2, e3, e4, e1]
      clear e1 e2 e3 e4
      generalize hmid : (low + high) / 2 = mid
      have hm1 : low ≤ mid := by omega
      have hm2 : mid ≤ high := by omega
      have hlt : mid.toNat < m.length := by omega
      have hcast : ((mid.toNat : Nat) : Int) = mid := Int.toNat_of_nonneg (by omega)
      simp only [m_get_value, List.getElem?_eq_getElem hlt]
      have hv : m[mid.toNat]? = some m[mid.toNat] := List.getElem?_eq_getElem hlt
      by_cases hk : m[mid.toNat] = key
      · right
        rw [if_pos hk]
        refine ⟨mid.toNat, by rw [hcast], by omega, by omega, ?_⟩
        rw [hv, hk]
      · rw [if_neg hk]
        by_cases hless : m[mid.toNat] < key
        · rw [if_pos hless]
          have hrec := ih (mid + 1) high (by omega) hh1 hh2
            (fun i j hi hij hj a b ha hb => hsorted i j (by omega) hij hj a b ha hb)
            (by omega)
          rcases hrec with ⟨r1, r2⟩ | ⟨i, r1, r2, r3, r4⟩
          · left
            refine ⟨r1, ?_⟩
            intro i hi1 hi2 hik
            by_cases hcmp : (i : Int) ≤ mid
            · have := hsorted i mid.toNat hi1 (by omega) (by omega) key m[mid.toNat] hik hv
              omega
            · exact r2 i (by omega) hi2 hik
          · right
            exact ⟨i, r1, by omega, r3, r4⟩
        · rw [if_neg hless]
          have hrec := ih low (mid - 1) h0 (by omega) (by omega)
            (fun i j hi hij hj a b ha hb => hsorted i j hi hij (by omega) a b ha hb)
            (by omega)
          rcases hrec with ⟨r1, r2⟩ | ⟨i, r1, r2, r3, r4⟩
          · left
            refine ⟨r1, ?_⟩
            intro i hi1 hi2 hik
            by_cases hcmp : mid ≤ (i : Int)
            · have := hsorted mid.toNat i (by omega) (by omega) hi2 m[mid.toNat] key hv hik
              omega
            · exact r2 i hi1 (by omega) hik
          · right
            exact ⟨i, r1, r2, by omega, r4⟩

theorem search_s_overflow (m : memory) (hlen : m.length = 1073741825) :
    m_search_s m 1 1073741824 1073741824 0 = .outside_storage 3221225472 := by
  have hmid : to_unsigned (int_div (int_add 1073741824 1073741824) 2) = 3221225472 := by
    decide
  unfold m_search_s
  rw [if_neg (by decide), hmid]
  unfold m_get_value
  rw [List.getElem?_eq_none (by rw [hlen]; decide)]

/-- C26, the code on a memory of 2^30 + 1 zero cells with low = high = 2^30 and key 0: the
range is the single cell 2^30, which is inside the memory and holds the key, yet the sum
low + high = 2^31 does not fit an int; taken modulo 2^32 the midpoint becomes 3221225472 and the
cell read is outside the memory, so no index of the range is returned. -/
theorem C26_search_midpoint_overflows :
    m_search_s (List.replicate 1073741825 0) 1 1073741824 1073741824 0
      = .outside_storage 3221225472 ∧
    (List.replicate 1073741825 (0 : Int))[1073741824]? = some 0 :=
  ⟨search_s_overflow _ (List.length_replicate _ _),
    List.getElem?_replicate.trans (if_pos (by decide))⟩

/-! ## Disassembly: theorems -/

theorem decoded_operand_range (w : Int) :
    0 ≤ (m86_ei_decoded w).operand ∧ (m86_ei_decoded w).operand ≤ 65535 := by
  unfold m86_ei_decoded
  simp only [int_and_ffff]
  omega

theorem disassemble_operand_ready (cpu : micro86_proc) (mem : memory) (mem_size : Nat)
    (x : Int) (h0 : 0 ≤ x) (h16 : x ≤ 65535) (hop : x < mem_size) (hmem : mem_size ≤ mem.length) :
    m86_check_memory_bounds x EXIT_FAILURE cpu mem mem_size = .ok () ∧
    ∃ v, m_get_value mem (to_unsigned x) = some v := by
  have hx : x = ((x.toNat : Nat) : Int) := (Int.toNat_of_nonneg h0).symm
  constructor
  · rw [hx]
    exact check_memory_bounds_pass x.toNat cpu mem mem_size (by omega) (by omega)
  · have hu : to_unsigned x = x.toNat := by
      unfold to_unsigned
      omega
    rw [hu]
    unfold m_get_value
    exact ⟨_, List.getElem?_eq_getElem (by omega)⟩


theorem disassemble_eq (ds : m86_dataset) (cpu : micro86_proc) (mem : memory)
    (mem_size : Nat) (w : Int) (v : Int) (hi : ds.initialized = true)
    (hb : m86_check_memory_bounds (m86_ei_decoded w).operand EXIT_FAILURE cpu mem mem_size
      = .ok ())
    (hv : m_get_value mem (to_unsigned (m86_ei_decoded w).operand) = some v) :
    m86_disassemble ds cpu mem mem_size w =
      match ds.om_table.lookup (m86_ei_decoded w).opcode with
      | none => .ok (.raw w)
      | some mn =>
        if ds.oho_list.contains (m86_ei_decoded w).opcode then
          if ds.oi_list.contains (m86_ei_decoded w).opcode
              && !is_jmp_instruct (m86_ei_decoded w) then
            .ok (.immediate mn (m86_ei_decoded w).operand)
          else .ok (.cell mn (m86_ei_decoded w).operand v)
        else .ok (.plain mn) := by
  unfold m86_disassemble m86_di_is_valid_instruct m86_di_instruct_has_operand
    m86_di_instruct_is_immediate m86ds_opcode_is_immediate m86ds_opcode_has_operand
    m86ds_get_mnemonic m86ds_is_valid_opcode m86ds_is_init
  generalize m86_ei_decoded w = di at *
  cases hl : ds.om_table.lookup di.opcode <;>
  cases ho : ds.oho_list.contains di.opcode <;> cases hm : ds.oi_list.contains di.opcode <;>
  cases hj : is_jmp_instruct di <;>
  simp only [hi, hl, ho, hm, hj, hb, hv, bind, Except.bind, pure, Except.pure, in_storage,
    Bool.not_true, Bool.not_false, Bool.false_eq_true, if_false, if_true, Option.isSome_none,
    Option.isSome_some, Bool.and_true, Bool.and_false, Bool.true_and, Bool.false_and,
    reduceIte]

theorem ds_queries_uninit (ds : m86_dataset) (oc : Int) (hi : ds.initialized = false) :
    m86ds_is_valid_opcode ds oc = .error (.ds_fatal "ERROR: dataset not initialized!") ∧
    m86ds_get_mnemonic ds oc = .error (.ds_fatal "ERROR: dataset not initialized!") ∧
    m86ds_opcode_has_operand ds oc = .error (.ds_fatal "ERROR: dataset not initialized!") ∧
    m86ds_opcode_is_immediate ds oc
      = .error (.ds_fatal "ERROR: dataset not initialized!") := by
  unfold m86ds_opcode_is_immediate m86ds_opcode_has_operand m86ds_get_mnemonic
    m86ds_is_valid_opcode m86ds_uninit_error
  simp only [hi, Bool.not_false, if_true, and_self]

theorem ds_queries_unknown (ds : m86_dataset) (oc : Int) (hi : ds.initialized = true)
    (hl : ds.om_table.lookup oc = none) :
    m86ds_is_valid_opcode ds oc = .ok false ∧
    m86ds_get_mnemonic ds oc = .error (.ds_fatal "ERROR: opcode is invalid!") ∧
    m86ds_opcode_has_operand ds oc = .error (.ds_fatal "ERROR: opcode is invalid!") ∧
    m86ds_opcode_is_immediate ds oc = .error (.ds_fatal "ERROR: opcode is invalid!") := by
  unfold m86ds_opcode_is_immediate m86ds_opcode_has_operand m86ds_get_mnemonic
    m86ds_is_valid_opcode m86_invalid_opcode_error
  simp only [hi, hl, Bool.not_true, Bool.false_eq_true, if_false, bind, Except.bind, pure,
    Except.pure, Option.isSome_none, Bool.not_false, if_true, and_self]

theorem ds_queries_known (ds : m86_dataset) (oc : Int) (mn : String)
    (hi : ds.initialized = true) (hl : ds.om_table.lookup oc = some mn) :
    m86ds_is_valid_opcode ds oc = .ok true ∧
    m86ds_get_mnemonic ds oc = .ok mn ∧
    m86ds_opcode_has_operand ds oc = .ok (ds.oho_list.contains oc) ∧
    m86ds_opcode_is_immediate ds oc
      = .ok (ds.oho_list.contains oc && ds.oi_list.contains oc) := by
  unfold m86ds_opcode_is_immediate m86ds_opcode_has_operand m86ds_get_mnemonic
    m86ds_is_valid_opcode
  cases ho : ds.oho_list.contains oc <;>
  simp only [hi, hl, Bool.not_true, Bool.false_eq_true, if_false, bind, Except.bind, pure,
    Except.pure, Option.isSome_some, Bool.not_false, if_true, and_self, Bool.true_and,
    Bool.false_and]

/-- C29: for every word w whose decoded operand is below mem_size (the memory holding mem_size
cells), m86_disassemble prints: the raw word as 0x%08X when the opcode is not in the dataset;
the bare mnemonic when the opcode takes no operand; mnemonic, two tabs and the operand as
0x%08X when the opcode is immediate and not one of the seven jump opcodes; and otherwise (the
opcode takes an operand and is not immediate, or is a jump) mnemonic, two tabs, the operand,
two tabs and the pair |operand: mem[operand]|. Each line ends with a newline. -/
theorem C29_disassembly_forms (ds : m86_dataset) (cpu : micro86_proc) (mem : memory)
    (mem_size : Nat) (w : Int)
    (hop : (m86_ei_decoded w).operand < mem_size) (hmem : mem_size ≤ mem.length) :
    (m86ds_is_valid_opcode ds (m86_ei_decoded w).opcode = .ok false →
      m86_disassemble ds cpu mem mem_size w = .ok (.raw w)) ∧
    (m86ds_opcode_has_operand ds (m86_ei_decoded w).opcode = .ok false →
      ∃ mn, m86ds_get_mnemonic ds (m86_ei_decoded w).opcode = .ok mn ∧
        m86_disassemble ds cpu mem mem_size w = .ok (.plain mn)) ∧
    (m86ds_opcode_is_immediate ds (m86_ei_decoded w).opcode = .ok true →
      is_jmp_instruct (m86_ei_decoded w) = false →
      ∃ mn, m86ds_get_mnemonic ds (m86_ei_decoded w).opcode = .ok mn ∧
        m86_disassemble ds cpu mem mem_size w
          = .ok (.immediate mn (m86_ei_decoded w).operand)) ∧
    (m86ds_opcode_has_operand ds (m86_ei_decoded w).opcode = .ok true →
      m86ds_opcode_is_immediate ds (m86_ei_decoded w).opcode = .ok false ∨
        is_jmp_instruct (m86_ei_decoded w) = true →
      ∃ mn v, m86ds_get_mnemonic ds (m86_ei_decoded w).opcode = .ok mn ∧
        mem[to_unsigned (m86_ei_decoded w).operand]? = some v ∧
        m86_disassemble ds cpu mem mem_size w
          = .ok (.cell mn (m86_ei_decoded w).operand v)) ∧
    (∀ (mn : String) (x v : Int),
      m86_disassembled_text (.raw w) = '0' :: 'x' :: format_08X w ++ "\n".toList ∧
      m86_disassembled_text (.plain mn) = mn.toList ++ "\n".toList ∧
      m86_disassembled_text (.immediate mn x)
        = mn.toList ++ "\t\t".toList ++ ('0' :: 'x' :: format_08X x) ++ "\n".toList ∧
      m86_disassembled_text (.cell mn x v)
        = mn.toList ++ "\t\t".toList ++ ('0' :: 'x' :: format_08X x) ++ "\t\t|".toList ++
          ('0' :: 'x' :: format_08X x) ++ ": ".toList ++ ('0' :: 'x' :: format_08X v) ++
          "|\n".toList) := by
  obtain ⟨h0, h16⟩ := decoded_operand_range w
  obtain ⟨hb, v, hv⟩ := disassemble_operand_ready cpu mem mem_size _ h0 h16 hop hmem
  have key := fun hi => disassemble_eq ds cpu mem mem_size w v hi hb hv
  refine ⟨?_, ?_, ?_, ?_, fun _ _ _ => ⟨rfl, rfl, rfl, rfl⟩⟩
  · intro h
    cases hi : ds.initialized with
    | false => rw [(ds_queries_uninit ds _ hi).1] at h; cases h
    | true =>
      cases hl : ds.om_table.lookup (m86_ei_decoded w).opcode with
      | none => rw [key hi, hl]
      | some mn => rw [(ds_queries_known ds _ mn hi hl).1] at h; cases h
  · intro h
    cases hi : ds.initialized with
    | false => rw [(ds_queries_uninit ds _ hi).2.2.1] at h; cases h
    | true =>
      cases hl : ds.om_table.lookup (m86_ei_decoded w).opcode with
      | none => rw [(ds_queries_unknown ds _ hi hl).2.2.1] at h; cases h
      | some mn =>
        obtain ⟨_, q2, q3, _⟩ := ds_queries_known ds _ mn hi hl
        rw [q3] at h
        have ho : ds.oho_list.contains (m86_ei_decoded w).opcode = false := Except.ok.inj h
        refine ⟨mn, q2, ?_⟩
        rw [key hi, hl]
        simp only [ho, Bool.false_eq_true, if_false]
  · intro h hj
    cases hi : ds.initialized with
    | false => rw [(ds_queries_uninit ds _ hi).2.2.2] at h; cases h
    | true =>
      cases hl : ds.om_table.lookup (m86_ei_decoded w).opcode with
      | none => rw [(ds_queries_unknown ds _ hi hl).2.2.2] at h; cases h
      | some mn =>
        obtain ⟨_, q2, _, q4⟩ := ds_queries_known ds _ mn hi hl
        rw [q4] at h
        have hboth := Except.ok.inj h
        rw [Bool.and_eq_true] at hboth
        refine ⟨mn, q2, ?_⟩
        rw [key hi, hl]
        simp only [hboth.1, hboth.2, hj, Bool.not_false, Bool.and_true, if_true]
  · intro h h2
    cases hi : ds.initialized with
    | false => rw [(ds_queries_uninit ds _ hi).2.2.1] at h; cases h
    | true =>
      cases hl : ds.om_table.lookup (m86_ei_decoded w).opcode with
      | none => rw [(ds_queries_unknown ds _ hi hl).2.2.1] at h; cases h
      | some mn =>
        obtain ⟨_, q2, q3, q4⟩ := ds_queries_known ds _ mn hi hl
        rw [q3] at h
        have ho : ds.oho_list.contains (m86_ei_decoded w).opcode = true := Except.ok.inj h
        refine ⟨mn, v, q2, hv, ?_⟩
        rw [key hi, hl]
        have hcond : (ds.oi_list.contains (m86_ei_decoded w).opcode
            && !is_jmp_instruct (m86_ei_decoded w)) = false := by
          rcases h2 with h2 | h2
          · rw [q4, ho, Bool.true_and] at h2
            rw [Except.ok.inj h2, Bool.false_and]
          · rw [h2, Bool.not_true, Bool.and_false]
        simp only [ho, hcond, if_true, Bool.false_eq_true, if_false]

theorem C29_disassembly_forms_witness :
    (m86_disassemble catalogue_dataset m86_proc_init (m_allocate_init 20 0) 20 0x02010005).map
        m86_disassembled_text = .ok "LOADI\t\t0x00000005\n".toList ∧
    (m86_disassemble catalogue_dataset m86_proc_init (m_allocate_init 20 0) 20 0x04010003).map
        m86_disassembled_text = .ok "ADDI\t\t0x00000003\n".toList ∧
    (m86_disassemble catalogue_dataset m86_proc_init (m_allocate_init 20 0) 20 0x01000000).map
        m86_disassembled_text = .ok "HALT\n".toList ∧
    (m86_disassemble catalogue_dataset m86_proc_init (m_allocate_init 20 0) 20 0x0B010006).map
        m86_disassembled_text
      = .ok "JEI\t\t0x00000006\t\t|0x00000006: 0x00000000|\n".toList ∧
    (m86_disassemble catalogue_dataset m86_proc_init (m_allocate_init 20 0) 20 0x7FFF0001).map
        m86_disassembled_text = .ok "0x7FFF0001\n".toList := by
  have h1 := (C29_disassembly_forms catalogue_dataset m86_proc_init (m_allocate_init 20 0) 20
    0x02010005 (by decide) (by decide)).2.2.1 rfl rfl
  have h2 := (C29_disassembly_forms catalogue_dataset m86_proc_init (m_allocate_init 20 0) 20
    0x04010003 (by decide) (by decide)).2.2.1 rfl rfl
  have h3 := (C29_disassembly_forms catalogue_dataset m86_proc_init (m_allocate_init 20 0) 20
    0x01000000 (by decide) (by decide)).2.1 rfl
  have h4 := (C29_disassembly_forms catalogue_dataset m86_proc_init (m_allocate_init 20 0) 20
    0x0B010006 (by decide) (by decide)).2.2.2.1 rfl (Or.inr rfl)
  have h5 := (C29_disassembly_forms catalogue_dataset m86_proc_init (m_allocate_init 20 0) 20
    0x7FFF0001 (by decide) (by decide)).1 rfl
  obtain ⟨mn1, _, e1⟩ := h1
  obtain ⟨mn2, _, e2⟩ := h2
  obtain ⟨mn3, _, e3⟩ := h3
  obtain ⟨mn4, v4, _, _, e4⟩ := h4
  exact ⟨rfl, rfl, rfl, rfl, by rw [h5]; rfl⟩

/-! ## Dataset loading: theorems -/

theorem loader_lines_cons_nil (fresh : Nat → Int) (mem_resize : Bool) (cpu : micro86_proc)
    (ls : List (List Char)) (st : m86_loaded) :
    m86_loader_lines fresh mem_resize cpu ([] :: ls) st
      = m86_loader_lines fresh mem_resize cpu ls st := by
  rw [m86_loader_lines, if_pos rfl]

theorem loader_lines_cons (fresh : Nat → Int) (mem_resize : Bool) (cpu : micro86_proc)
    (l : List Char) (ls : List (List Char)) (st : m86_loaded) (hne : l ≠ []) :
    m86_loader_lines fresh mem_resize cpu (l :: ls) st
      = match m86_loader_line fresh mem_resize cpu l st with
        | .error e => .error e
        | .ok st1 => m86_loader_lines fresh mem_resize cpu ls st1 := by
  rw [m86_loader_lines, if_neg hne]

theorem loader_lines_append (fresh : Nat → Int) (mem_resize : Bool) (cpu : micro86_proc)
    (a b : List (List Char)) (st : m86_loaded) :
    m86_loader_lines fresh mem_resize cpu (a ++ b) st
      = match m86_loader_lines fresh mem_resize cpu a st with
        | .error e => .error e
        | .ok st1 => m86_loader_lines fresh mem_resize cpu b st1 := by
  induction a generalizing st with
  | nil => rfl
  | cons l a ih =>
    rw [List.cons_append]
    by_cases hl : l = []
    · subst hl
      rw [loader_lines_cons_nil, loader_lines_cons_nil]
      exact ih st
    · rw [loader_lines_cons _ _ _ _ _ _ hl, loader_lines_cons _ _ _ _ _ _ hl]
      cases m86_loader_line fresh mem_resize cpu l st with
      | error e => rfl
      | ok st1 => exact ih st1

theorem before_comment_no_comment (l : List Char) : '#' ∉ before_comment l := by
  intro h
  have := List.mem_takeWhile_imp h
  simp at this

theorem wholly_comment_of_no_comment (l : List Char) (h : '#' ∉ l) :
    wholly_comment l = false := by
  unfold wholly_comment
  rw [decide_eq_false_iff_not]
  intro hh
  have hmem : '#' ∈ l.dropWhile (fun c => decide (c = ' ')) :=
    List.mem_of_mem_head? (by rw [hh]; exact rfl)
  exact h ((List.dropWhile_sublist _).subset hmem)

theorem before_comment_of_no_comment (l : List Char) (h : '#' ∉ l) : before_comment l = l := by
  unfold before_comment
  rw [List.takeWhile_eq_self_iff]
  intro x hx
  simp only [ne_eq, decide_not, Bool.not_eq_true', decide_eq_false_iff_not]
  intro hx0
  exact h (hx0 ▸ hx)

theorem before_comment_ne_nil (l : List Char) (hne : l ≠ []) (hw : wholly_comment l = false) :
    before_comment l ≠ [] := by
  cases l with
  | nil => exact absurd rfl hne
  | cons c t =>
    intro h
    unfold before_comment at h
    rw [List.takeWhile_cons] at h
    by_cases hc : c = '#'
    · subst hc
      have : wholly_comment ('#' :: t) = true := by
        unfold wholly_comment
        rw [List.dropWhile_cons, if_neg (by decide)]
        rfl
      rw [this] at hw
      cases hw
    · rw [if_pos (by simpa using hc)] at h
      cases h

theorem before_comment_subset (l : List Char) (c : Char) (h : c ∈ before_comment l) : c ∈ l :=
  (List.takeWhile_sublist _).subset h

theorem before_comment_length (l : List Char) : (before_comment l).length ≤ l.length :=
  (List.takeWhile_sublist _).length_le

theorem loader_lines_without_comments (fresh : Nat → Int) (mem_resize : Bool)
    (cpu : micro86_proc) (ls : List (List Char)) (st : m86_loaded)
    (hnl : ∀ l ∈ ls, Char.ofNat 10 ∉ l) :
    m86_loader_lines fresh mem_resize cpu (without_comments ls) st
      = m86_loader_lines fresh mem_resize cpu ls st := by
  induction ls generalizing st with
  | nil => rfl
  | cons l ls ih =>
    have hnl1 : Char.ofNat 10 ∉ l := hnl l (by simp)
    have hnl2 : ∀ l1 ∈ ls, Char.ofNat 10 ∉ l1 := fun l1 h1 => hnl l1 (by simp [h1])
    have ih1 := fun st1 => ih st1 hnl2
    unfold without_comments at ih1 ⊢
    rw [List.filter_cons]
    by_cases hw : wholly_comment l = true
    · have hne : l ≠ [] := by
        intro h0
        rw [h0] at hw
        exact absurd hw (by decide)
      simp only [hw, Bool.not_true, Bool.false_eq_true, if_false]
      rw [ih1 st, loader_lines_cons _ _ _ _ _ _ hne,
        loader_line_eq fresh mem_resize cpu l st hne hnl1, if_pos hw]
      rfl
    · have hw0 : wholly_comment l = false := by simpa using hw
      simp only [hw0, Bool.not_false, if_true, List.map_cons]
      by_cases hne : l = []
      · subst hne
        have hb0 : before_comment [] = [] := rfl
        rw [hb0, loader_lines_cons_nil, loader_lines_cons_nil]
        exact ih1 st
      · have hb := before_comment_ne_nil l hne hw0
        have hbn : Char.ofNat 10 ∉ before_comment l := fun h =>
          hnl1 (before_comment_subset l _ h)
        have hno := before_comment_no_comment l
        rw [loader_lines_cons _ _ _ _ _ _ hb, loader_lines_cons _ _ _ _ _ _ hne,
          loader_line_eq fresh mem_resize cpu l st hne hnl1,
          loader_line_eq fresh mem_resize cpu (before_comment l) st hb hbn,
          wholly_comment_of_no_comment _ hno, before_comment_of_no_comment _ hno, hw0]
        simp only [Bool.false_eq_true, if_false]
        cases sscanf_08X (before_comment l) with
        | none => rfl
        | some v =>
          simp only
          cases m86_loader_store fresh mem_resize cpu v st with
          | error e => rfl
          | ok st1 => exact ih1 st1

theorem loader_eq_lines (fresh : Nat → Int) (mem_resize : Bool) (cpu : micro86_proc)
    (mem : memory) (mem_size : Nat) (lines : List (List Char)) (last : List Char)
    (hlines : ∀ l ∈ lines, Char.ofNat 10 ∉ l ∧ Char.ofNat 0 ∉ l ∧ l.length ≤ 80)
    (hlast : Char.ofNat 10 ∉ last ∧ Char.ofNat 0 ∉ last ∧ last.length ≤ 80) :
    m86_loader (some (file_text lines last)) cpu mem mem_size mem_resize fresh
      = m86_loader_lines fresh mem_resize cpu (lines ++ [last]) ⟨mem, mem_size, 0⟩ := by
  unfold m86_loader
  simp only
  exact loader_loop_eq_lines fresh mem_resize cpu lines last _ _ hlines hlast (by omega)

theorem without_comments_lines_ok (lines : List (List Char))
    (hlines : ∀ l ∈ lines, Char.ofNat 10 ∉ l ∧ Char.ofNat 0 ∉ l ∧ l.length ≤ 80) :
    ∀ l ∈ without_comments lines, Char.ofNat 10 ∉ l ∧ Char.ofNat 0 ∉ l ∧ l.length ≤ 80 := by
  intro l hl
  unfold without_comments at hl
  rw [List.mem_map] at hl
  obtain ⟨l0, h0, rfl⟩ := hl
  obtain ⟨a, b, c⟩ := hlines l0 (List.mem_filter.mp h0).1
  exact ⟨fun h => a (before_comment_subset _ _ h), fun h => b (before_comment_subset _ _ h),
    Nat.le_trans (before_comment_length l0) c⟩

/-- C22: for every program file with lines of at most 80 characters (given as its lines, no
NUL character): a line whose first '#' is preceded only by space characters contributes no
word, and any other line is parsed by sscanf from the text before its first '#'; hence the file
made by deleting every wholly-comment line and cutting every other line at its first '#' loads
to the same result: the same memory image, memory size and program_size, or the same fatal
error. -/
theorem C22_loader_comments (fresh : Nat → Int) (mem_resize : Bool) (cpu : micro86_proc)
    (mem : memory) (mem_size : Nat) (lines : List (List Char)) (last : List Char)
    (hlines : ∀ l ∈ lines, Char.ofNat 10 ∉ l ∧ Char.ofNat 0 ∉ l ∧ l.length ≤ 80)
    (hlast : Char.ofNat 10 ∉ last ∧ Char.ofNat 0 ∉ last ∧ last.length ≤ 80) :
    (∀ (l : List Char) (st : m86_loaded), l ≠ [] → Char.ofNat 10 ∉ l →
      m86_loader_line fresh mem_resize cpu (l ++ [Char.ofNat 10]) st
        = if wholly_comment l then .ok st
          else match sscanf_08X (before_comment l) with
            | none => .error (.fatal "Micro86 ERROR: invalid instruction!" cpu st.mem)
            | some v => m86_loader_store fresh mem_resize cpu v st) ∧
    m86_loader
        (some (file_text (without_comments lines)
          (if wholly_comment last then [] else before_comment last)))
        cpu mem mem_size mem_resize fresh
      = m86_loader (some (file_text lines last)) cpu mem mem_size mem_resize fresh := by
  constructor
  · intro l st hne hnl
    rw [loader_line_append_newline fresh mem_resize cpu l st hne hnl,
      loader_line_eq fresh mem_resize cpu l st hne hnl]
    rfl
  · have hlast1 : Char.ofNat 10 ∉ (if wholly_comment last then [] else before_comment last) ∧
        Char.ofNat 0 ∉ (if wholly_comment last then [] else before_comment last) ∧
        (if wholly_comment last then [] else before_comment last).length ≤ 80 := by
      split
      · exact ⟨List.not_mem_nil _, List.not_mem_nil _, Nat.zero_le _⟩
      · exact ⟨fun h => hlast.1 (before_comment_subset _ _ h),
          fun h => hlast.2.1 (before_comment_subset _ _ h),
          Nat.le_trans (before_comment_length last) hlast.2.2⟩
    rw [loader_eq_lines fresh mem_resize cpu mem mem_size _ _
        (without_comments_lines_ok lines hlines) hlast1,
      loader_eq_lines fresh mem_resize cpu mem mem_size lines last hlines hlast]
    have hnl : ∀ l ∈ lines ++ [last], Char.ofNat 10 ∉ l := by
      intro l hl
      rcases List.mem_append.mp hl with h1 | h1
      · exact (hlines l h1).1
      · rw [List.mem_singleton.mp h1]
        exact hlast.1
    rw [← loader_lines_without_comments fresh mem_resize cpu (lines ++ [last]) _ hnl]
    have happ : without_comments (lines ++ [last])
        = without_comments lines ++ without_comments [last] := by
      unfold without_comments
      rw [List.filter_append, List.map_append]
    rw [happ]
    by_cases hw : wholly_comment last = true
    · have hl1 : without_comments [last] = [] := by
        unfold without_comments
        simp [hw]
      rw [if_pos hw, hl1, loader_lines_append, loader_lines_append]
      cases m86_loader_lines fresh mem_resize cpu (without_comments lines) ⟨mem, mem_size, 0⟩ with
      | error e => rfl
      | ok st1 => rfl
    · have hl1 : without_comments [last] = [before_comment last] := by
        unfold without_comments
        simp [hw]
      rw [if_neg hw, hl1]

theorem C22_loader_comments_witness :
    m86_loader
        (some (file_text
          (without_comments ["# program".toList, "02010007 # load".toList, [],
            "  # note".toList, "  03020010".toList])
          (if wholly_comment "01000000#".toList then []
           else before_comment "01000000#".toList)))
        m86_proc_init (m_allocate_init 20 0) 20 false (fun _ => 0)
      = m86_loader
        (some (file_text ["# program".toList, "02010007 # load".toList, [],
            "  # note".toList, "  03020010".toList] "01000000#".toList))
        m86_proc_init (m_allocate_init 20 0) 20 false (fun _ => 0) ∧
    m86_loader
        (some (file_text ["# program".toList, "02010007 # load".toList, [],
            "  # note".toList, "  03020010".toList] "01000000#".toList))
        m86_proc_init (m_allocate_init 20 0) 20 false (fun _ => 0)
      = .ok ⟨[0x02010007, 0x03020010, 0x01000000] ++ List.replicate 17 0, 20, 3⟩ ∧
    without_comments ["# program".toList, "02010007 # load".toList, [],
        "  # note".toList, "  03020010".toList]
      = ["02010007 ".toList, [], "  03020010".toList] :=
  ⟨(C22_loader_comments (fun _ => 0) false m86_proc_init (m_allocate_init 20 0) 20
      ["# program".toList, "02010007 # load".toList, [], "  # note".toList,
        "  03020010".toList] "01000000#".toList (by decide) (by decide)).2,
    rfl, by decide⟩

theorem loader_line_spaces (fresh : Nat → Int) (mem_resize : Bool) (cpu : micro86_proc)
    (k : Nat) (st : m86_loaded) :
    m86_loader_line fresh mem_resize cpu (List.replicate (k + 1) ' ') st
      = .error (.fatal "Micro86 ERROR: invalid instruction!" cpu st.mem) := by
  have hne : List.replicate (k + 1) ' ' ≠ [] := by
    rw [List.replicate_succ]
    exact List.cons_ne_nil _ _
  have hnl : Char.ofNat 10 ∉ List.replicate (k + 1) ' ' := by
    intro h
    have := List.eq_of_mem_replicate h
    exact absurd this (by decide)
  have hno : '#' ∉ List.replicate (k + 1) ' ' := by
    intro h
    have := List.eq_of_mem_replicate h
    exact absurd this (by decide)
  have hdrop : (List.replicate (k + 1) ' ').dropWhile isspace = [] := by
    rw [List.dropWhile_eq_nil_iff]
    intro x hx
    rw [List.eq_of_mem_replicate hx]
    rfl
  have hscan : sscanf_08X (List.replicate (k + 1) ' ') = none := by
    unfold sscanf_08X
    rw [hdrop]
    rfl
  rw [loader_line_eq fresh mem_resize cpu _ st hne hnl, wholly_comment_of_no_comment _ hno,
    before_comment_of_no_comment _ hno, hscan]
  rfl

theorem loader_lines_append_empty (fresh : Nat → Int) (mem_resize : Bool) (cpu : micro86_proc)
    (a : List (List Char)) (st : m86_loaded) :
    m86_loader_lines fresh mem_resize cpu (a ++ [[]]) st
      = m86_loader_lines fresh mem_resize cpu a st := by
  rw [loader_lines_append]
  cases m86_loader_lines fresh mem_resize cpu a st with
  | error e => rfl
  | ok st1 => rfl

/-- C23, counterexample to the skipping of a line of spaces: the file with the lines
02010007, three spaces, 01000000 does not load: the loader stops at the second line with the
fatal invalid-instruction error, whereas the file without that line loads two words. -/
theorem C23_spaces_only_line_is_fatal :
    m86_loader (some "02010007\n   \n01000000\n".toList) m86_proc_init (m_allocate_init 20 0)
        20 false (fun _ => 0)
      = .error (.fatal "Micro86 ERROR: invalid instruction!" m86_proc_init
          ([0x02010007] ++ List.replicate 19 0)) ∧
    m86_loader (some "02010007\n01000000\n".toList) m86_proc_init (m_allocate_init 20 0)
        20 false (fun _ => 0)
      = .ok ⟨[0x02010007, 0x01000000] ++ List.replicate 18 0, 20, 2⟩ :=
  ⟨rfl, rfl⟩

/-- C23, as it holds: an empty line of a program file (a newline alone) is skipped, and
inserting an empty line before any line of a file leaves the result of the load unchanged: the
same memory image, memory size and program_size when it loads, the same fatal error when it
does not. A line that consists only of space characters before its newline is not skipped: the
loader ends in the fatal invalid-instruction error at that line, so inserting one in a file
makes the load fail as soon as the lines before it have loaded. -/
theorem C23_loader_blank_lines (fresh : Nat → Int) (mem_resize : Bool) (cpu : micro86_proc)
    (mem : memory) (mem_size : Nat) (a b : List (List Char)) (last : List Char)
    (ha : ∀ l ∈ a, Char.ofNat 10 ∉ l ∧ Char.ofNat 0 ∉ l ∧ l.length ≤ 80)
    (hb : ∀ l ∈ b, Char.ofNat 10 ∉ l ∧ Char.ofNat 0 ∉ l ∧ l.length ≤ 80)
    (hlast : Char.ofNat 10 ∉ last ∧ Char.ofNat 0 ∉ last ∧ last.length ≤ 80) :
    (∀ st, m86_loader_line fresh mem_resize cpu [Char.ofNat 10] st = .ok st) ∧
    m86_loader (some (file_text (a ++ [] :: b) last)) cpu mem mem_size mem_resize fresh
      = m86_loader (some (file_text (a ++ b) last)) cpu mem mem_size mem_resize fresh ∧
    (∀ (k : Nat) (st : m86_loaded),
      m86_loader_line fresh mem_resize cpu (List.replicate (k + 1) ' ' ++ [Char.ofNat 10]) st
        = .error (.fatal "Micro86 ERROR: invalid instruction!" cpu st.mem)) ∧
    (∀ (k : Nat) (st1 : m86_loaded), k + 1 ≤ 80 →
      m86_loader (some (file_text a [])) cpu mem mem_size mem_resize fresh = .ok st1 →
      m86_loader (some (file_text (a ++ List.replicate (k + 1) ' ' :: b) last)) cpu mem
          mem_size mem_resize fresh
        = .error (.fatal "Micro86 ERROR: invalid instruction!" cpu st1.mem)) := by
  have hab : ∀ x : List Char,
      (Char.ofNat 10 ∉ x ∧ Char.ofNat 0 ∉ x ∧ x.length ≤ 80) →
      ∀ l ∈ a ++ x :: b, Char.ofNat 10 ∉ l ∧ Char.ofNat 0 ∉ l ∧ l.length ≤ 80 := by
    intro x hx l hl
    rcases List.mem_append.mp hl with h1 | h1
    · exact ha l h1
    · rcases List.mem_cons.mp h1 with h2 | h2
      · rw [h2]; exact hx
      · exact hb l h2
  have hab0 : ∀ l ∈ a ++ b, Char.ofNat 10 ∉ l ∧ Char.ofNat 0 ∉ l ∧ l.length ≤ 80 := by
    intro l hl
    rcases List.mem_append.mp hl with h1 | h1
    · exact ha l h1
    · exact hb l h1
  have hsp : ∀ k : Nat, k + 1 ≤ 80 →
      (Char.ofNat 10 ∉ List.replicate (k + 1) ' ' ∧ Char.ofNat 0 ∉ List.replicate (k + 1) ' ' ∧
        (List.replicate (k + 1) ' ').length ≤ 80) := by
    intro k hk
    refine ⟨?_, ?_, ?_⟩
    · intro h
      exact absurd (List.eq_of_mem_replicate h) (by decide)
    · intro h
      exact absurd (List.eq_of_mem_replicate h) (by decide)
    · rw [List.length_replicate]
      exact hk
  refine ⟨loader_line_newline fresh mem_resize cpu, ?_, ?_, ?_⟩
  · rw [loader_eq_lines fresh mem_resize cpu mem mem_size _ last
        (hab [] ⟨List.not_mem_nil _, List.not_mem_nil _, Nat.zero_le _⟩) hlast,
      loader_eq_lines fresh mem_resize cpu mem mem_size _ last hab0 hlast,
      List.append_assoc, List.append_assoc, loader_lines_append, loader_lines_append,
      List.cons_append]
    cases m86_loader_lines fresh mem_resize cpu a ⟨mem, mem_size, 0⟩ with
    | error e => rfl
    | ok st1 =>
      simp only
      rw [loader_lines_cons_nil]
  · intro k st
    have hne : List.replicate (k + 1) ' ' ≠ [] := by
      rw [List.replicate_succ]
      exact List.cons_ne_nil _ _
    have hnl : Char.ofNat 10 ∉ List.replicate (k + 1) ' ' := by
      intro h
      exact absurd (List.eq_of_mem_replicate h) (by decide)
    rw [loader_line_append_newline fresh mem_resize cpu _ st hne hnl]
    exact loader_line_spaces fresh mem_resize cpu k st
  · intro k st1 hk h
    rw [loader_eq_lines fresh mem_resize cpu mem mem_size a []
        ha ⟨List.not_mem_nil _, List.not_mem_nil _, Nat.zero_le _⟩,
      loader_lines_append_empty] at h
    have hne : List.replicate (k + 1) ' ' ≠ [] := by
      rw [List.replicate_succ]
      exact List.cons_ne_nil _ _
    rw [loader_eq_lines fresh mem_resize cpu mem mem_size _ last (hab _ (hsp k hk)) hlast,
      List.append_assoc, loader_lines_append, h, List.cons_append]
    simp only
    rw [loader_lines_cons _ _ _ _ _ _ hne, loader_line_spaces]

theorem C23_loader_blank_lines_witness :
    m86_loader
        (some (file_text (["02010007".toList] ++ [] :: ["03020010".toList]) "01000000".toList))
        m86_proc_init (m_allocate_init 20 0) 20 false (fun _ => 0)
      = m86_loader
        (some (file_text (["02010007".toList] ++ ["03020010".toList]) "01000000".toList))
        m86_proc_init (m_allocate_init 20 0) 20 false (fun _ => 0) ∧
    m86_loader
        (some (file_text (["02010007".toList] ++ ["03020010".toList]) "01000000".toList))
        m86_proc_init (m_allocate_init 20 0) 20 false (fun _ => 0)
      = .ok ⟨[0x02010007, 0x03020010, 0x01000000] ++ List.replicate 17 0, 20, 3⟩ ∧
    m86_loader
        (some (file_text (["02010007".toList] ++ List.replicate (1 + 1) ' ' ::
          ["03020010".toList]) "01000000".toList))
        m86_proc_init (m_allocate_init 20 0) 20 false (fun _ => 0)
      = .error (.fatal "Micro86 ERROR: invalid instruction!" m86_proc_init
          ([0x02010007] ++ List.replicate 19 0)) :=
  ⟨(C23_loader_blank_lines (fun _ => 0) false m86_proc_init (m_allocate_init 20 0) 20
      ["02010007".toList] ["03020010".toList] "01000000".toList
      (by decide) (by decide) (by decide)).2.1,
    rfl,
    (C23_loader_blank_lines (fun _ => 0) false m86_proc_init (m_allocate_init 20 0) 20
      ["02010007".toList] ["03020010".toList] "01000000".toList
      (by decide) (by decide) (by decide)).2.2.2 1
      ⟨[0x02010007] ++ List.replicate 19 0, 20, 1⟩ (by decide) rfl⟩

/-! ## Loader capacity: theorems -/

theorem loader_store_total (fresh : Nat → Int) (mem_resize : Bool) (cpu : micro86_proc) (v : Int)
    (st : m86_loaded) (hlen : st.mem.length = st.mem_size)
    (hps : st.program_size ≤ st.mem_size) (hbound : st.program_size + 20 < 4294967296)
    (hroom : mem_resize = true ∨ st.program_size < st.mem_size) :
    ∃ st1, m86_loader_store fresh mem_resize cpu v st = .ok st1 := by
  unfold m86_loader_store
  by_cases hfull : st.program_size ≥ st.mem_size
  · have hr : mem_resize = true := by
      rcases hroom with h | h
      · exact h
      · omega
    obtain ⟨m1, e1, e2, _⟩ := extend_init_spec st.mem st.mem_size M86_MEM_EXT_SIZE
      M86_INIT_MEM_VAL fresh hlen (by unfold M86_MEM_EXT_SIZE M86_DEF_MEM_SIZE; omega)
    have e3 : m1.length = st.mem_size + 20 := e2
    rw [if_pos hfull, hr]
    simp only [Bool.not_true, Bool.false_eq_true, if_false, bind, Except.bind, e1, in_storage,
      pure, Except.pure, m_set_value]
    rw [if_pos (by omega)]
    exact ⟨_, rfl⟩
  · rw [if_neg hfull]
    simp only [bind, Except.bind, in_storage, pure, Except.pure, m_set_value]
    rw [if_pos (by omega)]
    exact ⟨_, rfl⟩

theorem loader_store_full (fresh : Nat → Int) (cpu : micro86_proc) (v : Int) (st : m86_loaded)
    (hfull : st.program_size ≥ st.mem_size) :
    m86_loader_store fresh false cpu v st
      = .error (.fatal "Micro86 ERROR: memory violation!" cpu st.mem) := by
  unfold m86_loader_store
  rw [if_pos hfull]
  rfl

theorem loader_lines_capacity_off (fresh : Nat → Int) (cpu : micro86_proc)
    (ls : List (List Char)) (st : m86_loaded)
    (hnl : ∀ l ∈ ls, Char.ofNat 10 ∉ l)
    (hwf : ∀ l ∈ instruction_lines ls, (sscanf_08X (before_comment l)).isSome = true)
    (hlen : st.mem.length = st.mem_size) (hps : st.program_size ≤ st.mem_size)
    (hbound : st.program_size + ls.length + 20 < 4294967296) :
    (st.program_size + (instruction_lines ls).length ≤ st.mem_size →
      ∃ st2, m86_loader_lines fresh false cpu ls st = .ok st2 ∧
        st2.mem_size = st.mem_size ∧
        st2.program_size = st.program_size + (instruction_lines ls).length) ∧
    (st.mem_size < st.program_size + (instruction_lines ls).length →
      ∃ m1, m86_loader_lines fresh false cpu ls st
          = .error (.fatal "Micro86 ERROR: memory violation!" cpu m1) ∧
        m1.length = st.mem_size) := by
  induction ls generalizing st with
  | nil =>
    constructor
    · intro _
      exact ⟨st, rfl, rfl, rfl⟩
    · intro h
      simp only [instruction_lines, List.filter_nil, List.length_nil] at h
      omega
  | cons l ls ih =>
    have hnl1 : Char.ofNat 10 ∉ l := hnl l (by simp)
    have hnl2 : ∀ l1 ∈ ls, Char.ofNat 10 ∉ l1 := fun l1 h1 => hnl l1 (by simp [h1])
    simp only [List.length_cons] at hbound
    rw [instruction_lines_cons] at hwf ⊢
    by_cases hl : l = []
    · subst hl
      rw [if_neg (by simp)] at hwf ⊢
      rw [loader_lines_cons_nil]
      exact ih st hnl2 hwf hlen hps (by omega)
    · rw [loader_lines_cons _ _ _ _ _ _ hl, loader_line_eq fresh false cpu l st hl hnl1]
      by_cases hw : wholly_comment l = true
      · rw [if_neg (by simp [hw])] at hwf ⊢
        rw [if_pos hw]
        exact ih st hnl2 hwf hlen hps (by omega)
      · have hw0 : wholly_comment l = false := by simpa using hw
        rw [if_pos ⟨hl, hw0⟩] at hwf ⊢
        rw [if_neg hw]
        have hv := hwf l (List.mem_cons_self _ _)
        have hwf2 : ∀ l1 ∈ instruction_lines ls,
            (sscanf_08X (before_comment l1)).isSome = true :=
          fun l1 h1 => hwf l1 (List.mem_cons_of_mem _ h1)
        obtain ⟨v, hv1⟩ := Option.isSome_iff_exists.mp hv
        rw [hv1]
        simp only [List.length_cons]
        by_cases hfull : st.program_size ≥ st.mem_size
        · rw [loader_store_full fresh cpu v st hfull]
          constructor
          · intro h
            omega
          · intro _
            exact ⟨st.mem, rfl, hlen⟩
        · obtain ⟨st1, hst⟩ := loader_store_total fresh false cpu v st hlen hps (by omega)
            (Or.inr (by omega))
          obtain ⟨a1, a2, a3, a4, _⟩ :=
            loader_store_ok fresh false cpu v st st1 hlen hps (by omega) hst
          rw [if_neg hfull] at a4
          rw [hst]
          simp only
          obtain ⟨b1, b2⟩ := ih st1 hnl2 hwf2 a2 a3 (by omega)
          constructor
          · intro h
            obtain ⟨st2, c1, c2, c3⟩ := b1 (by omega)
            exact ⟨st2, c1, by omega, by omega⟩
          · intro h
            obtain ⟨m1, c1, c2⟩ := b2 (by omega)
            exact ⟨m1, c1, by omega⟩

theorem loader_lines_capacity_on (fresh : Nat → Int) (cpu : micro86_proc)
    (ls : List (List Char)) (st : m86_loaded)
    (hnl : ∀ l ∈ ls, Char.ofNat 10 ∉ l)
    (hwf : ∀ l ∈ instruction_lines ls, (sscanf_08X (before_comment l)).isSome = true)
    (hlen : st.mem.length = st.mem_size) (hps : st.program_size ≤ st.mem_size)
    (hbound : st.program_size + ls.length + 20 < 4294967296) :
    ∃ st2, m86_loader_lines fresh true cpu ls st = .ok st2 ∧
      st2.program_size = st.program_size + (instruction_lines ls).length ∧
      st2.mem.length = st2.mem_size ∧
      st2.program_size ≤ st2.mem_size ∧
      st2.mem_size = st.mem_size +
        20 * ((st.program_size + (instruction_lines ls).length - st.mem_size + 19) / 20) := by
  induction ls generalizing st with
  | nil =>
    refine ⟨st, rfl, rfl, hlen, hps, ?_⟩
    simp only [instruction_lines, List.filter_nil, List.length_nil]
    omega
  | cons l ls ih =>
    have hnl1 : Char.ofNat 10 ∉ l := hnl l (by simp)
    have hnl2 : ∀ l1 ∈ ls, Char.ofNat 10 ∉ l1 := fun l1 h1 => hnl l1 (by simp [h1])
    simp only [List.length_cons] at hbound
    rw [instruction_lines_cons] at hwf ⊢
    by_cases hl : l = []
    · subst hl
      rw [if_neg (by simp)] at hwf ⊢
      rw [loader_lines_cons_nil]
      exact ih st hnl2 hwf hlen hps (by omega)
    · rw [loader_lines_cons _ _ _ _ _ _ hl, loader_line_eq fresh true cpu l st hl hnl1]
      by_cases hw : wholly_comment l = true
      · rw [if_pos hw]
        rw [if_neg (by simp [hw])] at hwf ⊢
        exact ih st hnl2 hwf hlen hps (by omega)
      · have hw0 : wholly_comment l = false := by simpa using hw
        rw [if_neg hw]
        rw [if_pos ⟨hl, hw0⟩] at hwf ⊢
        have hv := hwf l (List.mem_cons_self _ _)
        have hwf2 : ∀ l1 ∈ instruction_lines ls,
            (sscanf_08X (before_comment l1)).isSome = true :=
          fun l1 h1 => hwf l1 (List.mem_cons_of_mem _ h1)
        obtain ⟨v, hv1⟩ := Option.isSome_iff_exists.mp hv
        rw [hv1]
        simp only [List.length_cons]
        obtain ⟨st1, hst⟩ := loader_store_total fresh true cpu v st hlen hps (by omega)
          (Or.inl rfl)
        obtain ⟨a1, a2, a3, a4, _⟩ :=
          loader_store_ok fresh true cpu v st st1 hlen hps (by omega) hst
        rw [hst]
        simp only
        obtain ⟨st2, c1, c2, c3, c4, c5⟩ := ih st1 hnl2 hwf2 a2 a3 (by omega)
        refine ⟨st2, c1, by omega, c3, c4, ?_⟩
        rw [c5, a1, a4]
        split <;> omega

/-- C21: for every program file (given as its lines, each of at most 80 characters, no NUL
character) in which sscanf reads a word from every instruction line, with n instruction lines
and an initial memory of s cells: with resizing disabled the load succeeds with the size
unchanged when n <= s and ends in the fatal memory-violation error when n > s, the memory then
still having s cells; with resizing enabled the load always succeeds, program_size = n <= final
size, and the final size is the smallest s + 20*k (k >= 0) that is >= n; each extension, made
when the next write position equals the size, adds exactly 20 cells, zero but for the one that
receives the word. -/
theorem C21_loader_capacity (fresh : Nat → Int) (cpu : micro86_proc) (mem : memory)
    (lines : List (List Char)) (last : List Char)
    (hlines : ∀ l ∈ lines, Char.ofNat 10 ∉ l ∧ Char.ofNat 0 ∉ l ∧ l.length ≤ 80)
    (hlast : Char.ofNat 10 ∉ last ∧ Char.ofNat 0 ∉ last ∧ last.length ≤ 80)
    (hcount : lines.length + 21 < 4294967296)
    (hwf : ∀ l ∈ instruction_lines (lines ++ [last]),
      (sscanf_08X (before_comment l)).isSome = true) :
    ((instruction_lines (lines ++ [last])).length ≤ mem.length →
      ∃ st, m86_loader (some (file_text lines last)) cpu mem mem.length false fresh = .ok st ∧
        st.mem_size = mem.length ∧
        st.program_size = (instruction_lines (lines ++ [last])).length) ∧
    (mem.length < (instruction_lines (lines ++ [last])).length →
      ∃ m1, m86_loader (some (file_text lines last)) cpu mem mem.length false fresh
          = .error (.fatal "Micro86 ERROR: memory violation!" cpu m1) ∧
        m1.length = mem.length) ∧
    (∃ st, m86_loader (some (file_text lines last)) cpu mem mem.length true fresh = .ok st ∧
      st.program_size = (instruction_lines (lines ++ [last])).length ∧
      st.mem.length = st.mem_size ∧
      st.program_size ≤ st.mem_size ∧
      ∃ k, st.mem_size = mem.length + 20 * k ∧
        ∀ j, (instruction_lines (lines ++ [last])).length ≤ mem.length + 20 * j → k ≤ j) ∧
    (∀ (v : Int) (st st1 : m86_loaded), st.mem.length = st.mem_size →
      st.program_size = st.mem_size → st.program_size + 20 < 4294967296 →
      m86_loader_store fresh true cpu v st = .ok st1 →
      st1.mem_size = st.mem_size + 20 ∧ st1.mem.length = st.mem.length + 20 ∧
      st1.mem[st.mem_size]? = some v ∧
      ∀ k : Nat, st.mem_size < k → k < st.mem_size + 20 → st1.mem[k]? = some 0) := by
  have hnl : ∀ l ∈ lines ++ [last], Char.ofNat 10 ∉ l := by
    intro l hl
    rcases List.mem_append.mp hl with h1 | h1
    · exact (hlines l h1).1
    · rw [List.mem_singleton.mp h1]
      exact hlast.1
  have hb : (0 : Nat) + (lines ++ [last]).length + 20 < 4294967296 := by
    simp only [List.length_append, List.length_singleton]
    omega
  obtain ⟨off1, off2⟩ := loader_lines_capacity_off fresh cpu (lines ++ [last])
    ⟨mem, mem.length, 0⟩ hnl hwf rfl (Nat.zero_le _) hb
  obtain ⟨st, on1, on2, on3, on4, on5⟩ := loader_lines_capacity_on fresh cpu (lines ++ [last])
    ⟨mem, mem.length, 0⟩ hnl hwf rfl (Nat.zero_le _) hb
  simp only [Nat.zero_add] at off1 off2 on2 on5
  refine ⟨?_, ?_, ?_, ?_⟩
  · intro h
    rw [loader_eq_lines fresh false cpu mem mem.length lines last hlines hlast]
    exact off1 h
  · intro h
    rw [loader_eq_lines fresh false cpu mem mem.length lines last hlines hlast]
    exact off2 h
  · rw [loader_eq_lines fresh true cpu mem mem.length lines last hlines hlast]
    refine ⟨st, on1, on2, on3, on4, _, on5, ?_⟩
    intro j hj
    omega
  · intro v st st1 hlen hfull hbound hst
    obtain ⟨_, a2, _, a4, a5⟩ :=
      loader_store_ok fresh true cpu v st st1 hlen (by omega) hbound hst
    rw [if_pos (by omega)] at a4
    refine ⟨a4, by omega, ?_, ?_⟩
    · rw [a5, if_pos hfull.symm]
    · intro k hk1 hk2
      rw [a5, if_neg (by omega), if_neg (by omega), if_pos (by omega)]

theorem C21_loader_capacity_witness :
    (∃ m1, m86_loader
        (some (file_text ["02010007".toList, "03020010".toList] "01000000".toList))
        m86_proc_init (m_allocate_init 2 0) (m_allocate_init 2 0).length false (fun _ => 9)
          = .error (.fatal "Micro86 ERROR: memory violation!" m86_proc_init m1) ∧
        m1.length = (m_allocate_init 2 0).length) ∧
    m86_loader
        (some (file_text ["02010007".toList, "03020010".toList] "01000000".toList))
        m86_proc_init (m_allocate_init 2 0) 2 false (fun _ => 9)
      = .error (.fatal "Micro86 ERROR: memory violation!" m86_proc_init
          [0x02010007, 0x03020010]) ∧
    m86_loader
        (some (file_text ["02010007".toList, "03020010".toList] "01000000".toList))
        m86_proc_init (m_allocate_init 2 0) 2 true (fun _ => 9)
      = .ok ⟨[0x02010007, 0x03020010, 0x01000000] ++ List.replicate 19 0, 22, 3⟩ :=
  ⟨(C21_loader_capacity (fun _ => 9) m86_proc_init (m_allocate_init 2 0)
      ["02010007".toList, "03020010".toList] "01000000".toList
      (by decide) (by decide) (by decide) (by decide)).2.1 (by decide),
    rfl, rfl⟩

/-! ## Flag getters and setters: theorems -/

theorem get_flags_zb_eq (p : micro86_proc) : m86_get_flags_zb p = p.flags % 2 := by
  unfold m86_get_flags_zb
  exact Nat.and_one_is_mod p.flags

theorem get_flags_sb_eq (p : micro86_proc) : m86_get_flags_sb p = p.flags / 2 := by
  unfold m86_get_flags_sb
  rw [Nat.shiftRight_eq_div_pow]

/-- C36, on the code: m86_get_flags_zb masks and returns 0 or 1 for every state, but
m86_get_flags_sb returns flags >> 1 with no mask, that is flags / 2: it is 0 or 1 exactly when
flags < 4, and with flags = 6 it returns 3 (with flags = 4 it returns 2). -/
theorem C36_sign_getter_is_not_masked :
    (∀ p : micro86_proc, m86_get_flags_zb p = 0 ∨ m86_get_flags_zb p = 1) ∧
    (∀ p : micro86_proc, m86_get_flags_sb p = p.flags / 2) ∧
    (∀ p : micro86_proc, (m86_get_flags_sb p = 0 ∨ m86_get_flags_sb p = 1) ↔ p.flags < 4) ∧
    m86_get_flags_sb ⟨0, 0, 0, 6⟩ = 3 ∧
    m86_get_flags_sb ⟨0, 0, 0, 4⟩ = 2 := by
  refine ⟨?_, get_flags_sb_eq, ?_, by decide, by decide⟩
  · intro p
    rw [get_flags_zb_eq]
    omega
  · intro p
    rw [get_flags_sb_eq]
    omega

/-- C37: for every processor state and boolean b, after m86_set_flags_zb(b) bit 0 of flags
equals b and bit 1 is unchanged, after m86_set_flags_sb(b) bit 1 of flags equals b and bit 0 is
unchanged, and neither call changes acc, ir or ip. -/
theorem C37_flag_setters_independent (p : micro86_proc) (b : Bool) :
    ((m86_set_flags_zb p b).flags.testBit 0 = b ∧
      (m86_set_flags_zb p b).flags.testBit 1 = p.flags.testBit 1 ∧
      (m86_set_flags_zb p b).acc = p.acc ∧ (m86_set_flags_zb p b).ir = p.ir ∧
      (m86_set_flags_zb p b).ip = p.ip) ∧
    ((m86_set_flags_sb p b).flags.testBit 1 = b ∧
      (m86_set_flags_sb p b).flags.testBit 0 = p.flags.testBit 0 ∧
      (m86_set_flags_sb p b).acc = p.acc ∧ (m86_set_flags_sb p b).ir = p.ir ∧
      (m86_set_flags_sb p b).ip = p.ip) := by
  have h10 : Nat.testBit 1 0 = true := by decide
  have h11 : Nat.testBit 1 1 = false := by decide
  have h20 : Nat.testBit 2 0 = false := by decide
  have h21 : Nat.testBit 2 1 = true := by decide
  unfold m86_set_flags_zb m86_set_flags_sb
  cases b
  · simp only [Bool.false_eq_true, if_false, Nat.testBit_and, h10, h11, h20, h21,
      Bool.and_false, Bool.and_true, and_self]
  · simp only [if_true, Nat.testBit_or, h10, h11, h20, h21, Bool.or_false, Bool.or_true,
      and_self]

/-! ## Sorted search, first position: theorems -/

/-- C40, the code: on every range [low, high] (0 <= low <= high <= 2^30 - 1) whose midpoint
cell (low + high) / 2 holds the key, m_search_s returns that midpoint at once, whatever the cells
to its left hold. On the ascending cells 1, 1, 1 with low = 0, high = 2 and key 1 it returns 1
although index 0 holds the key, and on 1, 2, 2, 2, 3 with key 2 it returns 2 although index 1
holds it: the position returned is not the smallest one that holds the key. -/
theorem C40_search_returns_the_midpoint (m : memory) (fuel : Nat) (low high key : Int)
    (h0 : 0 ≤ low) (hle : low ≤ high) (hh : high ≤ 1073741823)
    (hmid : m[((low + high) / 2).toNat]? = some key) :
    m_search_s m (fuel + 1) low high key = .returned ((low + high) / 2) ∧
    m_search_s [1, 1, 1] 3 0 2 1 = .returned 1 ∧
    ([1, 1, 1] : memory)[0]? = some 1 ∧
    m_search_s [1, 2, 2, 2, 3] 5 0 4 2 = .returned 2 ∧
    ([1, 2, 2, 2, 3] : memory)[1]? = some 2 := by
  obtain ⟨e1, e2, -, -⟩ := search_s_mid low high h0 hle hh
  refine ⟨?_, by decide, by decide, by decide, by decide⟩
  rw [m_search_s, if_neg (by omega)]
  rw [e1] at e2
  rw [e1]
  unfold m_get_value
  rw [hmid]
  simp only [if_true]
  rw [e2]

theorem C40_search_returns_the_midpoint_witness :
    m_search_s [1, 1, 1] 3 0 2 1 = .returned ((0 + 2) / 2) :=
  (C40_search_returns_the_midpoint [1, 1, 1] 2 0 2 1 (by decide) (by decide) (by decide)
    (by decide)).1

/-! ## Division toward zero: theorems -/

theorem neg_tmod_eq (a b : Int) : (-a).tmod b = -(a.tmod b) := by
  rw [Int.tmod_def, Int.tmod_def, Int.neg_tdiv]
  ring

theorem tmod_sign_bound (a d : Int) (hd0 : d ≠ 0) :
    (0 ≤ a → 0 ≤ a.tmod d ∧ (a.tmod d).natAbs < d.natAbs) ∧
    (a ≤ 0 → a.tmod d ≤ 0 ∧ (a.tmod d).natAbs < d.natAbs) := by
  have hpos : ∀ x : Int, 0 ≤ x → 0 ≤ x.tmod d ∧ (x.tmod d).natAbs < d.natAbs := by
    intro x hx
    by_cases hd : 0 < d
    · have h1 := Int.tmod_nonneg d hx
      have h2 := Int.tmod_lt_of_pos x hd
      exact ⟨h1, by omega⟩
    · have hd1 : 0 < -d := by omega
      have h1 := Int.tmod_nonneg (-d) hx
      have h2 := Int.tmod_lt_of_pos x hd1
      rw [Int.tmod_neg] at h1 h2
      exact ⟨h1, by omega⟩
  constructor
  · exact hpos a
  · intro ha
    obtain ⟨h1, h2⟩ := hpos (-a) (by omega)
    rw [neg_tmod_eq] at h1 h2
    exact ⟨by omega, by omega⟩

theorem tdiv_is_int (a d : Int) (ha : is_int a) (hd0 : d ≠ 0)
    (hex : ¬ (a = -2147483648 ∧ d = -1)) : is_int (a.tdiv d) := by
  unfold is_int at ha ⊢
  have hq : (a.tdiv d).natAbs = a.natAbs / d.natAbs := Int.natAbs_tdiv a d
  have hle : a.natAbs / d.natAbs ≤ a.natAbs := Nat.div_le_self _ _
  have hdpos : 0 < d.natAbs := by omega
  by_cases h2 : 2 ≤ d.natAbs
  · have h3 : a.natAbs / d.natAbs ≤ a.natAbs / 2 := Nat.div_le_div_left h2 (by omega)
    omega
  · have h1 : d.natAbs = 1 := by omega
    by_cases hd1 : d = 1
    · subst hd1
      rw [Int.tdiv_one]
      exact ha
    · have hdm : d = -1 := by omega
      subst hdm
      have hne : a ≠ -2147483648 := fun h => hex ⟨h, rfl⟩
      rw [h1, Nat.div_one] at hq
      omega

theorem int_div_mod_spec (a d : Int) (ha : is_int a) (hd : is_int d) (hd0 : d ≠ 0)
    (hex : ¬ (a = -2147483648 ∧ d = -1)) :
    int_div a d = a.tdiv d ∧ int_mod a d = a.tmod d ∧
    a = d * a.tdiv d + a.tmod d ∧
    (a.tmod d).natAbs < d.natAbs ∧
    (a.tmod d = 0 ∨ (0 < a.tmod d ∧ 0 < a) ∨ (a.tmod d < 0 ∧ a < 0)) ∧
    (a.tdiv d).natAbs = a.natAbs / d.natAbs := by
  have hq := tdiv_is_int a d ha hd0 hex
  obtain ⟨s1, s2⟩ := tmod_sign_bound a d hd0
  have hsum := Int.tdiv_add_tmod a d
  have hr : is_int (a.tmod d) := by
    unfold is_int at hd ⊢
    by_cases h0 : 0 ≤ a
    · have := s1 h0
      omega
    · have := s2 (by omega)
      omega
  refine ⟨?_, ?_, hsum.symm, ?_, ?_, Int.natAbs_tdiv a d⟩
  · unfold int_div
    exact wrap_int_of_is_int _ hq
  · unfold int_mod
    exact wrap_int_of_is_int _ hr
  · by_cases h0 : 0 ≤ a
    · exact (s1 h0).2
    · exact (s2 (by omega)).2
  · by_cases hz : a = 0
    · left
      rw [hz, Int.zero_tmod]
    · by_cases h0 : 0 ≤ a
      · have := s1 h0
        omega
      · have := s2 (by omega)
        omega

/-- C38: for every 32-bit acc and every non-zero 32-bit divisor d, apart from acc = -2^31 with
d = -1, DIVI d and DIV on a cell holding d set acc to the quotient q of acc by d rounded toward
zero, and MODI d and MOD set acc to the remainder r, where acc = d*q + r, |r| < |d|, r is zero
or has the sign of the old acc, and |q| is the whole part of |acc| / |d|. -/
theorem C38_division_truncates (ds : m86_dataset) (trace : Bool) (m : m86_machine)
    (mem_size : Nat) (d : Int) (ha : is_int m.cpu.acc) (hd : is_int d) (hd0 : d ≠ 0)
    (hex : ¬ (m.cpu.acc = -2147483648 ∧ d = -1))
    (htr : trace_passes ds trace m.cpu m.mem mem_size) :
    execute ds trace m mem_size ⟨DIVI, d⟩
      = .ok { m with cpu := { m.cpu with acc := m.cpu.acc.tdiv d } } ∧
    execute ds trace m mem_size ⟨MODI, d⟩
      = .ok { m with cpu := { m.cpu with acc := m.cpu.acc.tmod d } } ∧
    (∀ x : Nat, x ≤ 0xFFFF → x < mem_size → m.mem[x]? = some d →
      execute ds trace m mem_size ⟨DIV, x⟩
        = .ok { m with cpu := { m.cpu with acc := m.cpu.acc.tdiv d } } ∧
      execute ds trace m mem_size ⟨MOD, x⟩
        = .ok { m with cpu := { m.cpu with acc := m.cpu.acc.tmod d } }) ∧
    m.cpu.acc = d * m.cpu.acc.tdiv d + m.cpu.acc.tmod d ∧
    (m.cpu.acc.tmod d).natAbs < d.natAbs ∧
    (m.cpu.acc.tmod d = 0 ∨ (0 < m.cpu.acc.tmod d ∧ 0 < m.cpu.acc) ∨
      (m.cpu.acc.tmod d < 0 ∧ m.cpu.acc < 0)) ∧
    (m.cpu.acc.tdiv d).natAbs = m.cpu.acc.natAbs / d.natAbs := by
  obtain ⟨e1, e2, e3, e4, e5, e6⟩ := int_div_mod_spec m.cpu.acc d ha hd hd0 hex
  obtain ⟨i1, i2⟩ := execute_switch_div_immediate m mem_size d
  rw [if_neg hd0, e1] at i1
  rw [if_neg hd0, e2] at i2
  refine ⟨?_, ?_, ?_, e3, e4, e5, e6⟩
  · rw [execute_eq_switch ds trace m mem_size _ htr]
    exact i1
  · rw [execute_eq_switch ds trace m mem_size _ htr]
    exact i2
  · intro x h16 hx hb
    obtain ⟨j1, j2⟩ := execute_switch_div_memory m mem_size x d h16 hx hb
    rw [if_neg hd0, e1] at j1
    rw [if_neg hd0, e2] at j2
    rw [execute_eq_switch ds trace m mem_size _ htr,
      execute_eq_switch ds trace m mem_size _ htr]
    exact ⟨j1, j2⟩

theorem C38_division_truncates_witness :
    execute catalogue_dataset true
        ⟨true, ⟨-7, 0x07010002, 2, 0⟩, m_allocate_init 20 0, [], []⟩ 20 ⟨DIVI, 2⟩
      = .ok ⟨true, ⟨-3, 0x07010002, 2, 0⟩, m_allocate_init 20 0, [], []⟩ ∧
    execute catalogue_dataset true
        ⟨true, ⟨-7, 0x08010002, 2, 0⟩, m_allocate_init 20 0, [], []⟩ 20 ⟨MODI, 2⟩
      = .ok ⟨true, ⟨-1, 0x08010002, 2, 0⟩, m_allocate_init 20 0, [], []⟩ :=
  ⟨(C38_division_truncates catalogue_dataset true
      ⟨true, ⟨-7, 0x07010002, 2, 0⟩, m_allocate_init 20 0, [], []⟩ 20 2
      (by decide) (by decide) (by decide) (by decide) (by decide)).1,
   (C38_division_truncates catalogue_dataset true
      ⟨true, ⟨-7, 0x08010002, 2, 0⟩, m_allocate_init 20 0, [], []⟩ 20 2
      (by decide) (by decide) (by decide) (by decide) (by decide)).2.1⟩

/-! ## Decoded field ranges: theorems -/

theorem execute_switch_LOADI (m : m86_machine) (mem_size : Nat) (op : Int) :
    execute_switch m mem_size ⟨LOADI, op⟩ = .ok { m with cpu := { m.cpu with acc := op } } := by
  unfold execute_switch
  simp [HALT, LOAD, LOADI, pure, Except.pure, m86_set_acc_reg]

/-- C39: for every 32-bit signed word w, the decoded operand lies in 0..65535 and the decoded
opcode is the sign-preserving shift of w by 16 bits, floor(w / 2^16), which lies in
-32768..32767 and is negative exactly when w is negative. Consequently a word that decodes to
LOADI loads a value in 0..65535, and a word that decodes to DIVI or MODI divides by its operand,
which is never negative. -/
theorem C39_decoded_field_ranges (w : Int) (hw : is_int w) :
    (0 ≤ (m86_ei_decoded w).operand ∧ (m86_ei_decoded w).operand ≤ 65535) ∧
    (m86_ei_decoded w).opcode = int_shr w 16 ∧
    (m86_ei_decoded w).opcode = w / 65536 ∧
    (-32768 ≤ (m86_ei_decoded w).opcode ∧ (m86_ei_decoded w).opcode ≤ 32767) ∧
    ((m86_ei_decoded w).opcode < 0 ↔ w < 0) ∧
    (∀ (ds : m86_dataset) (trace : Bool) (m : m86_machine) (mem_size : Nat),
      trace_passes ds trace m.cpu m.mem mem_size →
      ((m86_ei_decoded w).opcode = LOADI →
        ∃ v : Int, 0 ≤ v ∧ v ≤ 65535 ∧
          execute ds trace m mem_size (m86_ei_decoded w)
            = .ok { m with cpu := { m.cpu with acc := v } }) ∧
      ((m86_ei_decoded w).opcode = DIVI → (m86_ei_decoded w).operand ≠ 0 →
        ∃ v : Int, 0 < v ∧ v ≤ 65535 ∧
          execute ds trace m mem_size (m86_ei_decoded w)
            = .ok { m with cpu := { m.cpu with acc := int_div m.cpu.acc v } }) ∧
      ((m86_ei_decoded w).opcode = MODI → (m86_ei_decoded w).operand ≠ 0 →
        ∃ v : Int, 0 < v ∧ v ≤ 65535 ∧
          execute ds trace m mem_size (m86_ei_decoded w)
            = .ok { m with cpu := { m.cpu with acc := int_mod m.cpu.acc v } })) := by
  have hop : 0 ≤ (m86_ei_decoded w).operand ∧ (m86_ei_decoded w).operand ≤ 65535 := by
    unfold m86_ei_decoded
    simp only [int_and_ffff]
    omega
  have hoc : (m86_ei_decoded w).opcode = w / 65536 := by
    unfold m86_ei_decoded
    simp only [int_shr_16]
  unfold is_int at hw
  refine ⟨hop, rfl, hoc, ?_, ?_, ?_⟩
  · rw [hoc]; omega
  · rw [hoc]; omega
  · intro ds trace m mem_size htr
    rw [execute_eq_switch ds trace m mem_size _ htr]
    have hdi : m86_ei_decoded w = ⟨(m86_ei_decoded w).opcode, (m86_ei_decoded w).operand⟩ := rfl
    refine ⟨?_, ?_, ?_⟩
    · intro h
      refine ⟨(m86_ei_decoded w).operand, hop.1, hop.2, ?_⟩
      rw [hdi, h]
      exact execute_switch_LOADI m mem_size _
    · intro h h0
      refine ⟨(m86_ei_decoded w).operand, by omega, hop.2, ?_⟩
      rw [hdi, h, (execute_switch_div_immediate m mem_size _).1, if_neg h0]
    · intro h h0
      refine ⟨(m86_ei_decoded w).operand, by omega, hop.2, ?_⟩
      rw [hdi, h, (execute_switch_div_immediate m mem_size _).2, if_neg h0]

theorem C39_decoded_field_ranges_witness :
    (m86_ei_decoded (-65531)).operand = 5 ∧ (m86_ei_decoded (-65531)).opcode = -1 ∧
    (0 ≤ (m86_ei_decoded (-65531)).operand ∧ (m86_ei_decoded (-65531)).operand ≤ 65535) ∧
    ((m86_ei_decoded (-65531)).opcode < 0 ↔ (-65531 : Int) < 0) :=
  ⟨by decide, by decide, (C39_decoded_field_ranges (-65531) (by decide)).1,
   (C39_decoded_field_ranges (-65531) (by decide)).2.2.2.2.1⟩

/-! ## Ordering after a comparison without overflow: theorems -/

theorem ordered_flags_jumps (ds : m86_dataset) (trace : Bool) (a b : Int) (mem_size : Nat)
    (m2 : m86_machine) (t : Nat) (ht : t ≤ 0xFFFF)
    (hfl : m2.cpu.flags = if a - b = 0 then 1 else if a - b < 0 then 2 else 0)
    (htr2 : trace_passes ds trace m2.cpu m2.mem mem_size) :
    execute ds trace m2 mem_size ⟨JLI, t⟩
      = .ok (if a < b then { m2 with cpu := { m2.cpu with ip := t } } else m2) ∧
    execute ds trace m2 mem_size ⟨JGI, t⟩
      = .ok (if a > b then { m2 with cpu := { m2.cpu with ip := t } } else m2) ∧
    execute ds trace m2 mem_size ⟨JLEI, t⟩
      = .ok (if a ≤ b then { m2 with cpu := { m2.cpu with ip := t } } else m2) ∧
    execute ds trace m2 mem_size ⟨JGEI, t⟩
      = .ok (if a ≥ b then { m2 with cpu := { m2.cpu with ip := t } } else m2) := by
  have hf3 : m2.cpu.flags = 0 ∨ m2.cpu.flags = 1 ∨ m2.cpu.flags = 2 := by
    rw [hfl]; split_ifs <;> simp
  obtain ⟨-, -, h3, h4, h5, h6⟩ := conditional_jumps_switch m2 mem_size t ht hf3
  rw [execute_eq_switch ds trace m2 mem_size _ htr2,
    execute_eq_switch ds trace m2 mem_size _ htr2,
    execute_eq_switch ds trace m2 mem_size _ htr2,
    execute_eq_switch ds trace m2 mem_size _ htr2, h3, h4, h5, h6]
  rcases lt_trichotomy a b with h | h | h
  · have h0 : ¬ a - b = 0 := by omega
    have h1 : a - b < 0 := by omega
    have hf : m2.cpu.flags = 2 := by rw [hfl, if_neg h0, if_pos h1]
    have e1 : ¬ a > b := by omega
    have e2 : a ≤ b := by omega
    have e3 : ¬ a ≥ b := by omega
    simp [hf, h, e1, e2, e3]
  · have h0 : a - b = 0 := by omega
    have hf : m2.cpu.flags = 1 := by rw [hfl, if_pos h0]
    simp [hf, h]
  · have h0 : ¬ a - b = 0 := by omega
    have h1 : ¬ a - b < 0 := by omega
    have hf : m2.cpu.flags = 0 := by rw [hfl, if_neg h0, if_neg h1]
    have e1 : ¬ a < b := by omega
    have e2 : ¬ a ≤ b := by omega
    have e3 : a ≥ b := by omega
    simp [hf, h, e1, e2, e3]

/-- C34: for all 32-bit signed a and b whose mathematical difference a - b lies in the 32-bit
signed range, after CMP (operand in bounds, cell holding b) or CMPI b with acc == a, in every
later state that still holds those flags JLI is taken iff a < b, JGI iff a > b, JLEI iff
a <= b and JGEI iff a >= b. The difference is in range in particular for every CMPI, whose
operand lies in 0..65535, when 0 <= a. -/
theorem C34_ordering_without_overflow (ds : m86_dataset) (trace : Bool) (m : m86_machine)
    (mem_size : Nat) (di : m86_decoded_instruct) (b : Int)
    (ha : is_int m.cpu.acc)
    (hno : is_int (m.cpu.acc - b) ∨ (di = ⟨CMPI, b⟩ ∧ 0 ≤ m.cpu.acc ∧ 0 ≤ b ∧ b ≤ 65535))
    (hdi : (∃ x : Nat, x ≤ 0xFFFF ∧ x < mem_size ∧ m.mem[x]? = some b ∧ di = ⟨CMP, x⟩) ∨
      di = ⟨CMPI, b⟩)
    (htr : trace_passes ds trace m.cpu m.mem mem_size) :
    is_int (m.cpu.acc - b) ∧
    execute ds trace m mem_size di
      = .ok { m with cpu := m86_set_flag_reg m.cpu (int_sub m.cpu.acc b) } ∧
    ∀ (m2 : m86_machine) (t : Nat), t ≤ 0xFFFF →
      m2.cpu.flags = (m86_set_flag_reg m.cpu (int_sub m.cpu.acc b)).flags →
      trace_passes ds trace m2.cpu m2.mem mem_size →
      execute ds trace m2 mem_size ⟨JLI, t⟩
        = .ok (if m.cpu.acc < b then { m2 with cpu := { m2.cpu with ip := t } } else m2) ∧
      execute ds trace m2 mem_size ⟨JGI, t⟩
        = .ok (if m.cpu.acc > b then { m2 with cpu := { m2.cpu with ip := t } } else m2) ∧
      execute ds trace m2 mem_size ⟨JLEI, t⟩
        = .ok (if m.cpu.acc ≤ b then { m2 with cpu := { m2.cpu with ip := t } } else m2) ∧
      execute ds trace m2 mem_size ⟨JGEI, t⟩
        = .ok (if m.cpu.acc ≥ b then { m2 with cpu := { m2.cpu with ip := t } } else m2) := by
  have hin : is_int (m.cpu.acc - b) := by
    rcases hno with h | ⟨-, h1, h2, h3⟩
    · exact h
    · unfold is_int at ha ⊢
      omega
  refine ⟨hin, execute_compare ds trace m mem_size di b hdi htr, ?_⟩
  intro m2 t ht hfl htr2
  rw [set_flag_reg_flags] at hfl
  unfold int_sub at hfl
  rw [wrap_int_of_is_int _ hin] at hfl
  exact ordered_flags_jumps ds trace m.cpu.acc b mem_size m2 t ht hfl htr2

theorem C34_ordering_without_overflow_witness :
    execute catalogue_dataset false
        ⟨true, ⟨2147483647, 0x0901FFFF, 2, 0⟩, m_allocate_init 20 0, [], []⟩ 20 ⟨CMPI, 65535⟩
      = .ok ⟨true, ⟨2147483647, 0x0901FFFF, 2, 0⟩, m_allocate_init 20 0, [], []⟩ ∧
    execute catalogue_dataset false
        ⟨true, ⟨2147483647, 0x0F010007, 3, 0⟩, m_allocate_init 20 0, [], []⟩ 20 ⟨JGI, 7⟩
      = .ok ⟨true, ⟨2147483647, 0x0F010007, 7, 0⟩, m_allocate_init 20 0, [], []⟩ :=
  ⟨(C34_ordering_without_overflow catalogue_dataset false
      ⟨true, ⟨2147483647, 0x0901FFFF, 2, 0⟩, m_allocate_init 20 0, [], []⟩ 20 ⟨CMPI, 65535⟩
      65535 (by decide) (Or.inr ⟨rfl, by decide, by decide, by decide⟩)
      (Or.inr rfl) (by decide)).2.1,
   ((C34_ordering_without_overflow catalogue_dataset false
      ⟨true, ⟨2147483647, 0x0901FFFF, 2, 0⟩, m_allocate_init 20 0, [], []⟩ 20 ⟨CMPI, 65535⟩
      65535 (by decide) (Or.inr ⟨rfl, by decide, by decide, by decide⟩)
      (Or.inr rfl) (by decide)).2.2
      ⟨true, ⟨2147483647, 0x0F010007, 3, 0⟩, m_allocate_init 20 0, [], []⟩ 7
      (by decide) (by decide) (by decide)).2.1⟩

/-! ## Immediate query on opcodes without operand: theorems -/

/-- C32: on an initialised dataset, for every valid opcode that takes no operand,
m86ds_opcode_is_immediate and m86_di_instruct_is_immediate return false; either of the two ends
in a fatal error exactly when the opcode is not in the dataset, and the error is then "opcode is
invalid". -/
theorem C32_immediate_query_without_operand (ds : m86_dataset) (oc : Int)
    (hi : ds.initialized = true) :
    (m86ds_is_valid_opcode ds oc = .ok true → m86ds_opcode_has_operand ds oc = .ok false →
      m86ds_opcode_is_immediate ds oc = .ok false ∧
      ∀ x : Int, m86_di_instruct_is_immediate ds ⟨oc, x⟩ = .ok false) ∧
    ((∃ e, m86ds_opcode_is_immediate ds oc = .error e) ↔
      m86ds_is_valid_opcode ds oc = .ok false) ∧
    (∀ x : Int, (∃ e, m86_di_instruct_is_immediate ds ⟨oc, x⟩ = .error e) ↔
      m86ds_is_valid_opcode ds oc = .ok false) ∧
    (m86ds_is_valid_opcode ds oc = .ok false →
      m86ds_opcode_is_immediate ds oc = .error (.ds_fatal "ERROR: opcode is invalid!") ∧
      ∀ x : Int, m86_di_instruct_is_immediate ds ⟨oc, x⟩
        = .error (.ds_fatal "ERROR: opcode is invalid!")) := by
  have hdi : ∀ x : Int,
      m86_di_instruct_is_immediate ds ⟨oc, x⟩ = m86ds_opcode_is_immediate ds oc := by
    intro x
    unfold m86_di_instruct_is_immediate m86ds_is_init
    simp only [hi, Bool.not_true, Bool.false_eq_true, if_false]
  cases hl : ds.om_table.lookup oc with
  | none =>
    obtain ⟨h1, -, h3, h4⟩ := ds_queries_unknown ds oc hi hl
    simp only [hdi, h1, h3, h4]
    simp
  | some mn =>
    obtain ⟨h1, -, h3, h4⟩ := ds_queries_known ds oc mn hi hl
    simp only [hdi, h1, h3, h4]
    cases ho : ds.oho_list.contains oc <;> simp

theorem C32_immediate_query_without_operand_witness :
    m86ds_opcode_is_immediate catalogue_dataset HALT = .ok false ∧
    (∀ x : Int, m86_di_instruct_is_immediate catalogue_dataset ⟨IN, x⟩ = .ok false) ∧
    m86ds_opcode_is_immediate catalogue_dataset OUT = .ok false ∧
    m86ds_opcode_is_immediate catalogue_dataset 0x7777
      = .error (.ds_fatal "ERROR: opcode is invalid!") :=
  ⟨((C32_immediate_query_without_operand catalogue_dataset HALT rfl).1 rfl rfl).1,
   ((C32_immediate_query_without_operand catalogue_dataset IN rfl).1 rfl rfl).2,
   ((C32_immediate_query_without_operand catalogue_dataset OUT rfl).1 rfl rfl).1,
   ((C32_immediate_query_without_operand catalogue_dataset 0x7777 rfl).2.2.2 rfl).1⟩

/-! ## Reachable flags: theorems -/

theorem fetch_flags (cpu : micro86_proc) (mem : memory) (mem_size program_size : Nat)
    (r : m86_decoded_instruct × micro86_proc)
    (h : fetch cpu mem mem_size program_size = .ok r) : r.2.flags = cpu.flags := by
  unfold fetch m86_check_no_prgm_error m86_error at h
  simp only [bind, Except.bind, pure, Except.pure, m86_get_ip_reg, m86_set_ip_reg,
    m86_set_ir_reg] at h
  by_cases hp : program_size = 0
  · simp [hp, EXIT_FAILURE] at h
  · by_cases hip : cpu.ip ≥ mem_size
    · simp [hp, hip, EXIT_FAILURE] at h
    · by_cases hend : (cpu.ip + 1) % 4294967296 > program_size
      · simp [hp, hip, hend, EXIT_FAILURE] at h
      · simp only [hp, hip, hend, if_false] at h
        cases hv : in_storage cpu.ip (m_get_value mem cpu.ip) with
        | error e => simp [hv] at h
        | ok v =>
          simp only [hv] at h
          cases h
          rfl

theorem execute_switch_compare_flags (m m1 : m86_machine) (mem_size : Nat)
    (di : m86_decoded_instruct) (hc : di.opcode = CMP ∨ di.opcode = CMPI)
    (h : execute_switch m mem_size di = .ok m1) :
    m1.cpu.flags = 0 ∨ m1.cpu.flags = 1 ∨ m1.cpu.flags = 2 := by
  obtain ⟨oc, op⟩ := di
  simp only at hc
  have hset : ∀ v : Int, (m86_set_flag_reg m.cpu v).flags = 0 ∨
      (m86_set_flag_reg m.cpu v).flags = 1 ∨ (m86_set_flag_reg m.cpu v).flags = 2 := by
    intro v
    rw [set_flag_reg_flags]
    split_ifs <;> simp
  rcases hc with e | e <;> subst e
  · unfold execute_switch at h
    simp only [HALT, LOAD, LOADI, STORE, ADD, ADDI, SUB, SUBI, MUL, MULI, DIV, DIVI, MOD,
      MODI, CMP, CMPI, JMPI, JEI, JNEI, JLI, JLEI, JGI, JGEI, IN, OUT, bind, Except.bind,
      pure, Except.pure, m86_error, m86_check_zero_div_error, reduceIte, Int.reduceEq,
      if_false, if_true] at h
    split at h
    · simp at h
    · split at h
      · simp at h
      · cases h
        exact hset _
  · rw [execute_switch_CMPI] at h
    cases h
    exact hset _

theorem execute_flags (ds : m86_dataset) (trace : Bool) (m m1 : m86_machine) (mem_size : Nat)
    (di : m86_decoded_instruct) (h : execute ds trace m mem_size di = .ok m1) :
    m1.cpu.flags = m.cpu.flags ∨ m1.cpu.flags = 0 ∨ m1.cpu.flags = 1 ∨ m1.cpu.flags = 2 := by
  have hs := execute_ok_switch ds trace m m1 mem_size di h
  by_cases h1 : di.opcode = CMP
  · exact Or.inr (execute_switch_compare_flags m m1 mem_size di (Or.inl h1) hs)
  · by_cases h2 : di.opcode = CMPI
    · exact Or.inr (execute_switch_compare_flags m m1 mem_size di (Or.inr h2) hs)
    · exact Or.inl (execute_switch_flags m m1 mem_size di h1 h2 hs)

theorem set_flags_below_four (p : micro86_proc) (yes : Bool) (h : p.flags < 4) :
    (m86_set_flags_zb p yes).flags < 4 ∧ (m86_set_flags_sb p yes).flags < 4 := by
  unfold m86_set_flags_zb m86_set_flags_sb
  have h1 : p.flags ||| 1 < 2 ^ 2 := Nat.or_lt_two_pow (by omega) (by decide)
  have h2 : p.flags ||| 2 < 2 ^ 2 := Nat.or_lt_two_pow (by omega) (by decide)
  have h3 : p.flags &&& 2 ≤ 2 := Nat.and_le_right
  have h4 : p.flags &&& 1 ≤ 1 := Nat.and_le_right
  cases yes <;> simp only [Bool.false_eq_true, if_false, if_true] <;> omega

theorem reached_by_calls_flags (p : micro86_proc) (h : reached_by_calls p) : p.flags < 4 := by
  induction h with
  | init => decide
  | set_flags_zb p yes _ ih => exact (set_flags_below_four p yes ih).1
  | set_flags_sb p yes _ ih => exact (set_flags_below_four p yes ih).2
  | set_flag_reg p value _ ih =>
    rw [set_flag_reg_flags]
    split_ifs <;> omega
  | fetch p mem mem_size program_size r _ hf ih =>
    rw [fetch_flags p mem mem_size program_size r hf]
    exact ih
  | execute ds trace m m1 mem_size di _ he ih =>
    rcases execute_flags ds trace m m1 mem_size di he with e | e | e | e <;> omega

theorem reached_by_instructions_flags (p : micro86_proc) (h : reached_by_instructions p) :
    p.flags = 0 ∨ p.flags = 1 ∨ p.flags = 2 := by
  induction h with
  | init => exact Or.inl rfl
  | fetch p mem mem_size program_size r _ hf ih =>
    rw [fetch_flags p mem mem_size program_size r hf]
    exact ih
  | execute ds trace m m1 mem_size di _ he ih =>
    rcases execute_flags ds trace m m1 mem_size di he with e | e | e | e <;> omega

theorem reached_by_instructions_calls (p : micro86_proc) (h : reached_by_instructions p) :
    reached_by_calls p := by
  induction h with
  | init => exact .init
  | fetch p mem mem_size program_size r _ hf ih => exact .fetch p mem mem_size program_size r ih hf
  | execute ds trace m m1 mem_size di _ he ih => exact .execute ds trace m m1 mem_size di ih he

/-- C35: in every processor state reached from m86_proc_init by calls of m86_set_flags_zb,
m86_set_flags_sb and m86_set_flag_reg, by fetches and by executed instructions, the flags
register has no bit set above bit 1 (flags < 4), so that m86_get_flags_sb returns 0 or 1 and
m86_get_flags_zb returns 0 or 1; in every state reached by fetches and executed instructions
alone, flags is 0, 1 or 2. -/
theorem C35_reachable_flags (p : micro86_proc) :
    (reached_by_calls p →
      p.flags < 4 ∧ (m86_get_flags_sb p = 0 ∨ m86_get_flags_sb p = 1) ∧
      (m86_get_flags_zb p = 0 ∨ m86_get_flags_zb p = 1)) ∧
    (reached_by_instructions p →
      (p.flags = 0 ∨ p.flags = 1 ∨ p.flags = 2) ∧ reached_by_calls p) := by
  constructor
  · intro h
    have h4 := reached_by_calls_flags p h
    rw [get_flags_sb_eq, get_flags_zb_eq]
    omega
  · intro h
    exact ⟨reached_by_instructions_flags p h, reached_by_instructions_calls p h⟩

theorem C35_reachable_flags_witness :
    (m86_set_flags_sb (m86_set_flags_zb m86_proc_init true) true).flags = 3 ∧
    m86_get_flags_sb (m86_set_flags_sb (m86_set_flags_zb m86_proc_init true) true) = 1 ∧
    ((m86_set_flags_sb (m86_set_flags_zb m86_proc_init true) true).flags < 4 ∧
      (m86_get_flags_sb (m86_set_flags_sb (m86_set_flags_zb m86_proc_init true) true) = 0 ∨
        m86_get_flags_sb (m86_set_flags_sb (m86_set_flags_zb m86_proc_init true) true) = 1) ∧
      (m86_get_flags_zb (m86_set_flags_sb (m86_set_flags_zb m86_proc_init true) true) = 0 ∨
        m86_get_flags_zb (m86_set_flags_sb (m86_set_flags_zb m86_proc_init true) true) = 1)) ∧
    (((⟨-5, 0x09010003, 1, 2⟩ : micro86_proc).flags = 0 ∨
        (⟨-5, 0x09010003, 1, 2⟩ : micro86_proc).flags = 1 ∨
        (⟨-5, 0x09010003, 1, 2⟩ : micro86_proc).flags = 2) ∧
      reached_by_calls ⟨-5, 0x09010003, 1, 2⟩) :=
  ⟨by decide, by decide,
   (C35_reachable_flags _).1 (.set_flags_sb _ true (.set_flags_zb _ true .init)),
   (C35_reachable_flags _).2
    (.execute catalogue_dataset false
      ⟨true, ⟨-5, 0x09010003, 1, 0⟩, m_allocate_init 20 0, [], []⟩
      ⟨true, ⟨-5, 0x09010003, 1, 2⟩, m_allocate_init 20 0, [], []⟩ 20 ⟨CMPI, 3⟩
      (.execute catalogue_dataset false
        ⟨true, ⟨0, 0x09010003, 1, 0⟩, m_allocate_init 20 0, [], []⟩
        ⟨true, ⟨-5, 0x09010003, 1, 0⟩, m_allocate_init 20 0, [], []⟩ 20 ⟨SUBI, 5⟩
        (.fetch m86_proc_init [0x09010003] 1 1 (⟨CMPI, 3⟩, ⟨0, 0x09010003, 1, 0⟩) .init rfl)
        rfl)
      rfl)⟩

/-! ## Dataset round trip: theorems -/

theorem boot_up_loop_succ (ds : m86_dataset) (trace : Bool) (mem_size program_size fuel : Nat)
    (m : m86_machine) :
    m86_boot_up_loop ds trace mem_size program_size (fuel + 1) m
      = if m.running then
          match fetch m.cpu m.mem mem_size program_size with
          | .error e => .error e
          | .ok r =>
            match execute ds trace { m with cpu := r.2 } mem_size r.1 with
            | .error e => .error e
            | .ok m1 => m86_boot_up_loop ds trace mem_size program_size fuel m1
        else .ok (some m) := by
  rw [m86_boot_up_loop]
  by_cases hr : m.running = true
  · rw [if_pos hr, if_pos hr]
    simp only [bind, Except.bind]
    cases hf : fetch m.cpu m.mem mem_size program_size with
    | error e => rfl
    | ok r =>
      obtain ⟨di, cpu⟩ := r
      simp only
      cases he : execute ds trace { m with cpu := cpu } mem_size di <;> rfl
  · rw [if_neg hr, if_neg hr]
    rfl

theorem disassemble_error_shape (ds : m86_dataset) (cpu : micro86_proc) (mem : memory)
    (mem_size : Nat) (w : Int) (e : m86_stop)
    (h : m86_disassemble ds cpu mem mem_size w = .error e) :
    (e = .ds_fatal "ERROR: dataset not initialized!" ∧ ds.initialized = false) ∨
    (e = .fatal "Micro86 ERROR: memory violation!" cpu mem ∧
      mem_size < to_unsigned (m86_ei_decoded w).operand) ∨
    (e = .outside_storage (to_unsigned (m86_ei_decoded w).operand) ∧
      mem.length ≤ to_unsigned (m86_ei_decoded w).operand) := by
  have hop := decoded_operand_range w
  revert h
  unfold m86_disassemble m86_di_is_valid_instruct m86_di_instruct_has_operand
    m86_di_instruct_is_immediate m86ds_opcode_is_immediate m86ds_opcode_has_operand
    m86ds_get_mnemonic m86ds_is_valid_opcode m86ds_is_init m86_check_memory_bounds m86_error
    m_get_value m86ds_uninit_error m86_invalid_opcode_error
  generalize m86_ei_decoded w = di at *
  intro h
  cases hi : ds.initialized
  · simp only [hi, Bool.not_false, if_true, bind, Except.bind, Except.error.injEq] at h
    exact Or.inl ⟨h.symm, rfl⟩
  · by_cases hb : di.operand < 0 ∨ to_unsigned di.operand > mem_size
    · have hb2 : mem_size < to_unsigned di.operand := by
        rcases hb with hb | hb
        · omega
        · exact hb
      cases hl : ds.om_table.lookup di.opcode <;>
      cases ho : ds.oho_list.contains di.opcode <;>
      cases hm : ds.oi_list.contains di.opcode <;>
      cases hj : is_jmp_instruct di <;>
      simp only [hi, hl, ho, hm, hj, hb, bind, Except.bind, pure, Except.pure, in_storage,
        Bool.not_true, Bool.not_false, Bool.false_eq_true, if_false, if_true,
        Option.isSome_none, Option.isSome_some, Bool.and_true, Bool.and_false, Bool.true_and,
        Bool.false_and, reduceIte, EXIT_FAILURE, Except.error.injEq, reduceCtorEq] at h <;>
      exact Or.inr (Or.inl ⟨h.symm, hb2⟩)
    · by_cases hv : to_unsigned di.operand < mem.length
      · obtain ⟨v, hsome⟩ : ∃ v, mem[to_unsigned di.operand]? = some v :=
          ⟨_, List.getElem?_eq_getElem hv⟩
        cases hl : ds.om_table.lookup di.opcode <;>
        cases ho : ds.oho_list.contains di.opcode <;>
        cases hm : ds.oi_list.contains di.opcode <;>
        cases hj : is_jmp_instruct di <;>
        simp only [hi, hl, ho, hm, hj, hb, hsome, bind, Except.bind, pure, Except.pure,
          in_storage, Bool.not_true, Bool.not_false, Bool.false_eq_true, if_false, if_true,
          Option.isSome_none, Option.isSome_some, Bool.and_true, Bool.and_false,
          Bool.true_and, Bool.false_and, reduceIte, EXIT_FAILURE, Except.error.injEq,
          reduceCtorEq] at h
      · have hv2 : mem.length ≤ to_unsigned di.operand := by omega
        have hnone : mem[to_unsigned di.operand]? = none := List.getElem?_eq_none hv2
        cases hl : ds.om_table.lookup di.opcode <;>
        cases ho : ds.oho_list.contains di.opcode <;>
        cases hm : ds.oi_list.contains di.opcode <;>
        cases hj : is_jmp_instruct di <;>
        simp only [hi, hl, ho, hm, hj, hb, hnone, bind, Except.bind, pure, Except.pure,
          in_storage, Bool.not_true, Bool.not_false, Bool.false_eq_true, if_false, if_true,
          Option.isSome_none, Option.isSome_some, Bool.and_true, Bool.and_false,
          Bool.true_and, Bool.false_and, reduceIte, EXIT_FAILURE, Except.error.injEq,
          reduceCtorEq] at h <;>
        exact Or.inr (Or.inr ⟨h.symm, hv2⟩)

theorem traced_loop_cases (ds : m86_dataset) (mem_size program_size fuel : Nat)
    (m : m86_machine) :
    m86_boot_up_loop ds true mem_size program_size fuel m
      = m86_boot_up_loop ds false mem_size program_size fuel m ∨
    ∃ (cpu : micro86_proc) (mem : memory) (e : m86_stop),
      m86_disassemble ds cpu mem mem_size (to_int (m86_get_ir_reg cpu)) = .error e ∧
      m86_boot_up_loop ds true mem_size program_size fuel m = .error e := by
  induction fuel generalizing m with
  | zero => exact Or.inl rfl
  | succ f ih =>
    rw [boot_up_loop_succ, boot_up_loop_succ]
    by_cases hr : m.running = true
    · rw [if_pos hr, if_pos hr]
      cases hf : fetch m.cpu m.mem mem_size program_size with
      | error e => exact Or.inl rfl
      | ok r =>
        simp only
        cases hd : m86_disassemble ds r.2 m.mem mem_size (to_int (m86_get_ir_reg r.2)) with
        | error e =>
          right
          refine ⟨r.2, m.mem, e, hd, ?_⟩
          have he : execute ds true { m with cpu := r.2 } mem_size r.1 = .error e := by
            unfold execute
            simp only [if_true, bind, Except.bind, hd]
          rw [he]
        | ok line =>
          have htr : trace_passes ds true r.2 m.mem mem_size := by
            intro _
            rw [hd]
            rfl
          have he : execute ds true { m with cpu := r.2 } mem_size r.1
              = execute ds false { m with cpu := r.2 } mem_size r.1 := by
            rw [execute_eq_switch ds true { m with cpu := r.2 } mem_size r.1 htr]
            rfl
          rw [he]
          cases hx : execute ds false { m with cpu := r.2 } mem_size r.1 with
          | error e => exact Or.inl rfl
          | ok m1 => exact ih m1
    · rw [if_neg hr, if_neg hr]
      exact Or.inl rfl

/-- C33, counterexample to tracing being observation-only: the program LOADI 0x63, HALT in a
memory of 20 cells halts normally with acc = 0x63 when trace is off; with trace on the
disassembler checks the operand 0x63 of the immediate instruction against the memory size and
the run ends in the fatal "memory violation" error before the first instruction is executed,
with acc = 0. -/
theorem C33_trace_stops_immediate_load :
    m86_boot_up_loop catalogue_dataset false 20 2 3
        ⟨true, m86_proc_init, [0x02010063, 0x01000000] ++ m_allocate_init 18 0, [], []⟩
      = .ok (some ⟨false, ⟨0x63, 0x01000000, 2, 0⟩,
          [0x02010063, 0x01000000] ++ m_allocate_init 18 0, [], []⟩) ∧
    m86_boot_up_loop catalogue_dataset true 20 2 3
        ⟨true, m86_proc_init, [0x02010063, 0x01000000] ++ m_allocate_init 18 0, [], []⟩
      = .error (.fatal "Micro86 ERROR: memory violation!" ⟨0, 0x02010063, 1, 0⟩
          ([0x02010063, 0x01000000] ++ m_allocate_init 18 0)) :=
  ⟨rfl, rfl⟩

/-- C33, as it holds: for every dataset, memory, input stream and sizes, the fetch/execute
loop run with trace enabled either ends exactly as the run with trace disabled (same outcome,
same final machine), or it ends in an error raised by the disassembler of the trace step: the
"memory violation" error when the 16-bit operand field of the instruction register exceeds
mem_size, a read outside the storage, or the dataset error when the dataset is not initialised.
On an initialised dataset a traced instruction whose operand field is below mem_size (the memory
holding mem_size cells) executes exactly as untraced, and one whose opcode takes an operand and
whose operand field exceeds mem_size ends in "memory violation" without being executed. -/
theorem C33_tracing_adds_only_stops (ds : m86_dataset) (mem_size program_size fuel : Nat)
    (m : m86_machine) :
    (m86_boot_up_loop ds true mem_size program_size fuel m
        = m86_boot_up_loop ds false mem_size program_size fuel m ∨
      ∃ (cpu : micro86_proc) (mem : memory) (e : m86_stop),
        m86_disassemble ds cpu mem mem_size (to_int (m86_get_ir_reg cpu)) = .error e ∧
        m86_boot_up_loop ds true mem_size program_size fuel m = .error e ∧
        ((e = .ds_fatal "ERROR: dataset not initialized!" ∧ ds.initialized = false) ∨
          (e = .fatal "Micro86 ERROR: memory violation!" cpu mem ∧
            mem_size < to_unsigned (m86_ei_decoded (to_int (m86_get_ir_reg cpu))).operand) ∨
          (e = .outside_storage
              (to_unsigned (m86_ei_decoded (to_int (m86_get_ir_reg cpu))).operand) ∧
            mem.length ≤ to_unsigned (m86_ei_decoded (to_int (m86_get_ir_reg cpu))).operand))) ∧
    (∀ di : m86_decoded_instruct, ds.initialized = true →
      (m86_ei_decoded (to_int (m86_get_ir_reg m.cpu))).operand < mem_size →
      mem_size ≤ m.mem.length →
      execute ds true m mem_size di = execute ds false m mem_size di) ∧
    (∀ (di : m86_decoded_instruct) (mn : String), ds.initialized = true →
      ds.om_table.lookup (m86_ei_decoded (to_int (m86_get_ir_reg m.cpu))).opcode = some mn →
      ds.oho_list.contains (m86_ei_decoded (to_int (m86_get_ir_reg m.cpu))).opcode = true →
      mem_size < to_unsigned (m86_ei_decoded (to_int (m86_get_ir_reg m.cpu))).operand →
      execute ds true m mem_size di
        = .error (.fatal "Micro86 ERROR: memory violation!" m.cpu m.mem)) := by
  refine ⟨?_, ?_, ?_⟩
  · rcases traced_loop_cases ds mem_size program_size fuel m with h | ⟨cpu, mem, e, h1, h2⟩
    · exact Or.inl h
    · exact Or.inr ⟨cpu, mem, e, h1, h2, disassemble_error_shape ds cpu mem mem_size _ e h1⟩
  · intro di hi hop hmem
    obtain ⟨h0, h16⟩ := decoded_operand_range (to_int (m86_get_ir_reg m.cpu))
    obtain ⟨hb, v, hv⟩ := disassemble_operand_ready m.cpu m.mem mem_size _ h0 h16 hop hmem
    have hd := disassemble_eq ds m.cpu m.mem mem_size _ v hi hb hv
    have htr : trace_passes ds true m.cpu m.mem mem_size := by
      intro _
      rw [hd]
      cases ds.om_table.lookup (m86_ei_decoded (to_int (m86_get_ir_reg m.cpu))).opcode with
      | none => rfl
      | some mn =>
        simp only
        split_ifs <;> rfl
    rw [execute_eq_switch ds true m mem_size di htr]
    rfl
  · intro di mn hi hl ho hgt
    have hb : (m86_ei_decoded (to_int (m86_get_ir_reg m.cpu))).operand < 0 ∨
        to_unsigned (m86_ei_decoded (to_int (m86_get_ir_reg m.cpu))).operand > mem_size :=
      Or.inr hgt
    unfold execute m86_disassemble m86_di_is_valid_instruct m86_di_instruct_has_operand
      m86_di_instruct_is_immediate m86ds_opcode_is_immediate m86ds_opcode_has_operand
      m86ds_get_mnemonic m86ds_is_valid_opcode m86ds_is_init m86_check_memory_bounds m86_error
    generalize m86_ei_decoded (to_int (m86_get_ir_reg m.cpu)) = dw at *
    cases hm : ds.oi_list.contains dw.opcode <;>
    cases hj : is_jmp_instruct dw <;>
    simp only [hi, hl, ho, hm, hj, hb, bind, Except.bind, pure, Except.pure,
      Bool.not_true, Bool.not_false, Bool.false_eq_true, if_false, if_true,
      Option.isSome_some, Bool.and_true, Bool.and_false, Bool.true_and,
      Bool.false_and, reduceIte, EXIT_FAILURE]

theorem C33_tracing_adds_only_stops_witness :
    execute catalogue_dataset true
        ⟨true, ⟨0, 0x02010063, 1, 0⟩, [0x02010063, 0x01000000] ++ m_allocate_init 18 0, [], []⟩
        20 ⟨LOADI, 0x63⟩
      = .error (.fatal "Micro86 ERROR: memory violation!" ⟨0, 0x02010063, 1, 0⟩
          ([0x02010063, 0x01000000] ++ m_allocate_init 18 0)) ∧
    execute catalogue_dataset true
        ⟨true, ⟨0, 0x02010005, 1, 0⟩, [0x02010005, 0x01000000] ++ m_allocate_init 18 0, [], []⟩
        20 ⟨LOADI, 5⟩
      = execute catalogue_dataset false
        ⟨true, ⟨0, 0x02010005, 1, 0⟩, [0x02010005, 0x01000000] ++ m_allocate_init 18 0, [], []⟩
        20 ⟨LOADI, 5⟩ :=
  ⟨(C33_tracing_adds_only_stops catalogue_dataset 20 2 3
      ⟨true, ⟨0, 0x02010063, 1, 0⟩, [0x02010063, 0x01000000] ++ m_allocate_init 18 0, [], []⟩).2.2
      ⟨LOADI, 0x63⟩ "LOADI" rfl rfl rfl (by decide),
   (C33_tracing_adds_only_stops catalogue_dataset 20 2 3
      ⟨true, ⟨0, 0x02010005, 1, 0⟩, [0x02010005, 0x01000000] ++ m_allocate_init 18 0, [], []⟩).2.1
      ⟨LOADI, 5⟩ rfl (by decide) (by decide)⟩

/-! ## Out-of-range jumps: theorems -/

theorem traced_jump_disassemble (ds : m86_dataset) (m : m86_machine) (mem_size : Nat)
    (t : Nat) (oc : Int) (mn : String) (ht : t ≤ 0xFFFF)
    (hoc : oc ∈ [JMPI, JEI, JNEI, JLI, JLEI, JGI, JGEI])
    (hi : ds.initialized = true) (hl : ds.om_table.lookup oc = some mn)
    (ho : ds.oho_list.contains oc = true)
    (hir : m86_ei_decoded (to_int (m86_get_ir_reg m.cpu)) = ⟨oc, t⟩) :
    m86_disassemble ds m.cpu m.mem mem_size (to_int (m86_get_ir_reg m.cpu))
      = if mem_size < t then .error (.fatal "Micro86 ERROR: memory violation!" m.cpu m.mem)
        else match m.mem[t]? with
          | none => .error (.outside_storage t)
          | some v => .ok (.cell mn t v) := by
  have hu : to_unsigned (t : Int) = t := to_unsigned_natCast t (by omega)
  have hj : is_jmp_instruct ⟨oc, t⟩ = true := by
    simp only [List.mem_cons, List.mem_singleton, List.not_mem_nil, or_false] at hoc
    rcases hoc with e | e | e | e | e | e | e <;> subst e <;>
      simp [is_jmp_instruct, JMPI, JEI, JNEI, JLI, JLEI, JGI, JGEI]
  have hneg : ¬ ((t : Int) < 0) := by omega
  unfold m86_disassemble m86_di_is_valid_instruct m86_di_instruct_has_operand
    m86_di_instruct_is_immediate m86ds_opcode_is_immediate m86ds_opcode_has_operand
    m86ds_get_mnemonic m86ds_is_valid_opcode m86ds_is_init m86_check_memory_bounds m86_error
    m_get_value
  rw [hir]
  by_cases hgt : mem_size < t
  · cases hm : ds.oi_list.contains oc <;>
    simp only [hi, hl, ho, hm, hj, hu, hgt, hneg, bind, Except.bind, pure, Except.pure,
      Bool.not_true, Bool.not_false, Bool.false_eq_true, if_false, if_true,
      Option.isSome_some, Bool.and_true, Bool.and_false, Bool.true_and, Bool.false_and,
      reduceIte, EXIT_FAILURE, gt_iff_lt, false_or]
  · cases hv : m.mem[t]? <;> cases hm : ds.oi_list.contains oc <;>
    simp only [hi, hl, ho, hm, hj, hu, hgt, hneg, hv, bind, Except.bind, pure, Except.pure,
      in_storage, Bool.not_true, Bool.not_false, Bool.false_eq_true, if_false, if_true,
      Option.isSome_some, Bool.and_true, Bool.and_false, Bool.true_and, Bool.false_and,
      reduceIte, EXIT_FAILURE, gt_iff_lt, false_or, or_self]

theorem traced_jump_execute (ds : m86_dataset) (m : m86_machine) (mem_size : Nat)
    (t : Nat) (oc : Int) (mn : String) (ht : t ≤ 0xFFFF)
    (hoc : oc ∈ [JMPI, JEI, JNEI, JLI, JLEI, JGI, JGEI])
    (hi : ds.initialized = true) (hl : ds.om_table.lookup oc = some mn)
    (ho : ds.oho_list.contains oc = true)
    (hir : m86_ei_decoded (to_int (m86_get_ir_reg m.cpu)) = ⟨oc, t⟩) :
    execute ds true m mem_size ⟨oc, t⟩
      = if mem_size < t then .error (.fatal "Micro86 ERROR: memory violation!" m.cpu m.mem)
        else if m.mem.length ≤ t then .error (.outside_storage t)
        else execute_switch m mem_size ⟨oc, t⟩ := by
  have hd := traced_jump_disassemble ds m mem_size t oc mn ht hoc hi hl ho hir
  unfold execute
  simp only [if_true, bind, Except.bind]
  rw [hd]
  by_cases hgt : mem_size < t
  · rw [if_pos hgt, if_pos hgt]
  · rw [if_neg hgt, if_neg hgt]
    by_cases hlen : m.mem.length ≤ t
    · rw [if_pos hlen, List.getElem?_eq_none hlen]
    · rw [if_neg hlen, List.getElem?_eq_getElem (by omega)]
      rfl

/-- C16, counterexample to "executing a taken jump never fails, whatever its target": with
trace on, JMPI 99 on a memory of 20 cells ends in the fatal "memory violation" error in the
trace step of the jump itself, with ip still 1; the jump is not executed and the next fetch is
never reached. Run from the initial state, the program JMPI 99, HALT ends in that error with
ip = 1 when traced, and in the "memory violation" of the next fetch with ip = 99 when not. -/
theorem C16_traced_jump_is_fatal :
    execute catalogue_dataset true
        ⟨true, ⟨0, 0x0A010063, 1, 0⟩, m_allocate_init 20 0, [], []⟩ 20 ⟨JMPI, 99⟩
      = .error (.fatal "Micro86 ERROR: memory violation!" ⟨0, 0x0A010063, 1, 0⟩
          (m_allocate_init 20 0)) ∧
    m86_boot_up_loop catalogue_dataset true 20 2 3
        ⟨true, m86_proc_init, [0x0A010063, 0x01000000] ++ m_allocate_init 18 0, [], []⟩
      = .error (.fatal "Micro86 ERROR: memory violation!" ⟨0, 0x0A010063, 1, 0⟩
          ([0x0A010063, 0x01000000] ++ m_allocate_init 18 0)) ∧
    m86_boot_up_loop catalogue_dataset false 20 2 3
        ⟨true, m86_proc_init, [0x0A010063, 0x01000000] ++ m_allocate_init 18 0, [], []⟩
      = .error (.fatal "Micro86 ERROR: memory violation!" ⟨0, 0x0A010063, 99, 0⟩
          ([0x0A010063, 0x01000000] ++ m_allocate_init 18 0)) :=
  ⟨rfl, rfl, rfl⟩

/-- C16, as it holds: for every memory size and program size with program_size <= mem_size:
(1) with trace off, executing any of the seven jumps never fails, whatever its target t: it
returns with ip = t or with the state unchanged; (2) with trace on (the dataset initialised and
knowing the jump as an opcode with operand, the instruction register holding the jump), the
trace step of the jump is fatal with "memory violation" and the state unchanged when
t > mem_size, reads outside the storage when t <= mem_size is not a cell of the memory, and
otherwise the jump returns with ip = t or with the state unchanged; (3) when the loop goes round
with ip = t >= program_size (program not empty), traced or not, the fetch of that iteration is
fatal before anything executes: "memory violation" with the processor unchanged when
t >= mem_size, "program end reached" when program_size <= t < mem_size; (4) in every run of the
loop, traced or not, every instruction passed to execute was fetched from an address below
program_size. -/
theorem C16_out_of_range_jumps (ds : m86_dataset) (trace : Bool) (mem_size program_size : Nat)
    (hsize : is_unsigned mem_size) (hps : program_size ≤ mem_size) :
    (∀ (m : m86_machine) (t : Nat) (oc : Int), t ≤ 0xFFFF →
      oc ∈ [JMPI, JEI, JNEI, JLI, JLEI, JGI, JGEI] →
      execute ds false m mem_size ⟨oc, t⟩ = .ok { m with cpu := { m.cpu with ip := t } } ∨
      execute ds false m mem_size ⟨oc, t⟩ = .ok m) ∧
    (∀ (m : m86_machine) (t : Nat) (oc : Int) (mn : String), t ≤ 0xFFFF →
      oc ∈ [JMPI, JEI, JNEI, JLI, JLEI, JGI, JGEI] →
      ds.initialized = true → ds.om_table.lookup oc = some mn →
      ds.oho_list.contains oc = true →
      m86_ei_decoded (to_int (m86_get_ir_reg m.cpu)) = ⟨oc, t⟩ →
      (mem_size < t →
        execute ds true m mem_size ⟨oc, t⟩
          = .error (.fatal "Micro86 ERROR: memory violation!" m.cpu m.mem)) ∧
      (t ≤ mem_size → m.mem.length ≤ t →
        execute ds true m mem_size ⟨oc, t⟩ = .error (.outside_storage t)) ∧
      (t ≤ mem_size → t < m.mem.length →
        execute ds true m mem_size ⟨oc, t⟩
            = .ok { m with cpu := { m.cpu with ip := t } } ∨
          execute ds true m mem_size ⟨oc, t⟩ = .ok m)) ∧
    (∀ (m : m86_machine) (fuel : Nat), m.running = true → 0 < program_size →
      (mem_size ≤ m.cpu.ip →
        m86_boot_up_loop ds trace mem_size program_size (fuel + 1) m
          = .error (.fatal "Micro86 ERROR: memory violation!" m.cpu m.mem)) ∧
      (program_size ≤ m.cpu.ip → m.cpu.ip < mem_size →
        m86_boot_up_loop ds trace mem_size program_size (fuel + 1) m
          = .error (.fatal "Micro86 ERROR: program end reached!"
              { m.cpu with ip := m.cpu.ip + 1 } m.mem))) ∧
    (∀ (m : m86_machine) (fuel : Nat),
      (m86_boot_up_loop_log ds trace mem_size program_size fuel m).1
        = m86_boot_up_loop ds trace mem_size program_size fuel m ∧
      ∀ e ∈ (m86_boot_up_loop_log ds trace mem_size program_size fuel m).2,
        e.1 < program_size) := by
  refine ⟨?_, ?_, ?_, ?_⟩
  · intro m t oc ht hoc
    exact jumps_switch_ok m mem_size t ht oc hoc
  · intro m t oc mn ht hoc hi hl ho hir
    have hx := traced_jump_execute ds m mem_size t oc mn ht hoc hi hl ho hir
    refine ⟨?_, ?_, ?_⟩
    · intro hgt
      rw [hx, if_pos hgt]
    · intro hle hlen
      rw [hx, if_neg (by omega), if_pos hlen]
    · intro hle hlt
      rw [hx, if_neg (by omega), if_neg (by omega)]
      exact jumps_switch_ok m mem_size t ht oc hoc
  · intro m fuel hr hp
    have hstep : ∀ stop : m86_stop,
        fetch m.cpu m.mem mem_size program_size = .error stop →
        m86_boot_up_loop ds trace mem_size program_size (fuel + 1) m = .error stop := by
      intro stop hf
      unfold m86_boot_up_loop
      rw [if_pos hr]
      simp only [bind, Except.bind, hf]
    constructor
    · intro hip
      apply hstep
      rw [fetch_beyond_program m.cpu m.mem mem_size program_size hsize hp (by omega),
        if_pos hip]
    · intro hip hlt
      apply hstep
      rw [fetch_beyond_program m.cpu m.mem mem_size program_size hsize hp hip,
        if_neg (by omega)]
  · intro m fuel
    exact ⟨boot_up_loop_log_fst ds trace mem_size program_size fuel m,
      boot_up_loop_log_below ds trace mem_size program_size hsize fuel m⟩

theorem C16_out_of_range_jumps_witness :
    (execute catalogue_dataset false
        ⟨true, ⟨0, 0x0A010063, 1, 0⟩, m_allocate_init 20 0, [], []⟩ 20 ⟨JMPI, (99 : Nat)⟩
      = .ok ⟨true, ⟨0, 0x0A010063, 99, 0⟩, m_allocate_init 20 0, [], []⟩ ∨
     execute catalogue_dataset false
        ⟨true, ⟨0, 0x0A010063, 1, 0⟩, m_allocate_init 20 0, [], []⟩ 20 ⟨JMPI, (99 : Nat)⟩
      = .ok ⟨true, ⟨0, 0x0A010063, 1, 0⟩, m_allocate_init 20 0, [], []⟩) ∧
    execute catalogue_dataset true
        ⟨true, ⟨0, 0x0A010063, 1, 0⟩, m_allocate_init 20 0, [], []⟩ 20 ⟨JMPI, (99 : Nat)⟩
      = .error (.fatal "Micro86 ERROR: memory violation!" ⟨0, 0x0A010063, 1, 0⟩
          (m_allocate_init 20 0)) ∧
    (execute catalogue_dataset true
        ⟨true, ⟨0, 0x0A010010, 1, 0⟩, m_allocate_init 20 0, [], []⟩ 20 ⟨JMPI, (16 : Nat)⟩
      = .ok ⟨true, ⟨0, 0x0A010010, 16, 0⟩, m_allocate_init 20 0, [], []⟩ ∨
     execute catalogue_dataset true
        ⟨true, ⟨0, 0x0A010010, 1, 0⟩, m_allocate_init 20 0, [], []⟩ 20 ⟨JMPI, (16 : Nat)⟩
      = .ok ⟨true, ⟨0, 0x0A010010, 1, 0⟩, m_allocate_init 20 0, [], []⟩) ∧
    m86_boot_up_loop catalogue_dataset true 20 3 5
        ⟨true, ⟨0, 0x0A010010, 16, 0⟩, m_allocate_init 20 0, [], []⟩
      = .error (.fatal "Micro86 ERROR: program end reached!" ⟨0, 0x0A010010, 17, 0⟩
          (m_allocate_init 20 0)) ∧
    m86_boot_up_loop catalogue_dataset false 20 3 5
        ⟨true, ⟨0, 0x0A010063, 99, 0⟩, m_allocate_init 20 0, [], []⟩
      = .error (.fatal "Micro86 ERROR: memory violation!" ⟨0, 0x0A010063, 99, 0⟩
          (m_allocate_init 20 0)) :=
  ⟨(C16_out_of_range_jumps catalogue_dataset false 20 3 (by decide) (by decide)).1
      ⟨true, ⟨0, 0x0A010063, 1, 0⟩, m_allocate_init 20 0, [], []⟩ 99 JMPI
      (by decide) (by decide),
   ((C16_out_of_range_jumps catalogue_dataset true 20 3 (by decide) (by decide)).2.1
      ⟨true, ⟨0, 0x0A010063, 1, 0⟩, m_allocate_init 20 0, [], []⟩ 99 JMPI "JMPI"
      (by decide) (by decide) rfl rfl rfl rfl).1 (by decide),
   ((C16_out_of_range_jumps catalogue_dataset true 20 3 (by decide) (by decide)).2.1
      ⟨true, ⟨0, 0x0A010010, 1, 0⟩, m_allocate_init 20 0, [], []⟩ 16 JMPI "JMPI"
      (by decide) (by decide) rfl rfl rfl rfl).2.2 (by decide) (by decide),
   ((C16_out_of_range_jumps catalogue_dataset true 20 3 (by decide) (by decide)).2.2.1
      ⟨true, ⟨0, 0x0A010010, 16, 0⟩, m_allocate_init 20 0, [], []⟩ 4 rfl (by decide)).2
      (by decide) (by decide),
   ((C16_out_of_range_jumps catalogue_dataset false 20 3 (by decide) (by decide)).2.2.1
      ⟨true, ⟨0, 0x0A010063, 99, 0⟩, m_allocate_init 20 0, [], []⟩ 4 rfl (by decide)).1
      (by decide)⟩

end Micro86
